import Mathlib

/-!
# SmartPointers: a shallow embedding of the reference-counting handles

The development embeds the C++ headers of the repository as pure functions
over an explicit heap:

* `weak/sw_fwd.h`, `weak/weak.h`, `shared-from-this/shared.h`: the weak-enabled
  implementation, in namespace `WeakEnabled`;
* `shared/shared.h`: the implementation without weak handles, in namespace `Plain`;
* `unique/unique.h`: the exclusive-ownership pointer, in namespace `Unique`;
* `intrusive/intrusive.h`: the self-counting pointer, in namespace `Intrusive`.

Modelling conventions.

* A raw object pointer is `Ptr = Option Addr`, `none` being `nullptr`.  The
  address of the storage embedded in control block `b` is `Addr.inBlock b`;
  every other object address is `Addr.raw a`.
* A control-block pointer is `Option Nat`, `none` being `nullptr`.
* The heap keeps the two `int` counters of every block as mathematical
  integers (signed overflow is undefined in C++ and needs 2^31 live handles),
  and a ghost log of the construction, destruction and deallocation events in
  program order.  Storage that has been freed stays readable in the model:
  the log is what tells that a block or an object is gone.
* Dereferencing a null block pointer has no successor state: such operations
  return `Option`, and `none` stands for undefined behaviour.
* The destructor of a pointee is an event of the log.  The pointee of the
  handle-level operations is a plain object whose destructor touches no
  control block; the self-observing mix-in is modelled separately with the
  embedded `weak_ptr_` passed explicitly.
-/

namespace SmartPointers

/-- Address of a pointee: either some raw address, or the storage embedded in
control block `b` (`ControlBlockForNewObject::memory_block_`). -/
inductive Addr where
  | raw (a : Nat)
  | inBlock (b : Nat)
  deriving DecidableEq, Repr

/-- Raw object pointer `T*`; `none` is `nullptr`. -/
abbrev Ptr := Option Addr

/-- Ghost events, logged in program order. -/
inductive Event where
  /-- placement-new of the embedded object from the forwarded arguments -/
  | construct (a : Addr) (args : List Int)
  /-- the expression `delete p` on a non-null object pointer: destructor and deallocation -/
  | deleteObject (a : Addr)
  /-- the in-place destructor call `p->~T()` -/
  | destroyAt (a : Addr)
  /-- the expression `delete block` -/
  | deleteBlock (b : Nat)
  deriving DecidableEq, Repr

/-- Dynamic type of a control block. -/
inductive BlockKind where
  | Base
  | ForExistedObject
  | ForNewObject
  deriving DecidableEq, Repr

/-- Fields of `ControlBlock` and of its two derived classes.  `object_` is the
field of `ControlBlockForExistedObject`; it is unused for the other kinds.
The counters hold the mathematical value of the source's 32-bit `int` fields:
`++` on `INT_MAX` is a signed overflow, which C++ leaves undefined, so every
statement about an increment assumes the counter is below `INT_MAX`. -/
structure ControlBlock where
  strong_counter_ : Int
  weak_counter_ : Int
  kind : BlockKind
  object_ : Ptr
  deriving DecidableEq, Repr

/-- Largest value of the 32-bit type `int` of the counters. -/
def INT_MAX : Int := 2 ^ 31 - 1

/-- Zeroed storage. -/
def ControlBlock.zero : ControlBlock :=
  { strong_counter_ := 0, weak_counter_ := 0, kind := BlockKind.Base, object_ := none }

/-- The heap: contents of every control block, the allocation frontier
(blocks `0 .. next - 1` have been returned by `new`), and the event log. -/
structure Heap where
  block : Nat → ControlBlock
  next : Nat
  log : List Event

/-- The heap before any allocation. -/
def Heap.empty : Heap :=
  { block := fun _ => ControlBlock.zero, next := 0, log := [] }

/-- Overwrite the contents of block `b`. -/
def Heap.setBlock (h : Heap) (b : Nat) (c : ControlBlock) : Heap :=
  { h with block := fun i => if i = b then c else h.block i }

/-- Append an event to the log. -/
def Heap.emit (h : Heap) (e : Event) : Heap :=
  { h with log := h.log ++ [e] }

/-- The expression `new Block(...)`: the fresh block sits at address `h.next`. -/
def Heap.alloc (h : Heap) (c : ControlBlock) : Heap × Nat :=
  ({ block := fun i => if i = h.next then c else h.block i, next := h.next + 1, log := h.log },
   h.next)

/-- Value of `block->GetStrongCounter()`. -/
def GetStrongCounter (h : Heap) (b : Nat) : Int := (h.block b).strong_counter_

/-- Value of `block->GetWeakCounter()`. -/
def GetWeakCounter (h : Heap) (b : Nat) : Int := (h.block b).weak_counter_

/-- Assignment through the reference returned by `GetStrongCounter()`. -/
def setStrong (h : Heap) (b : Nat) (v : Int) : Heap :=
  h.setBlock b { h.block b with strong_counter_ := v }

/-- Assignment through the reference returned by `GetWeakCounter()`. -/
def setWeak (h : Heap) (b : Nat) (v : Int) : Heap :=
  h.setBlock b { h.block b with weak_counter_ := v }

/-- Conversion `int -> size_t` (64 bit): the identity on non-negative values. -/
def toSizeT (v : Int) : Nat := if 0 ≤ v then v.toNat else (v + 2 ^ 64).toNat

/-- The expression `delete p` for an object pointer: nothing for `nullptr`.  The
destructor of the object is taken to touch no control block, which holds for
every pointee whose type does not derive from `EnableSharedFromThis`;
`WeakEnabled.destroySelf` describes the other pointees. -/
def deletePtr (h : Heap) (p : Ptr) : Heap :=
  match p with
  | none => h
  | some a => h.emit (Event.deleteObject a)

/-- Number of times the object at address `a` has been destroyed (by `delete`
or by an in-place destructor call). -/
def destroyedCount (log : List Event) (a : Addr) : Nat :=
  log.count (Event.deleteObject a) + log.count (Event.destroyAt a)

/-- Number of times block `b` has been freed. -/
def freedCount (log : List Event) (b : Nat) : Nat :=
  log.count (Event.deleteBlock b)

/-- The object owned by block `b`: `object_` of an external-storage block, the
embedded storage of an embedded-storage block. -/
def ownedObject (h : Heap) (b : Nat) : Ptr :=
  match (h.block b).kind with
  | BlockKind.Base => none
  | BlockKind.ForExistedObject => (h.block b).object_
  | BlockKind.ForNewObject => some (Addr.inBlock b)

/-- Number of times the object owned by block `b` has been destroyed. -/
def ownedDestroyed (h : Heap) (b : Nat) : Nat :=
  match ownedObject h b with
  | none => 0
  | some a => destroyedCount h.log a

/-- Fields of `SharedPtr<T>`. -/
structure SharedPtr where
  pointer_ : Ptr
  block_ : Option Nat
  deriving DecidableEq, Repr

/-- Fields of `WeakPtr<T>`. -/
structure WeakPtr where
  block_weak_ : Option Nat
  object_ : Ptr
  deriving DecidableEq, Repr

/-- The exception type `BadWeakPtr`. -/
inductive BadWeakPtr where
  | mk
  deriving DecidableEq, Repr

/-- The exception `std::bad_alloc` thrown by a failing `new`. -/
inductive BadAlloc where
  | mk
  deriving DecidableEq, Repr

/-- Result of `SharedPtr()` and `SharedPtr(nullptr)`. -/
def SharedPtr.null : SharedPtr := { pointer_ := none, block_ := none }

/-- Result of `WeakPtr()`. -/
def WeakPtr.null : WeakPtr := { block_weak_ := none, object_ := none }

/-- Member `SharedPtr::Get`. -/
def SharedPtr.Get (s : SharedPtr) : Ptr := s.pointer_

/-- Member `SharedPtr::UseCount`. -/
def SharedPtr.UseCount (h : Heap) (s : SharedPtr) : Nat :=
  match s.block_ with
  | none => 0
  | some b => toSizeT (GetStrongCounter h b)

/-- Member `SharedPtr::operator bool`. -/
def SharedPtr.toBool (s : SharedPtr) : Bool :=
  match s.block_ with
  | none => false
  | some _ => true

/-- Member `SharedPtr::Swap`: returns the new `*this` and the new `other`. -/
def SharedPtr.Swap (this other : SharedPtr) : SharedPtr × SharedPtr := (other, this)

/-! ## The weak-enabled implementation (`sw_fwd.h`, `weak.h`, `shared-from-this/shared.h`) -/

namespace WeakEnabled

/-- Virtual call `block->DeleteObject()` (sw_fwd.h): nothing for the base
class, `delete object_` for `ControlBlockForExistedObject`, the in-place
destructor of the embedded object for `ControlBlockForNewObject` (whose
`GetObject()` is never null).  The destructor of the object is taken to touch
no control block; `DeleteObjectSelf` is the call on a block whose object is of
a type deriving from `EnableSharedFromThis`. -/
def DeleteObject (h : Heap) (b : Nat) : Heap :=
  match (h.block b).kind with
  | BlockKind.Base => h
  | BlockKind.ForExistedObject => deletePtr h (h.block b).object_
  | BlockKind.ForNewObject => h.emit (Event.destroyAt (Addr.inBlock b))

/-- The expression `delete block`: every destructor body of sw_fwd.h is empty,
so only the storage is released. -/
def deleteBlock (h : Heap) (b : Nat) : Heap := h.emit (Event.deleteBlock b)

/-- The statement `if (block_) { --strong; ... }` that opens `~SharedPtr`,
`Reset`, `Reset(ptr)` and both assignment operators of
shared-from-this/shared.h. -/
def SharedPtr.release (h : Heap) (this : SharedPtr) : Heap :=
  match this.block_ with
  | none => h
  | some b =>
    let h1 := setStrong h b (GetStrongCounter h b - 1)
    if GetStrongCounter h1 b = 0 ∧ GetWeakCounter h1 b = 0 then
      deleteBlock (DeleteObject h1 b) b
    else if GetStrongCounter h1 b = 0 then
      DeleteObject h1 b
    else
      h1

/-- Constructor `SharedPtr(T* ptr)` for a pointee that is not self-observing:
allocates a `ControlBlockForExistedObject` with strong count 1. -/
def SharedPtr.ctorPtr (h : Heap) (ptr : Ptr) : Heap × SharedPtr :=
  let r := h.alloc { strong_counter_ := 1, weak_counter_ := 0,
                     kind := BlockKind.ForExistedObject, object_ := ptr }
  (r.1, { pointer_ := ptr, block_ := some r.2 })

/-- The expression `new ControlBlockForNewObject<T>(args...)` of sw_fwd.h: strong
count 1 and the object constructed in the embedded storage (also for an empty
argument list). -/
def newControlBlockForNewObject (h : Heap) (args : List Int) : Heap × Nat :=
  let r := h.alloc { strong_counter_ := 1, weak_counter_ := 0,
                     kind := BlockKind.ForNewObject, object_ := none }
  (r.1.emit (Event.construct (Addr.inBlock r.2) args), r.2)

/-- Constructor `SharedPtr(ControlBlockForNewObject<T>* block)`. -/
def SharedPtr.ctorBlock (b : Nat) : SharedPtr :=
  { pointer_ := some (Addr.inBlock b), block_ := some b }

/-- Function `MakeShared<T>(args...)` for a pointee that is not self-observing. -/
def MakeShared (h : Heap) (args : List Int) : Heap × SharedPtr :=
  let r := newControlBlockForNewObject h args
  (r.1, SharedPtr.ctorBlock r.2)

/-- Copy constructor `SharedPtr(const SharedPtr& other)`. -/
def SharedPtr.ctorCopy (h : Heap) (other : SharedPtr) : Heap × SharedPtr :=
  match other.block_ with
  | none => (h, { pointer_ := other.pointer_, block_ := none })
  | some b =>
    (setStrong h b (GetStrongCounter h b + 1), { pointer_ := other.pointer_, block_ := some b })

/-- Move constructor `SharedPtr(SharedPtr&& other)`: the new handle and the
new value of `other`. -/
def SharedPtr.ctorMove (other : SharedPtr) : SharedPtr × SharedPtr :=
  ({ pointer_ := other.pointer_, block_ := other.block_ }, SharedPtr.null)

/-- Aliasing constructor `SharedPtr(const SharedPtr<Pointer>& other, T* ptr)`.
The member `block_` starts as `nullptr` (default member initialiser), so the
release statement finds nothing; then `block_ = other.block_` is dereferenced. -/
def SharedPtr.ctorAlias (h : Heap) (other : SharedPtr) (ptr : Ptr) : Option (Heap × SharedPtr) :=
  let h0 := SharedPtr.release h { pointer_ := ptr, block_ := none }
  match other.block_ with
  | none => none
  | some b =>
    some (setStrong h0 b (GetStrongCounter h0 b + 1), { pointer_ := ptr, block_ := some b })

/-- Member `WeakPtr::UseCount`. -/
def WeakPtr.UseCount (h : Heap) (w : WeakPtr) : Nat :=
  match w.block_weak_ with
  | none => 0
  | some b => toSizeT (GetStrongCounter h b)

/-- Member `WeakPtr::Expired`.  The second test dereferences `block_weak_`,
which is non-null there because `UseCount()` was non-zero. -/
def WeakPtr.Expired (h : Heap) (w : WeakPtr) : Bool :=
  if WeakPtr.UseCount h w = 0 then true
  else
    match w.block_weak_ with
    | none => true
    | some b => if GetStrongCounter h b = 0 then true else false

/-- Promoting constructor `SharedPtr(const WeakPtr<T>& other)`: throws
`BadWeakPtr` when `other.Expired()`, before anything is written.  The heap at
the end of the call is returned on both paths. -/
def SharedPtr.ctorPromote (h : Heap) (other : WeakPtr) : Heap × Except BadWeakPtr SharedPtr :=
  if WeakPtr.Expired h other then (h, Except.error BadWeakPtr.mk)
  else
    match other.block_weak_ with
    | none => (h, Except.error BadWeakPtr.mk)
    | some b =>
      (setStrong h b (GetStrongCounter h b + 1),
       Except.ok { pointer_ := other.object_, block_ := some b })

/-- Copy assignment `SharedPtr::operator=(const SharedPtr& other)`; `same` is the
test `this == &other`. -/
def SharedPtr.assignCopy (h : Heap) (this other : SharedPtr) (same : Bool) : Heap × SharedPtr :=
  if same then (h, this)
  else
    let h1 := SharedPtr.release h this
    match other.block_ with
    | none => (h1, { pointer_ := other.pointer_, block_ := none })
    | some b =>
      (setStrong h1 b (GetStrongCounter h1 b + 1), { pointer_ := other.pointer_, block_ := some b })

/-- Move assignment `SharedPtr::operator=(SharedPtr&& other)`: the heap, the new
`*this` and the new `other`. -/
def SharedPtr.assignMove (h : Heap) (this other : SharedPtr) (same : Bool) :
    Heap × SharedPtr × SharedPtr :=
  if same then (h, this, other)
  else (SharedPtr.release h this, { pointer_ := other.pointer_, block_ := other.block_ },
        SharedPtr.null)

/-- Destructor `~SharedPtr`. -/
def SharedPtr.dtor (h : Heap) (this : SharedPtr) : Heap := SharedPtr.release h this

/-- Member `SharedPtr::Reset()`. -/
def SharedPtr.Reset (h : Heap) (this : SharedPtr) : Heap × SharedPtr :=
  (SharedPtr.release h this, SharedPtr.null)

/-- Member `SharedPtr::Reset(T* ptr)`. -/
def SharedPtr.ResetPtr (h : Heap) (this : SharedPtr) (ptr : Ptr) : Heap × SharedPtr :=
  let h1 := SharedPtr.release h this
  let r := h1.alloc { strong_counter_ := 1, weak_counter_ := 0,
                      kind := BlockKind.ForExistedObject, object_ := ptr }
  (r.1, { pointer_ := ptr, block_ := some r.2 })

/-- Private member `WeakPtr::Deleter` (weak.h). -/
def WeakPtr.Deleter (h : Heap) (this : WeakPtr) : Heap :=
  match this.block_weak_ with
  | none => h
  | some b =>
    let h1 := setWeak h b (GetWeakCounter h b - 1)
    if GetWeakCounter h1 b = 0 ∧ GetStrongCounter h1 b = 0 then
      deleteBlock h1 b
    else if GetWeakCounter h1 b = 0 ∧ GetStrongCounter h1 b > 0 then
      h1
    else if GetWeakCounter h1 b > 0 ∧ GetStrongCounter h1 b = 0 then
      deletePtr h1 this.object_
    else
      h1

/-- Copy constructor `WeakPtr(const WeakPtr& other)`. -/
def WeakPtr.ctorCopy (h : Heap) (other : WeakPtr) : Heap × WeakPtr :=
  match other.block_weak_ with
  | none => (h, { block_weak_ := none, object_ := other.object_ })
  | some b =>
    (setWeak h b (GetWeakCounter h b + 1), { block_weak_ := some b, object_ := other.object_ })

/-- Move constructor `WeakPtr(WeakPtr&& other)`: the new handle and the new
value of `other`. -/
def WeakPtr.ctorMove (other : WeakPtr) : WeakPtr × WeakPtr :=
  ({ block_weak_ := other.block_weak_, object_ := other.object_ }, WeakPtr.null)

/-- Demoting constructor `WeakPtr(const SharedPtr<T>& other)`: the weak counter
is incremented through `block_weak_` without a null test. -/
def WeakPtr.ctorShared (h : Heap) (other : SharedPtr) : Option (Heap × WeakPtr) :=
  match other.block_ with
  | none => none
  | some b =>
    some (setWeak h b (GetWeakCounter h b + 1), { block_weak_ := some b, object_ := other.pointer_ })

/-- Copy assignment `WeakPtr::operator=(const WeakPtr& other)`: there is no
self-assignment test; `other` is read after `Deleter()` has run. -/
def WeakPtr.assignCopy (h : Heap) (this other : WeakPtr) : Heap × WeakPtr :=
  let h1 := WeakPtr.Deleter h this
  match other.block_weak_ with
  | none => (h1, { block_weak_ := none, object_ := other.object_ })
  | some b =>
    (setWeak h1 b (GetWeakCounter h1 b + 1), { block_weak_ := some b, object_ := other.object_ })

/-- Move assignment `WeakPtr::operator=(WeakPtr&& other)` on two distinct
handles: the heap, the new `*this` and the new `other`. -/
def WeakPtr.assignMove (h : Heap) (this other : WeakPtr) : Heap × WeakPtr × WeakPtr :=
  (WeakPtr.Deleter h this, { block_weak_ := other.block_weak_, object_ := other.object_ },
   WeakPtr.null)

/-- Destructor `~WeakPtr`. -/
def WeakPtr.dtor (h : Heap) (this : WeakPtr) : Heap := WeakPtr.Deleter h this

/-- Member `WeakPtr::Reset`. -/
def WeakPtr.Reset (h : Heap) (this : WeakPtr) : Heap × WeakPtr :=
  (WeakPtr.Deleter h this, WeakPtr.null)

/-- Member `WeakPtr::Swap`: the new `*this` and the new `other`. -/
def WeakPtr.Swap (this other : WeakPtr) : WeakPtr × WeakPtr := (other, this)

/-- Member `WeakPtr::Lock`. -/
def WeakPtr.Lock (h : Heap) (w : WeakPtr) : Heap × Except BadWeakPtr SharedPtr :=
  if WeakPtr.Expired h w then (h, Except.ok SharedPtr.null)
  else SharedPtr.ctorPromote h w

/-! ### The self-observing mix-in

The base-class subobject `EnableSharedFromThis<T>` of a pointee is passed
explicitly: the constructors that take ownership of a self-observing pointee
receive the subobject and return its new value. -/

/-- Fields of `EnableSharedFromThis<T>`. -/
structure EnableSharedFromThis where
  weak_ptr_ : WeakPtr
  deriving DecidableEq, Repr

/-- A freshly constructed subobject: `weak_ptr_` is default-constructed. -/
def EnableSharedFromThis.fresh : EnableSharedFromThis := { weak_ptr_ := WeakPtr.null }

/-- Member `SharedPtr::InitializeWeak`: the statement `obj->weak_ptr_ = *this`
converts `*this` to a temporary `WeakPtr` (demoting constructor), move-assigns
it, and destroys the temporary. -/
def SharedPtr.InitializeWeak (h : Heap) (this : SharedPtr) (obj : EnableSharedFromThis) :
    Option (Heap × EnableSharedFromThis) :=
  (WeakPtr.ctorShared h this).map fun r =>
    let m := WeakPtr.assignMove r.1 obj.weak_ptr_ r.2
    (WeakPtr.dtor m.1 m.2.2, { weak_ptr_ := m.2.1 })

/-- Constructor `SharedPtr(T* ptr)` over a pointee at `ptr` whose type derives
from `EnableSharedFromThis`, `obj` being its base-class subobject.  `conv` is
the value of the compile-time test
`std::is_convertible_v<T*, EnableSharedFromThisBase*>` on the element type `T`
of the handle (false for `SharedPtr<const D>` or for `SharedPtr<Base>` with a
`Base` that does not derive from it): only then `InitializeWeak(ptr)` runs,
and it dereferences `ptr`. -/
def SharedPtr.ctorPtrSelf (conv : Bool) (h : Heap) (ptr : Ptr) (obj : EnableSharedFromThis) :
    Option (Heap × SharedPtr × EnableSharedFromThis) :=
  if conv then
    match ptr with
    | none => none
    | some _ =>
      let r := SharedPtr.ctorPtr h ptr
      (SharedPtr.InitializeWeak r.1 r.2 obj).map fun q => (q.1, r.2, q.2)
  else
    some ((SharedPtr.ctorPtr h ptr).1, (SharedPtr.ctorPtr h ptr).2, obj)

/-- Function `MakeShared<T>(args...)` for a pointee type deriving from
`EnableSharedFromThis`: the embedded object is constructed with an empty
`weak_ptr_`, then the adopting constructor calls `InitializeWeak(pointer_)` when
the compile-time test `conv` on the handle's element type holds. -/
def MakeSharedSelf (conv : Bool) (h : Heap) (args : List Int) :
    Option (Heap × SharedPtr × EnableSharedFromThis) :=
  let r := newControlBlockForNewObject h args
  if conv then
    (SharedPtr.InitializeWeak r.1 (SharedPtr.ctorBlock r.2) EnableSharedFromThis.fresh).map
      fun q => (q.1, SharedPtr.ctorBlock r.2, q.2)
  else
    some (r.1, SharedPtr.ctorBlock r.2, EnableSharedFromThis.fresh)

/-- Member `EnableSharedFromThis::WeakFromThis`: returns a copy of `weak_ptr_`. -/
def WeakFromThis (h : Heap) (obj : EnableSharedFromThis) : Heap × WeakPtr :=
  WeakPtr.ctorCopy h obj.weak_ptr_

/-- Member `EnableSharedFromThis::SharedFromThis`: promotes `weak_ptr_`. -/
def SharedFromThis (h : Heap) (obj : EnableSharedFromThis) : Heap × Except BadWeakPtr SharedPtr :=
  SharedPtr.ctorPromote h obj.weak_ptr_

/-- The heap after `n` copy constructions from `s` (the copies stay alive). -/
def copyN : Nat → Heap → SharedPtr → Heap
  | 0, h, _ => h
  | n + 1, h, s => copyN n (SharedPtr.ctorCopy h s).1 s

/-- A handle of either kind. -/
inductive Handle where
  | shared (s : SharedPtr)
  | weak (w : WeakPtr)
  deriving DecidableEq, Repr

/-- The control block a handle references. -/
def Handle.block : Handle → Option Nat
  | Handle.shared s => s.block_
  | Handle.weak w => w.block_weak_

/-- Whether the handle is a shared one. -/
def Handle.isShared : Handle → Bool
  | Handle.shared _ => true
  | Handle.weak _ => false

/-- Destructor of a handle of either kind. -/
def Handle.dtor (h : Heap) : Handle → Heap
  | Handle.shared s => SharedPtr.dtor h s
  | Handle.weak w => WeakPtr.dtor h w

/-- Destructors of a list of handles, from left to right. -/
def dtorAll (h : Heap) (xs : List Handle) : Heap := xs.foldl Handle.dtor h

/-- What self-observation promises of a shared handle `sp` over a self-observing
pointee with subobject `obj`, once `n` further copies of `sp` have been made
(use-count `n + 1`): `WeakFromThis()` returns a non-expired weak handle on the
block of `sp` without changing the use-count, and both `Lock()` on it and
`SharedFromThis()` return a shared handle on the block of `sp` with the same
`Get()` and use-count `n + 2`. -/
def SelfObserved (h1 : Heap) (sp : SharedPtr) (obj : EnableSharedFromThis) (n : Nat) : Prop :=
  SharedPtr.UseCount (copyN n h1 sp) sp = n + 1 ∧
  WeakPtr.Expired (WeakFromThis (copyN n h1 sp) obj).1 (WeakFromThis (copyN n h1 sp) obj).2
    = false ∧
  (WeakFromThis (copyN n h1 sp) obj).2.block_weak_ = sp.block_ ∧
  SharedPtr.UseCount (WeakFromThis (copyN n h1 sp) obj).1 sp = n + 1 ∧
  (∃ h2 r, WeakPtr.Lock (WeakFromThis (copyN n h1 sp) obj).1 (WeakFromThis (copyN n h1 sp) obj).2
      = (h2, Except.ok r) ∧
    r.Get = sp.Get ∧ r.block_ = sp.block_ ∧ SharedPtr.UseCount h2 r = n + 2) ∧
  (∃ h2 r, SharedFromThis (copyN n h1 sp) obj = (h2, Except.ok r) ∧
    r.Get = sp.Get ∧ r.block_ = sp.block_ ∧ SharedPtr.UseCount h2 r = n + 2)

/-! ### Programs over handle variables

A program state holds the heap and the handle variables that have been
declared so far; a variable whose destructor has run is `none`.  An operation
names its operands by position.  `step` returns `none` when an operand is not
a live variable or when the operation dereferences a null block pointer. -/

/-- Program state: heap, shared-handle variables, weak-handle variables, and
the next raw address the object allocator hands out. -/
structure Prog where
  heap : Heap
  shared : List (Option SharedPtr)
  weak : List (Option WeakPtr)
  fresh : Nat

/-- The program state before any handle exists. -/
def Prog.init : Prog := { heap := Heap.empty, shared := [], weak := [], fresh := 0 }

/-- The live shared handle held by variable `i`. -/
def Prog.sharedAt (p : Prog) (i : Nat) : Option SharedPtr := (p.shared.get? i).join

/-- The live weak handle held by variable `j`. -/
def Prog.weakAt (p : Prog) (j : Nat) : Option WeakPtr := (p.weak.get? j).join

/-- The public handle operations. -/
inductive Op where
  /-- declare `SharedPtr<T> s;` -/
  | sharedNull
  /-- declare `SharedPtr<T> s(new T);` over a freshly allocated object -/
  | wrap
  /-- declare `auto s = MakeShared<T>(args...);` -/
  | makeShared (args : List Int)
  /-- declare `SharedPtr<T> s(si);` -/
  | copy (i : Nat)
  /-- declare `SharedPtr<T> s(std::move(si));` -/
  | move (i : Nat)
  /-- declare `SharedPtr<T> s(si, ptr);` -/
  | alias (i : Nat) (ptr : Ptr)
  /-- declare `SharedPtr<T> s(wj);`, which may throw -/
  | promote (j : Nat)
  /-- declare `auto s = wj.Lock();` -/
  | lock (j : Nat)
  /-- statement `si = sk;` -/
  | assign (i k : Nat)
  /-- statement `si = std::move(sk);` -/
  | assignMove (i k : Nat)
  /-- statement `si.Reset();` -/
  | reset (i : Nat)
  /-- statement `si.Reset(new T);` over a freshly allocated object -/
  | resetPtr (i : Nat)
  /-- statement `si.Swap(sk);` -/
  | swap (i k : Nat)
  /-- end of the lifetime of `si` -/
  | destroy (i : Nat)
  /-- declare `WeakPtr<T> w;` -/
  | weakNull
  /-- declare `WeakPtr<T> w(si);` -/
  | weakOfShared (i : Nat)
  /-- declare `WeakPtr<T> w(wj);` -/
  | weakCopy (j : Nat)
  /-- declare `WeakPtr<T> w(std::move(wj));` -/
  | weakMove (j : Nat)
  /-- statement `wj = wl;` -/
  | weakAssign (j l : Nat)
  /-- statement `wj = std::move(wl);` -/
  | weakAssignMove (j l : Nat)
  /-- statement `wj.Reset();` -/
  | weakReset (j : Nat)
  /-- statement `wj.Swap(wl);` -/
  | weakSwap (j l : Nat)
  /-- end of the lifetime of `wj` -/
  | weakDestroy (j : Nat)
  deriving DecidableEq, Repr

/-- One operation of a program. -/
def step (p : Prog) : Op → Option Prog
  | Op.sharedNull => some { p with shared := p.shared ++ [some SharedPtr.null] }
  | Op.wrap =>
    let r := SharedPtr.ctorPtr p.heap (some (Addr.raw p.fresh))
    some { p with heap := r.1, shared := p.shared ++ [some r.2], fresh := p.fresh + 1 }
  | Op.makeShared args =>
    let r := MakeShared p.heap args
    some { p with heap := r.1, shared := p.shared ++ [some r.2] }
  | Op.copy i =>
    (p.sharedAt i).map fun s =>
      let r := SharedPtr.ctorCopy p.heap s
      { p with heap := r.1, shared := p.shared ++ [some r.2] }
  | Op.move i =>
    (p.sharedAt i).map fun s =>
      let r := SharedPtr.ctorMove s
      { p with shared := (p.shared.set i (some r.2)) ++ [some r.1] }
  | Op.alias i ptr =>
    (p.sharedAt i).bind fun s =>
      (SharedPtr.ctorAlias p.heap s ptr).map fun r =>
        { p with heap := r.1, shared := p.shared ++ [some r.2] }
  | Op.promote j =>
    (p.weakAt j).map fun w =>
      match SharedPtr.ctorPromote p.heap w with
      | (h, Except.ok s) => { p with heap := h, shared := p.shared ++ [some s] }
      | (h, Except.error _) => { p with heap := h }
  | Op.lock j =>
    (p.weakAt j).map fun w =>
      match WeakPtr.Lock p.heap w with
      | (h, Except.ok s) => { p with heap := h, shared := p.shared ++ [some s] }
      | (h, Except.error _) => { p with heap := h }
  | Op.assign i k =>
    (p.sharedAt i).bind fun this =>
      (p.sharedAt k).map fun other =>
        let r := SharedPtr.assignCopy p.heap this other (i == k)
        { p with heap := r.1, shared := p.shared.set i (some r.2) }
  | Op.assignMove i k =>
    (p.sharedAt i).bind fun this =>
      (p.sharedAt k).map fun other =>
        let r := SharedPtr.assignMove p.heap this other (i == k)
        { p with heap := r.1, shared := (p.shared.set i (some r.2.1)).set k (some r.2.2) }
  | Op.reset i =>
    (p.sharedAt i).map fun s =>
      let r := SharedPtr.Reset p.heap s
      { p with heap := r.1, shared := p.shared.set i (some r.2) }
  | Op.resetPtr i =>
    (p.sharedAt i).map fun s =>
      let r := SharedPtr.ResetPtr p.heap s (some (Addr.raw p.fresh))
      { p with heap := r.1, shared := p.shared.set i (some r.2), fresh := p.fresh + 1 }
  | Op.swap i k =>
    (p.sharedAt i).bind fun this =>
      (p.sharedAt k).map fun other =>
        let r := SharedPtr.Swap this other
        { p with shared := (p.shared.set i (some r.1)).set k (some r.2) }
  | Op.destroy i =>
    (p.sharedAt i).map fun s =>
      { p with heap := SharedPtr.dtor p.heap s, shared := p.shared.set i none }
  | Op.weakNull => some { p with weak := p.weak ++ [some WeakPtr.null] }
  | Op.weakOfShared i =>
    (p.sharedAt i).bind fun s =>
      (WeakPtr.ctorShared p.heap s).map fun r =>
        { p with heap := r.1, weak := p.weak ++ [some r.2] }
  | Op.weakCopy j =>
    (p.weakAt j).map fun w =>
      let r := WeakPtr.ctorCopy p.heap w
      { p with heap := r.1, weak := p.weak ++ [some r.2] }
  | Op.weakMove j =>
    (p.weakAt j).map fun w =>
      let r := WeakPtr.ctorMove w
      { p with weak := (p.weak.set j (some r.2)) ++ [some r.1] }
  | Op.weakAssign j l =>
    (p.weakAt j).bind fun this =>
      (p.weakAt l).map fun other =>
        let r := WeakPtr.assignCopy p.heap this other
        { p with heap := r.1, weak := p.weak.set j (some r.2) }
  | Op.weakAssignMove j l =>
    (p.weakAt j).bind fun this =>
      (p.weakAt l).map fun other =>
        let r := WeakPtr.assignMove p.heap this other
        { p with heap := r.1, weak := (p.weak.set j (some r.2.1)).set l (some r.2.2) }
  | Op.weakReset j =>
    (p.weakAt j).map fun w =>
      let r := WeakPtr.Reset p.heap w
      { p with heap := r.1, weak := p.weak.set j (some r.2) }
  | Op.weakSwap j l =>
    (p.weakAt j).bind fun this =>
      (p.weakAt l).map fun other =>
        let r := WeakPtr.Swap this other
        { p with weak := (p.weak.set j (some r.1)).set l (some r.2) }
  | Op.weakDestroy j =>
    (p.weakAt j).map fun w =>
      { p with heap := WeakPtr.dtor p.heap w, weak := p.weak.set j none }

/-- A sequence of operations, from left to right. -/
def run (p : Prog) : List Op → Option Prog
  | [] => some p
  | op :: ops => (step p op).bind fun q => run q ops

/-- States reachable from the initial state. -/
def Reachable (p : Prog) : Prop := ∃ ops, run Prog.init ops = some p

/-- The heap after `k` successive calls `block->DeleteObject()` on block `b`. -/
def deleteObjectTimes : Nat → Heap → Nat → Heap
  | 0, h, _ => h
  | k + 1, h, b => deleteObjectTimes k (DeleteObject h b) b

/-- The heap a program ends with (the empty heap if the program has no
successor state). -/
def heapAfter (ops : List Op) : Heap :=
  ((run Prog.init ops).map fun p => p.heap).getD Heap.empty

/-- Example handle: a weak handle on block 0 observing the object at `raw 0`. -/
def exampleWeak : WeakPtr := { block_weak_ := some 0, object_ := some (Addr.raw 0) }

/-- Example handle: a shared handle on block 0 observing the object at `raw 0`. -/
def exampleShared : SharedPtr := { pointer_ := some (Addr.raw 0), block_ := some 0 }

/-! ### Further constructors, allocation failure, counting -/

/-- Template constructor `SharedPtr(ControlBlockForNewObject<Pointer>* block)`,
chosen when `Pointer` differs from `T`: it adopts the block and then executes
`++block_->GetStrongCounter()`. -/
def SharedPtr.ctorBlockOther (h : Heap) (b : Nat) : Heap × SharedPtr :=
  (setStrong h b (GetStrongCounter h b + 1),
   { pointer_ := some (Addr.inBlock b), block_ := some b })

/-- Constructor `SharedPtr(T* ptr)` under an allocator that may fail: `ok` tells
whether `new` succeeds.  On failure `std::bad_alloc` leaves the constructor and
no handle exists. -/
def SharedPtr.ctorPtrAlloc (ok : Bool) (h : Heap) (ptr : Ptr) :
    Heap × Except BadAlloc SharedPtr :=
  if ok then ((SharedPtr.ctorPtr h ptr).1, Except.ok (SharedPtr.ctorPtr h ptr).2)
  else (h, Except.error BadAlloc.mk)

/-- Member `SharedPtr::Reset(T* ptr)` under an allocator that may fail: the
release statement and `pointer_ = ptr` come before `new`; on failure
`std::bad_alloc` leaves the function there.  Returns the heap, the handle and the
outcome. -/
def SharedPtr.ResetPtrAlloc (ok : Bool) (h : Heap) (this : SharedPtr) (ptr : Ptr) :
    Heap × SharedPtr × Except BadAlloc Unit :=
  let h1 := SharedPtr.release h this
  if ok then
    let r := h1.alloc { strong_counter_ := 1, weak_counter_ := 0,
                        kind := BlockKind.ForExistedObject, object_ := ptr }
    (r.1, { pointer_ := ptr, block_ := some r.2 }, Except.ok ())
  else
    (h1, { pointer_ := ptr, block_ := this.block_ }, Except.error BadAlloc.mk)

/-- The block a shared-handle variable references (`none` for an empty handle
and for a variable whose lifetime has ended). -/
def blockOfShared : Option SharedPtr → Option Nat
  | some s => s.block_
  | none => none

/-- The block a weak-handle variable references. -/
def blockOfWeak : Option WeakPtr → Option Nat
  | some w => w.block_weak_
  | none => none

/-- Number of live shared handles that reference block `b`. -/
def countShared (p : Prog) (b : Nat) : Nat := (p.shared.map blockOfShared).count (some b)

/-- Number of live weak handles that reference block `b`. -/
def countWeak (p : Prog) (b : Nat) : Nat := (p.weak.map blockOfWeak).count (some b)

/-! ### Pointees deriving from `EnableSharedFromThis`: copy and destruction

`DeleteObject`, `deletePtr` and the operations built on them describe a pointee
whose destructor touches no control block.  The destructor of a pointee whose
type derives from `EnableSharedFromThis` ends with the destructor of the
base-class subobject, which destroys the member `weak_ptr_`; the definitions
below describe that instantiation, the subobject being passed explicitly. -/

/-- Implicit copy constructor of `EnableSharedFromThis<T>`, run by the copy
constructor of every deriving type: it copy-constructs `weak_ptr_`. -/
def EnableSharedFromThis.ctorCopy (h : Heap) (other : EnableSharedFromThis) :
    Heap × EnableSharedFromThis :=
  ((WeakPtr.ctorCopy h other.weak_ptr_).1, { weak_ptr_ := (WeakPtr.ctorCopy h other.weak_ptr_).2 })

/-- Whether `Deleter()` on `w` reaches its statement `delete object_` with a
non-null pointer: the weak count is still positive after the decrement and the
strong count is 0. -/
def WeakPtr.deletesObject (h : Heap) (w : WeakPtr) : Bool :=
  match w.block_weak_ with
  | none => false
  | some b =>
    decide (GetWeakCounter h b - 1 > 0 ∧ GetStrongCounter h b = 0) && w.object_.isSome

/-- The destruction of a pointee whose type derives from `EnableSharedFromThis`,
as executed by `delete p` or by `p->~T()` and logged as `e`: after the body of
`~T` the base-class subobject `obj` is destroyed, which runs `~WeakPtr` on
`weak_ptr_`.  The result is `none` where that `Deleter()` reaches
`delete object_`: it would delete an object from inside the destructor of the
pointee (for a linked pointee, the pointee itself, once more), and nothing is
described from there on. -/
def destroySelf (h : Heap) (e : Event) (obj : EnableSharedFromThis) : Option Heap :=
  if WeakPtr.deletesObject (h.emit e) obj.weak_ptr_ then none
  else some (WeakPtr.dtor (h.emit e) obj.weak_ptr_)

/-- Virtual call `block->DeleteObject()` on a block whose object is of a type
deriving from `EnableSharedFromThis`; `obj` is the base-class subobject of that
object. -/
def DeleteObjectSelf (h : Heap) (b : Nat) (obj : EnableSharedFromThis) : Option Heap :=
  match (h.block b).kind with
  | BlockKind.Base => some h
  | BlockKind.ForExistedObject =>
    match (h.block b).object_ with
    | none => some h
    | some a => destroySelf h (Event.deleteObject a) obj
  | BlockKind.ForNewObject => destroySelf h (Event.destroyAt (Addr.inBlock b)) obj

/-- The release statement of shared-from-this/shared.h on a handle whose block
owns an object of a type deriving from `EnableSharedFromThis` with base-class
subobject `obj`. -/
def SharedPtr.releaseSelf (h : Heap) (this : SharedPtr) (obj : EnableSharedFromThis) :
    Option Heap :=
  match this.block_ with
  | none => some h
  | some b =>
    let h1 := setStrong h b (GetStrongCounter h b - 1)
    if GetStrongCounter h1 b = 0 ∧ GetWeakCounter h1 b = 0 then
      (DeleteObjectSelf h1 b obj).map fun h2 => deleteBlock h2 b
    else if GetStrongCounter h1 b = 0 then
      DeleteObjectSelf h1 b obj
    else
      some h1

/-- Destructor `~SharedPtr` on such a handle. -/
def SharedPtr.dtorSelf (h : Heap) (this : SharedPtr) (obj : EnableSharedFromThis) : Option Heap :=
  SharedPtr.releaseSelf h this obj

/-- Member `SharedPtr::Reset()` on such a handle. -/
def SharedPtr.ResetSelf (h : Heap) (this : SharedPtr) (obj : EnableSharedFromThis) :
    Option (Heap × SharedPtr) :=
  (SharedPtr.releaseSelf h this obj).map fun h1 => (h1, SharedPtr.null)

/-- Member `SharedPtr::Reset(T* ptr)` on such a handle (the member does not call
`InitializeWeak`). -/
def SharedPtr.ResetPtrSelf (h : Heap) (this : SharedPtr) (obj : EnableSharedFromThis)
    (ptr : Ptr) : Option (Heap × SharedPtr) :=
  (SharedPtr.releaseSelf h this obj).map fun h1 =>
    let r := h1.alloc { strong_counter_ := 1, weak_counter_ := 0,
                        kind := BlockKind.ForExistedObject, object_ := ptr }
    (r.1, { pointer_ := ptr, block_ := some r.2 })

/-- Copy assignment from a different handle, on such a handle. -/
def SharedPtr.assignCopySelf (h : Heap) (this other : SharedPtr) (obj : EnableSharedFromThis) :
    Option (Heap × SharedPtr) :=
  (SharedPtr.releaseSelf h this obj).map fun h1 =>
    match other.block_ with
    | none => (h1, { pointer_ := other.pointer_, block_ := none })
    | some b =>
      (setStrong h1 b (GetStrongCounter h1 b + 1), { pointer_ := other.pointer_, block_ := some b })

/-- Move assignment from a different handle, on such a handle: the heap, the
new `*this` and the new `other`. -/
def SharedPtr.assignMoveSelf (h : Heap) (this other : SharedPtr) (obj : EnableSharedFromThis) :
    Option (Heap × SharedPtr × SharedPtr) :=
  (SharedPtr.releaseSelf h this obj).map fun h1 =>
    (h1, { pointer_ := other.pointer_, block_ := other.block_ }, SharedPtr.null)

/-- The heap after `k` successive calls `block->DeleteObject()` on such a block. -/
def deleteObjectSelfTimes : Nat → Heap → Nat → EnableSharedFromThis → Option Heap
  | 0, h, _, _ => some h
  | k + 1, h, b, obj => (DeleteObjectSelf h b obj).bind fun h1 => deleteObjectSelfTimes k h1 b obj

/-- Destructor of a handle of either kind on a block whose object is of a type
deriving from `EnableSharedFromThis`; `none` where the release of a weak handle
reaches `delete object_`, which runs the destructor of that object. -/
def Handle.dtorSelf (obj : EnableSharedFromThis) (h : Heap) : Handle → Option Heap
  | Handle.shared s => SharedPtr.dtorSelf h s obj
  | Handle.weak w => if WeakPtr.deletesObject h w then none else some (WeakPtr.dtor h w)

/-- Destructors of a list of such handles, from left to right. -/
def dtorAllSelf (obj : EnableSharedFromThis) : Heap → List Handle → Option Heap
  | h, [] => some h
  | h, x :: xs => (Handle.dtorSelf obj h x).bind fun h1 => dtorAllSelf obj h1 xs

/-- Example: the heap, the handle and the base-class subobject after a fresh
object of a type deriving from `EnableSharedFromThis`, at `raw 0`, has been
wrapped on the empty heap (block 0, strong count 1, weak count 1). -/
def exampleSelf : Heap × SharedPtr × EnableSharedFromThis :=
  (SharedPtr.ctorPtrSelf true Heap.empty (some (Addr.raw 0)) EnableSharedFromThis.fresh).getD
    (Heap.empty, SharedPtr.null, EnableSharedFromThis.fresh)

/-! ### Defined behaviour of a program -/

/-- A program state that shows no sign of undefined behaviour: no object has
been destroyed twice, no block has been freed twice, and no live handle
references a freed block. -/
def Prog.wellDefined (p : Prog) : Bool :=
  p.heap.log.all (fun e =>
    match e with
    | Event.construct _ _ => true
    | Event.deleteObject a => decide (destroyedCount p.heap.log a ≤ 1)
    | Event.destroyAt a => decide (destroyedCount p.heap.log a ≤ 1)
    | Event.deleteBlock b => decide (freedCount p.heap.log b ≤ 1)) &&
  p.shared.all (fun v =>
    match blockOfShared v with
    | none => true
    | some b => decide (freedCount p.heap.log b = 0)) &&
  p.weak.all (fun v =>
    match blockOfWeak v with
    | none => true
    | some b => decide (freedCount p.heap.log b = 0))

/-- Whether every state a program passes through, from `p` on, is well defined. -/
def definedAlong (p : Prog) : List Op → Bool
  | [] => p.wellDefined
  | op :: ops =>
    p.wellDefined &&
      match step p op with
      | none => true
      | some q => definedAlong q ops

/-- The operations on shared handles alone, `MakeShared` taking at least one
argument. -/
def sharedOnly : Op → Bool
  | Op.sharedNull => true
  | Op.wrap => true
  | Op.makeShared args => !args.isEmpty
  | Op.copy _ => true
  | Op.move _ => true
  | Op.alias _ _ => true
  | Op.assign _ _ => true
  | Op.assignMove _ _ => true
  | Op.reset _ => true
  | Op.resetPtr _ => true
  | Op.swap _ _ => true
  | Op.destroy _ => true
  | _ => false

end WeakEnabled

/-! ## The implementation without weak handles (`shared/shared.h`) -/

namespace Plain

/-- The expression `delete block` (shared/shared.h): the destructor of the
dynamic type destroys the owned object (`delete object_`, respectively the
in-place destructor of the embedded object), then the storage is released. -/
def deleteBlock (h : Heap) (b : Nat) : Heap :=
  match (h.block b).kind with
  | BlockKind.Base => h.emit (Event.deleteBlock b)
  | BlockKind.ForExistedObject => (deletePtr h (h.block b).object_).emit (Event.deleteBlock b)
  | BlockKind.ForNewObject =>
    (h.emit (Event.destroyAt (Addr.inBlock b))).emit (Event.deleteBlock b)

/-- The statement `if (block_) { --strong; if (strong == 0) delete block_; }` of
`Reset`, `Reset(ptr)` and both assignment operators. -/
def SharedPtr.release (h : Heap) (this : SharedPtr) : Heap :=
  match this.block_ with
  | none => h
  | some b =>
    let h1 := setStrong h b (GetStrongCounter h b - 1)
    if GetStrongCounter h1 b = 0 then deleteBlock h1 b else h1

/-- Constructor `SharedPtr(T* ptr)`. -/
def SharedPtr.ctorPtr (h : Heap) (ptr : Ptr) : Heap × SharedPtr :=
  let r := h.alloc { strong_counter_ := 1, weak_counter_ := 0,
                     kind := BlockKind.ForExistedObject, object_ := ptr }
  (r.1, { pointer_ := ptr, block_ := some r.2 })

/-- The expression `new ControlBlockForNewObject<T>(args...)` of shared/shared.h:
an empty argument list selects the default constructor, which sets the
counters and constructs nothing; otherwise the object is constructed in the
embedded storage. -/
def newControlBlockForNewObject (h : Heap) (args : List Int) : Heap × Nat :=
  let r := h.alloc { strong_counter_ := 1, weak_counter_ := 0,
                     kind := BlockKind.ForNewObject, object_ := none }
  match args with
  | [] => r
  | _ :: _ => (r.1.emit (Event.construct (Addr.inBlock r.2) args), r.2)

/-- Constructor `SharedPtr(ControlBlockForNewObject<T>* block)`. -/
def SharedPtr.ctorBlock (b : Nat) : SharedPtr :=
  { pointer_ := some (Addr.inBlock b), block_ := some b }

/-- Function `MakeShared<T>(args...)`. -/
def MakeShared (h : Heap) (args : List Int) : Heap × SharedPtr :=
  let r := newControlBlockForNewObject h args
  (r.1, SharedPtr.ctorBlock r.2)

/-- Copy constructor `SharedPtr(const SharedPtr& other)`. -/
def SharedPtr.ctorCopy (h : Heap) (other : SharedPtr) : Heap × SharedPtr :=
  match other.block_ with
  | none => (h, { pointer_ := other.pointer_, block_ := none })
  | some b =>
    (setStrong h b (GetStrongCounter h b + 1), { pointer_ := other.pointer_, block_ := some b })

/-- Move constructor `SharedPtr(SharedPtr&& other)`: the new handle and the
new value of `other`. -/
def SharedPtr.ctorMove (other : SharedPtr) : SharedPtr × SharedPtr :=
  ({ pointer_ := other.pointer_, block_ := other.block_ }, SharedPtr.null)

/-- Aliasing constructor `SharedPtr(const SharedPtr<Pointer>& other, T* ptr)`.
The member `block_` starts as `nullptr`, so the release statement finds
nothing; then `block_ = other.block_` is dereferenced. -/
def SharedPtr.ctorAlias (h : Heap) (other : SharedPtr) (ptr : Ptr) : Option (Heap × SharedPtr) :=
  let h0 := SharedPtr.release h { pointer_ := ptr, block_ := none }
  match other.block_ with
  | none => none
  | some b =>
    some (setStrong h0 b (GetStrongCounter h0 b + 1), { pointer_ := ptr, block_ := some b })

/-- Copy assignment `SharedPtr::operator=(const SharedPtr& other)`; `same` is the
test `this == &other`. -/
def SharedPtr.assignCopy (h : Heap) (this other : SharedPtr) (same : Bool) : Heap × SharedPtr :=
  if same then (h, this)
  else
    let h1 := SharedPtr.release h this
    match other.block_ with
    | none => (h1, { pointer_ := other.pointer_, block_ := none })
    | some b =>
      (setStrong h1 b (GetStrongCounter h1 b + 1), { pointer_ := other.pointer_, block_ := some b })

/-- Move assignment `SharedPtr::operator=(SharedPtr&& other)`: the heap, the new
`*this` and the new `other`. -/
def SharedPtr.assignMove (h : Heap) (this other : SharedPtr) (same : Bool) :
    Heap × SharedPtr × SharedPtr :=
  if same then (h, this, other)
  else (SharedPtr.release h this, { pointer_ := other.pointer_, block_ := other.block_ },
        SharedPtr.null)

/-- Destructor `~SharedPtr`. -/
def SharedPtr.dtor (h : Heap) (this : SharedPtr) : Heap :=
  match this.block_ with
  | none => h
  | some b =>
    if GetStrongCounter h b = 1 then
      deleteBlock (setStrong h b (GetStrongCounter h b - 1)) b
    else
      setStrong h b (GetStrongCounter h b - 1)

/-- Member `SharedPtr::Reset()`. -/
def SharedPtr.Reset (h : Heap) (this : SharedPtr) : Heap × SharedPtr :=
  (SharedPtr.release h this, SharedPtr.null)

/-- Member `SharedPtr::Reset(T* ptr)`. -/
def SharedPtr.ResetPtr (h : Heap) (this : SharedPtr) (ptr : Ptr) : Heap × SharedPtr :=
  let h1 := SharedPtr.release h this
  let r := h1.alloc { strong_counter_ := 1, weak_counter_ := 0,
                      kind := BlockKind.ForExistedObject, object_ := ptr }
  (r.1, { pointer_ := ptr, block_ := some r.2 })

/-- The heap after `n` copy constructions from `s` (the copies stay alive). -/
def copyN : Nat → Heap → SharedPtr → Heap
  | 0, h, _ => h
  | n + 1, h, s => copyN n (SharedPtr.ctorCopy h s).1 s

/-- Destructors of a list of shared handles, from left to right. -/
def dtorAll (h : Heap) (xs : List SharedPtr) : Heap := xs.foldl SharedPtr.dtor h

/-- Template constructor `SharedPtr(ControlBlockForNewObject<Pointer>* block)`,
chosen when `Pointer` differs from `T`: it adopts the block and then executes
`++block_->GetStrongCounter()`. -/
def SharedPtr.ctorBlockOther (h : Heap) (b : Nat) : Heap × SharedPtr :=
  (setStrong h b (GetStrongCounter h b + 1),
   { pointer_ := some (Addr.inBlock b), block_ := some b })

/-- Constructor `SharedPtr(T* ptr)` under an allocator that may fail. -/
def SharedPtr.ctorPtrAlloc (ok : Bool) (h : Heap) (ptr : Ptr) :
    Heap × Except BadAlloc SharedPtr :=
  if ok then ((SharedPtr.ctorPtr h ptr).1, Except.ok (SharedPtr.ctorPtr h ptr).2)
  else (h, Except.error BadAlloc.mk)

/-- Member `SharedPtr::Reset(T* ptr)` under an allocator that may fail: the
release statement and `pointer_ = ptr` come before `new`. -/
def SharedPtr.ResetPtrAlloc (ok : Bool) (h : Heap) (this : SharedPtr) (ptr : Ptr) :
    Heap × SharedPtr × Except BadAlloc Unit :=
  let h1 := SharedPtr.release h this
  if ok then
    let r := h1.alloc { strong_counter_ := 1, weak_counter_ := 0,
                        kind := BlockKind.ForExistedObject, object_ := ptr }
    (r.1, { pointer_ := ptr, block_ := some r.2 }, Except.ok ())
  else
    (h1, { pointer_ := ptr, block_ := this.block_ }, Except.error BadAlloc.mk)

/-- One operation of a program run with the `SharedPtr` of shared/shared.h;
`none` for the operations on weak handles, which this header does not define. -/
def step (p : WeakEnabled.Prog) : WeakEnabled.Op → Option WeakEnabled.Prog
  | WeakEnabled.Op.sharedNull => some { p with shared := p.shared ++ [some SharedPtr.null] }
  | WeakEnabled.Op.wrap =>
    let r := SharedPtr.ctorPtr p.heap (some (Addr.raw p.fresh))
    some { p with heap := r.1, shared := p.shared ++ [some r.2], fresh := p.fresh + 1 }
  | WeakEnabled.Op.makeShared args =>
    let r := MakeShared p.heap args
    some { p with heap := r.1, shared := p.shared ++ [some r.2] }
  | WeakEnabled.Op.copy i =>
    (p.sharedAt i).map fun s =>
      let r := SharedPtr.ctorCopy p.heap s
      { p with heap := r.1, shared := p.shared ++ [some r.2] }
  | WeakEnabled.Op.move i =>
    (p.sharedAt i).map fun s =>
      let r := SharedPtr.ctorMove s
      { p with shared := (p.shared.set i (some r.2)) ++ [some r.1] }
  | WeakEnabled.Op.alias i ptr =>
    (p.sharedAt i).bind fun s =>
      (SharedPtr.ctorAlias p.heap s ptr).map fun r =>
        { p with heap := r.1, shared := p.shared ++ [some r.2] }
  | WeakEnabled.Op.assign i k =>
    (p.sharedAt i).bind fun this =>
      (p.sharedAt k).map fun other =>
        let r := SharedPtr.assignCopy p.heap this other (i == k)
        { p with heap := r.1, shared := p.shared.set i (some r.2) }
  | WeakEnabled.Op.assignMove i k =>
    (p.sharedAt i).bind fun this =>
      (p.sharedAt k).map fun other =>
        let r := SharedPtr.assignMove p.heap this other (i == k)
        { p with heap := r.1, shared := (p.shared.set i (some r.2.1)).set k (some r.2.2) }
  | WeakEnabled.Op.reset i =>
    (p.sharedAt i).map fun s =>
      let r := SharedPtr.Reset p.heap s
      { p with heap := r.1, shared := p.shared.set i (some r.2) }
  | WeakEnabled.Op.resetPtr i =>
    (p.sharedAt i).map fun s =>
      let r := SharedPtr.ResetPtr p.heap s (some (Addr.raw p.fresh))
      { p with heap := r.1, shared := p.shared.set i (some r.2), fresh := p.fresh + 1 }
  | WeakEnabled.Op.swap i k =>
    (p.sharedAt i).bind fun this =>
      (p.sharedAt k).map fun other =>
        let r := SharedPtr.Swap this other
        { p with shared := (p.shared.set i (some r.1)).set k (some r.2) }
  | WeakEnabled.Op.destroy i =>
    (p.sharedAt i).map fun s =>
      { p with heap := SharedPtr.dtor p.heap s, shared := p.shared.set i none }
  | _ => none

/-- A sequence of operations, from left to right. -/
def run (p : WeakEnabled.Prog) : List WeakEnabled.Op → Option WeakEnabled.Prog
  | [] => some p
  | op :: ops => (step p op).bind fun q => run q ops

end Plain

/-! ## The exclusive-ownership pointer (`unique/unique.h`, `unique/compressed_pair.h`)

The destruction policy is observed through the list of its invocations: the
policy value that was called and the pointer it was called on.  The trace
lines written to `std::cout` are not modelled. -/

namespace Unique

/-- Values held by `CompressedPair<F, S>`, whichever representation is chosen. -/
structure CompressedPair (F S : Type) where
  first : F
  second : S

/-- Member `CompressedPair::GetFirst`. -/
def CompressedPair.GetFirst {F S : Type} (c : CompressedPair F S) : F := c.first

/-- Member `CompressedPair::GetSecond`. -/
def CompressedPair.GetSecond {F S : Type} (c : CompressedPair F S) : S := c.second

/-- Fields of `UniquePtr<T, Deleter>`. -/
structure UniquePtr (D : Type) where
  object_block_ : CompressedPair Ptr D

/-- One invocation `deleter(p)` of a destruction policy: the policy value, the
pointer it is called on, and the pointer the invoking handle holds at the
moment of the call. -/
structure Call (D : Type) where
  deleter : D
  arg : Ptr
  holds : Ptr

/-- Invocations of destruction policies, in program order. -/
abbrev Calls (D : Type) := List (Call D)

/-- Constructor `UniquePtr(T* ptr, Deleter deleter)`. -/
def UniquePtr.mk2 {D : Type} (ptr : Ptr) (deleter : D) : UniquePtr D :=
  { object_block_ := { first := ptr, second := deleter } }

/-- Member `UniquePtr::GetDeleter`. -/
def UniquePtr.GetDeleter {D : Type} (u : UniquePtr D) : D := u.object_block_.GetSecond

/-- Member `UniquePtr::Get`. -/
def UniquePtr.Get {D : Type} (u : UniquePtr D) : Ptr :=
  match u.object_block_.GetFirst with
  | some a => some a
  | none => none

/-- Member `UniquePtr::operator bool`. -/
def UniquePtr.toBool {D : Type} (u : UniquePtr D) : Bool :=
  match u.object_block_.GetFirst with
  | some _ => true
  | none => false

/-- Member `UniquePtr::Release`: the invocations so far, the returned pointer
and the new `*this`. -/
def UniquePtr.Release {D : Type} (calls : Calls D) (u : UniquePtr D) :
    Calls D × Ptr × UniquePtr D :=
  (calls, u.object_block_.GetFirst,
   { object_block_ := { first := none, second := u.object_block_.second } })

/-- Destructor `~UniquePtr`. -/
def UniquePtr.dtor {D : Type} (calls : Calls D) (u : UniquePtr D) : Calls D :=
  match u.object_block_.GetFirst with
  | none => calls
  | some a => calls ++ [{ deleter := u.GetDeleter, arg := some a, holds := some a }]

/-- Member `UniquePtr::Reset(T* ptr)`. -/
def UniquePtr.Reset {D : Type} (calls : Calls D) (u : UniquePtr D) (ptr : Ptr) :
    Calls D × UniquePtr D :=
  let object_saved := u.object_block_.GetFirst
  let u1 : UniquePtr D := { object_block_ := { first := ptr, second := u.object_block_.second } }
  match object_saved with
  | none => (calls, u1)
  | some a =>
    (calls ++ [{ deleter := u1.GetDeleter, arg := some a, holds := u1.object_block_.GetFirst }],
     u1)

/-- Assignment `UniquePtr::operator=(std::nullptr_t)`. -/
def UniquePtr.assignNull {D : Type} (calls : Calls D) (u : UniquePtr D) :
    Calls D × UniquePtr D :=
  let object_saved := u.object_block_.GetFirst
  let u1 : UniquePtr D := { object_block_ := { first := none, second := u.object_block_.second } }
  match object_saved with
  | none => (calls, u1)
  | some a =>
    (calls ++ [{ deleter := u1.GetDeleter, arg := some a, holds := u1.object_block_.GetFirst }],
     u1)

/-- Move constructor `UniquePtr(UniquePtr&& other)`: the invocations, the new
handle and the new `other`. -/
def UniquePtr.ctorMove {D : Type} (calls : Calls D) (other : UniquePtr D) :
    Calls D × UniquePtr D × UniquePtr D :=
  let r := UniquePtr.Release calls other
  (r.1, { object_block_ := { first := r.2.1, second := r.2.2.GetDeleter } }, r.2.2)

/-- Move assignment `UniquePtr::operator=(UniquePtr&& other)`: the policy of
`*this` is called on the old pointer without a null test. -/
def UniquePtr.assignMove {D : Type} (calls : Calls D) (this other : UniquePtr D) :
    Calls D × UniquePtr D × UniquePtr D :=
  if this.object_block_.GetFirst = other.object_block_.GetFirst then (calls, this, other)
  else
    let object_copy := this.object_block_.GetFirst
    let calls1 := calls ++ [{ deleter := this.GetDeleter, arg := object_copy,
                              holds := this.object_block_.GetFirst }]
    let r := UniquePtr.Release calls1 other
    (r.1, { object_block_ := { first := r.2.1, second := other.object_block_.second } }, r.2.2)

/-- Member `UniquePtr::Swap`: the new `*this` and the new `other`. -/
def UniquePtr.Swap {D : Type} (this other : UniquePtr D) : UniquePtr D × UniquePtr D :=
  (other, this)

/-! ### Programs over exclusive-ownership handles -/

/-- Program state: the policy invocations so far and the handle variables. -/
structure UState (D : Type) where
  calls : Calls D
  vars : List (UniquePtr D)

/-- The operations that hand pointers between handles. -/
inductive UOp where
  /-- declare `UniquePtr<T, D> t(std::move(ui));` -/
  | moveCtor (i : Nat)
  /-- statement `ui = std::move(uk);` -/
  | moveAssign (i k : Nat)
  /-- statement `ui.Release();` (the caller takes the pointer) -/
  | release (i : Nat)
  /-- statement `ui.Reset(p);` with `p` a pointer no handle holds -/
  | reset (i : Nat) (a : Addr)
  /-- statement `ui.Swap(uk);` -/
  | swap (i k : Nat)
  deriving DecidableEq, Repr

/-- The pointer held by variable `i` (`nullptr` when there is no such variable). -/
def ptrAt {D : Type} (vars : List (UniquePtr D)) (i : Nat) : Ptr :=
  match vars[i]? with
  | some u => u.object_block_.first
  | none => none

/-- Whether some handle holds the address `a`. -/
def isHeld {D : Type} (vars : List (UniquePtr D)) (a : Addr) : Bool :=
  vars.any fun u => decide (u.object_block_.first = some a)

/-- One operation; `none` when an operand is not a variable or when the pointer
given to `Reset` is held by a handle. -/
def ustep {D : Type} (st : UState D) : UOp → Option (UState D)
  | UOp.moveCtor i =>
    (st.vars[i]?).map fun u =>
      let r := UniquePtr.ctorMove st.calls u
      { calls := r.1, vars := (st.vars.set i r.2.2) ++ [r.2.1] }
  | UOp.moveAssign i k =>
    (st.vars[i]?).bind fun this =>
      (st.vars[k]?).map fun other =>
        let r := UniquePtr.assignMove st.calls this other
        { calls := r.1, vars := (st.vars.set i r.2.1).set k r.2.2 }
  | UOp.release i =>
    (st.vars[i]?).map fun u =>
      let r := UniquePtr.Release st.calls u
      { calls := r.1, vars := st.vars.set i r.2.2 }
  | UOp.reset i a =>
    if isHeld st.vars a then none
    else
      (st.vars[i]?).map fun u =>
        let r := UniquePtr.Reset st.calls u (some a)
        { calls := r.1, vars := st.vars.set i r.2 }
  | UOp.swap i k =>
    (st.vars[i]?).bind fun this =>
      (st.vars[k]?).map fun other =>
        let r := UniquePtr.Swap this other
        { calls := st.calls, vars := (st.vars.set i r.1).set k r.2 }

/-- A sequence of operations, from left to right. -/
def urun {D : Type} (st : UState D) : List UOp → Option (UState D)
  | [] => some st
  | op :: ops => (ustep st op).bind fun q => urun q ops

/-- No two handle variables hold the same non-null pointer. -/
def Distinct {D : Type} (vars : List (UniquePtr D)) : Prop :=
  ∀ i j a, ptrAt vars i = some a → ptrAt vars j = some a → i = j

/-- Example handle with a stateless policy, holding `raw 0`. -/
def exampleUnique : UniquePtr Unit :=
  { object_block_ := { first := some (Addr.raw 0), second := () } }

/-- Example state: two handles with a stateless policy, holding `raw 0` and
`raw 1`, and no policy invocation so far. -/
def exampleState : UState Unit :=
  { calls := [],
    vars := [exampleUnique, { object_block_ := { first := some (Addr.raw 1), second := () } }] }

end Unique

/-! ## The self-counting pointer (`intrusive/intrusive.h`)

A pointee deriving from `RefCounted<Derived, SimpleCounter, Deleter>` lives at
an address; the store keeps the `size_t` counter of every pointee and the list
of invocations of `Deleter::Destroy`. -/

namespace Intrusive

/-- Fields of `SimpleCounter`; `count_` is a `size_t`. -/
structure SimpleCounter where
  count_ : Nat
  deriving DecidableEq, Repr

/-- Member `SimpleCounter::IncRef`: the new counter and the returned value. -/
def SimpleCounter.IncRef (c : SimpleCounter) : SimpleCounter × Nat :=
  ({ count_ := (c.count_ + 1) % 2 ^ 64 }, (c.count_ + 1) % 2 ^ 64)

/-- Member `SimpleCounter::DecRef`: the new counter and the returned value. -/
def SimpleCounter.DecRef (c : SimpleCounter) : SimpleCounter × Nat :=
  ({ count_ := (c.count_ + (2 ^ 64 - 1)) % 2 ^ 64 }, (c.count_ + (2 ^ 64 - 1)) % 2 ^ 64)

/-- Member `SimpleCounter::RefCount`. -/
def SimpleCounter.RefCount (c : SimpleCounter) : Nat := c.count_

/-- The store: member `counter_` of the pointee at each address, and the
invocations `Deleter::Destroy(p)` in program order. -/
structure Store where
  counter_ : Addr → SimpleCounter
  destroyed : List Addr

/-- The store in which every counter is 0 and nothing has been destroyed. -/
def Store.empty : Store := { counter_ := fun _ => { count_ := 0 }, destroyed := [] }

/-- Overwrite the counter of the pointee at `a`. -/
def Store.setCounter (s : Store) (a : Addr) (c : SimpleCounter) : Store :=
  { s with counter_ := fun x => if x = a then c else s.counter_ x }

/-- Member `RefCounted::RefCount` of the pointee at `a`. -/
def RefCounted.RefCount (s : Store) (a : Addr) : Nat := (s.counter_ a).RefCount

/-- Member `RefCounted::IncRef` of the pointee at `a`. -/
def RefCounted.IncRef (s : Store) (a : Addr) : Store :=
  s.setCounter a (s.counter_ a).IncRef.1

/-- Member `RefCounted::DecRef` of the pointee at `a`: when the count is 1 the
destroyer is invoked, otherwise the counter is decremented. -/
def RefCounted.DecRef (s : Store) (a : Addr) : Store :=
  if RefCounted.RefCount s a = 1 then { s with destroyed := s.destroyed ++ [a] }
  else s.setCounter a (s.counter_ a).DecRef.1

/-- Assignment `RefCounted::operator=(const RefCounted& other)` between the
pointees at `this` and `other`: nothing is copied. -/
def RefCounted.assign (s : Store) (_this _other : Addr) : Store := s

/-- Fields of `IntrusivePtr<T>`. -/
structure IntrusivePtr where
  object_ : Ptr
  deriving DecidableEq, Repr

/-- Result of `IntrusivePtr()` and `IntrusivePtr(nullptr)`. -/
def IntrusivePtr.null : IntrusivePtr := { object_ := none }

/-- Constructor `IntrusivePtr(T* ptr)`. -/
def IntrusivePtr.ctorPtr (s : Store) (ptr : Ptr) : Store × IntrusivePtr :=
  match ptr with
  | none => (s, { object_ := none })
  | some a => (RefCounted.IncRef s a, { object_ := some a })

/-- Copy constructor `IntrusivePtr(const IntrusivePtr& other)`. -/
def IntrusivePtr.ctorCopy (s : Store) (other : IntrusivePtr) : Store × IntrusivePtr :=
  match other.object_ with
  | none => (s, { object_ := none })
  | some a => (RefCounted.IncRef s a, { object_ := some a })

/-- Move constructor `IntrusivePtr(IntrusivePtr&& other)`: the store, the new
handle and the new `other`. -/
def IntrusivePtr.ctorMove (s : Store) (other : IntrusivePtr) :
    Store × IntrusivePtr × IntrusivePtr :=
  (s, { object_ := other.object_ }, { object_ := none })

/-- Private member `IntrusivePtr::Deleter`. -/
def IntrusivePtr.Deleter (s : Store) (this : IntrusivePtr) : Store :=
  match this.object_ with
  | none => s
  | some a => RefCounted.DecRef s a

/-- Destructor `~IntrusivePtr`. -/
def IntrusivePtr.dtor (s : Store) (this : IntrusivePtr) : Store := IntrusivePtr.Deleter s this

/-- Member `IntrusivePtr::Reset()`. -/
def IntrusivePtr.Reset (s : Store) (this : IntrusivePtr) : Store × IntrusivePtr :=
  match this.object_ with
  | none => (s, { object_ := none })
  | some _ => (IntrusivePtr.Deleter s this, { object_ := none })

/-- Member `IntrusivePtr::Reset(T* ptr)`. -/
def IntrusivePtr.ResetPtr (s : Store) (this : IntrusivePtr) (ptr : Ptr) :
    Store × IntrusivePtr :=
  let s1 := match this.object_ with
    | none => s
    | some _ => IntrusivePtr.Deleter s this
  match ptr with
  | none => (s1, { object_ := none })
  | some a => (RefCounted.IncRef s1 a, { object_ := some a })

/-- Copy assignment `IntrusivePtr::operator=(const IntrusivePtr& other)`; `same`
is the test `this == &other`. -/
def IntrusivePtr.assignCopy (s : Store) (this other : IntrusivePtr) (same : Bool) :
    Store × IntrusivePtr :=
  if this.object_ = other.object_ ∨ same = true then (s, this)
  else
    let s1 := match this.object_ with
      | none => s
      | some _ => IntrusivePtr.Deleter s this
    match other.object_ with
    | none => (s1, { object_ := none })
    | some a => (RefCounted.IncRef s1 a, { object_ := some a })

/-- Move assignment `IntrusivePtr::operator=(IntrusivePtr&& other)`: the store,
the new `*this` and the new `other`. -/
def IntrusivePtr.assignMove (s : Store) (this other : IntrusivePtr) (same : Bool) :
    Store × IntrusivePtr × IntrusivePtr :=
  if this.object_ = other.object_ ∨ same = true then (s, this, other)
  else
    let s1 := match this.object_ with
      | none => s
      | some _ => IntrusivePtr.Deleter s this
    (s1, { object_ := other.object_ }, { object_ := none })

/-- Member `IntrusivePtr::Swap`: the new `*this` and the new `other`. -/
def IntrusivePtr.Swap (this other : IntrusivePtr) : IntrusivePtr × IntrusivePtr :=
  (other, this)

/-- Member `IntrusivePtr::Get`. -/
def IntrusivePtr.Get (this : IntrusivePtr) : Ptr := this.object_

/-- Member `IntrusivePtr::UseCount`. -/
def IntrusivePtr.UseCount (s : Store) (this : IntrusivePtr) : Nat :=
  match this.object_ with
  | none => 0
  | some a => RefCounted.RefCount s a

/-- Member `IntrusivePtr::operator bool`. -/
def IntrusivePtr.toBool (this : IntrusivePtr) : Bool :=
  match this.object_ with
  | none => false
  | some _ => true

/-- Function `MakeIntrusive<T>(args...)`: the pointee is allocated at `a` with
counter 0 and adopted by `IntrusivePtr(T*)`. -/
def MakeIntrusive (s : Store) (a : Addr) : Store × IntrusivePtr :=
  IntrusivePtr.ctorPtr (s.setCounter a { count_ := 0 }) (some a)

/-- Example store: one pointee at `raw 0`, adopted by a single handle (count 1). -/
def exampleStore : Store := (IntrusivePtr.ctorPtr Store.empty (some (Addr.raw 0))).1

/-- Example handle on the pointee at `raw 0`. -/
def exampleIntrusive : IntrusivePtr := { object_ := some (Addr.raw 0) }

end Intrusive

/-! ## Heap lemmas -/

@[simp] theorem GetStrongCounter_setStrong (h : Heap) (b : Nat) (v : Int) :
    GetStrongCounter (setStrong h b v) b = v := by
  simp [GetStrongCounter, setStrong, Heap.setBlock]

theorem GetStrongCounter_setStrong_of_ne (h : Heap) (b c : Nat) (v : Int) (hne : c ≠ b) :
    GetStrongCounter (setStrong h b v) c = GetStrongCounter h c := by
  simp [GetStrongCounter, setStrong, Heap.setBlock, hne]

@[simp] theorem GetWeakCounter_setStrong (h : Heap) (b c : Nat) (v : Int) :
    GetWeakCounter (setStrong h b v) c = GetWeakCounter h c := by
  by_cases hc : c = b <;> simp [GetWeakCounter, setStrong, Heap.setBlock, hc]

@[simp] theorem GetWeakCounter_setWeak (h : Heap) (b : Nat) (v : Int) :
    GetWeakCounter (setWeak h b v) b = v := by
  simp [GetWeakCounter, setWeak, Heap.setBlock]

theorem GetWeakCounter_setWeak_of_ne (h : Heap) (b c : Nat) (v : Int) (hne : c ≠ b) :
    GetWeakCounter (setWeak h b v) c = GetWeakCounter h c := by
  simp [GetWeakCounter, setWeak, Heap.setBlock, hne]

@[simp] theorem GetStrongCounter_setWeak (h : Heap) (b c : Nat) (v : Int) :
    GetStrongCounter (setWeak h b v) c = GetStrongCounter h c := by
  by_cases hc : c = b <;> simp [GetStrongCounter, setWeak, Heap.setBlock, hc]

@[simp] theorem log_setStrong (h : Heap) (b : Nat) (v : Int) : (setStrong h b v).log = h.log := rfl

@[simp] theorem log_setWeak (h : Heap) (b : Nat) (v : Int) : (setWeak h b v).log = h.log := rfl

@[simp] theorem next_setStrong (h : Heap) (b : Nat) (v : Int) : (setStrong h b v).next = h.next := rfl

@[simp] theorem next_setWeak (h : Heap) (b : Nat) (v : Int) : (setWeak h b v).next = h.next := rfl

@[simp] theorem log_emit (h : Heap) (e : Event) : (h.emit e).log = h.log ++ [e] := rfl

@[simp] theorem block_emit (h : Heap) (e : Event) : (h.emit e).block = h.block := rfl

@[simp] theorem next_emit (h : Heap) (e : Event) : (h.emit e).next = h.next := rfl

@[simp] theorem GetStrongCounter_emit (h : Heap) (e : Event) (b : Nat) :
    GetStrongCounter (h.emit e) b = GetStrongCounter h b := rfl

@[simp] theorem GetWeakCounter_emit (h : Heap) (e : Event) (b : Nat) :
    GetWeakCounter (h.emit e) b = GetWeakCounter h b := rfl

theorem block_setStrong_of_ne (h : Heap) (b c : Nat) (v : Int) (hne : c ≠ b) :
    (setStrong h b v).block c = h.block c := by
  simp [setStrong, Heap.setBlock, hne]

theorem block_setWeak_of_ne (h : Heap) (b c : Nat) (v : Int) (hne : c ≠ b) :
    (setWeak h b v).block c = h.block c := by
  simp [setWeak, Heap.setBlock, hne]

@[simp] theorem kind_setStrong (h : Heap) (b c : Nat) (v : Int) :
    ((setStrong h b v).block c).kind = (h.block c).kind := by
  by_cases hc : c = b <;> simp [setStrong, Heap.setBlock, hc]

@[simp] theorem object_setStrong (h : Heap) (b c : Nat) (v : Int) :
    ((setStrong h b v).block c).object_ = (h.block c).object_ := by
  by_cases hc : c = b <;> simp [setStrong, Heap.setBlock, hc]

@[simp] theorem kind_setWeak (h : Heap) (b c : Nat) (v : Int) :
    ((setWeak h b v).block c).kind = (h.block c).kind := by
  by_cases hc : c = b <;> simp [setWeak, Heap.setBlock, hc]

@[simp] theorem object_setWeak (h : Heap) (b c : Nat) (v : Int) :
    ((setWeak h b v).block c).object_ = (h.block c).object_ := by
  by_cases hc : c = b <;> simp [setWeak, Heap.setBlock, hc]

theorem toSizeT_of_nonneg (v : Int) (hv : 0 ≤ v) : toSizeT v = v.toNat := by
  simp [toSizeT, hv]

@[simp] theorem toSizeT_natCast (n : Nat) : toSizeT (n : Int) = n := by
  simp [toSizeT]

theorem toSizeT_eq_zero_iff (v : Int) (hlo : -(2 ^ 63 : Int) ≤ v) : toSizeT v = 0 ↔ v = 0 := by
  unfold toSizeT
  split
  · omega
  · omega

theorem setStrong_setStrong (h : Heap) (b : Nat) (v v' : Int) :
    setStrong (setStrong h b v) b v' = setStrong h b v' := by
  simp only [setStrong, Heap.setBlock, if_true]
  congr 1
  funext i
  by_cases hi : i = b <;> simp [hi]

theorem setStrong_self (h : Heap) (b : Nat) : setStrong h b (GetStrongCounter h b) = h := by
  cases h with
  | mk block next log =>
    simp only [setStrong, Heap.setBlock, GetStrongCounter]
    congr 1
    funext i
    by_cases hi : i = b <;> simp [hi]

theorem setWeak_setWeak (h : Heap) (b : Nat) (v v' : Int) :
    setWeak (setWeak h b v) b v' = setWeak h b v' := by
  simp only [setWeak, Heap.setBlock, if_true]
  congr 1
  funext i
  by_cases hi : i = b <;> simp [hi]

theorem setWeak_self (h : Heap) (b : Nat) : setWeak h b (GetWeakCounter h b) = h := by
  cases h with
  | mk block next log =>
    simp only [setWeak, Heap.setBlock, GetWeakCounter]
    congr 1
    funext i
    by_cases hi : i = b <;> simp [hi]

theorem setWeak_setStrong (h : Heap) (b : Nat) (v w : Int) :
    setWeak (setStrong h b v) b w = setStrong (setWeak h b w) b v := by
  simp only [setWeak, setStrong, Heap.setBlock, if_true]
  congr 1
  funext i
  by_cases hi : i = b <;> simp [hi]

@[simp] theorem ownedObject_setStrong (h : Heap) (b c : Nat) (v : Int) :
    ownedObject (setStrong h b v) c = ownedObject h c := by
  simp [ownedObject]

@[simp] theorem ownedObject_setWeak (h : Heap) (b c : Nat) (v : Int) :
    ownedObject (setWeak h b v) c = ownedObject h c := by
  simp [ownedObject]

theorem destroyedCount_append (l1 l2 : List Event) (q : Addr) :
    destroyedCount (l1 ++ l2) q = destroyedCount l1 q + destroyedCount l2 q := by
  simp only [destroyedCount, List.count_append]
  omega

theorem destroyedCount_destroy (l : List Event) (e : Event) (o q : Addr)
    (he : e = Event.deleteObject o ∨ e = Event.destroyAt o) :
    destroyedCount (l ++ [e]) q = destroyedCount l q + (if q = o then 1 else 0) := by
  rw [destroyedCount_append]
  congr 1
  rcases he with he | he <;> subst he <;> by_cases hq : q = o
  · subst hq; simp [destroyedCount]
  · have : ¬ (o = q) := fun hc => hq hc.symm
    simp [destroyedCount, hq, this]
  · subst hq; simp [destroyedCount]
  · have : ¬ (o = q) := fun hc => hq hc.symm
    simp [destroyedCount, hq, this]

theorem destroyedCount_deleteBlock (l : List Event) (b : Nat) (q : Addr) :
    destroyedCount (l ++ [Event.deleteBlock b]) q = destroyedCount l q := by
  rw [destroyedCount_append]
  simp [destroyedCount]

theorem GetStrongCounter_setStrong_ite (h : Heap) (b c : Nat) (v : Int) :
    GetStrongCounter (setStrong h b v) c = if c = b then v else GetStrongCounter h c := by
  by_cases hc : c = b
  · subst hc
    simp
  · simp [hc, GetStrongCounter_setStrong_of_ne h b c v hc]

theorem GetWeakCounter_setWeak_ite (h : Heap) (b c : Nat) (v : Int) :
    GetWeakCounter (setWeak h b v) c = if c = b then v else GetWeakCounter h c := by
  by_cases hc : c = b
  · subst hc
    simp
  · simp [hc, GetWeakCounter_setWeak_of_ne h b c v hc]

theorem GetStrongCounter_deletePtr (h : Heap) (p : Ptr) (c : Nat) :
    GetStrongCounter (deletePtr h p) c = GetStrongCounter h c := by
  cases p <;> rfl

theorem GetWeakCounter_deletePtr (h : Heap) (p : Ptr) (c : Nat) :
    GetWeakCounter (deletePtr h p) c = GetWeakCounter h c := by
  cases p <;> rfl

theorem next_deletePtr (h : Heap) (p : Ptr) : (deletePtr h p).next = h.next := by
  cases p <;> rfl

theorem GetStrongCounter_alloc (h : Heap) (c : ControlBlock) (b : Nat) :
    GetStrongCounter (h.alloc c).1 b = if b = h.next then c.strong_counter_ else GetStrongCounter h b := by
  unfold GetStrongCounter Heap.alloc
  by_cases hb : b = h.next <;> simp [hb]

theorem GetWeakCounter_alloc (h : Heap) (c : ControlBlock) (b : Nat) :
    GetWeakCounter (h.alloc c).1 b = if b = h.next then c.weak_counter_ else GetWeakCounter h b := by
  unfold GetWeakCounter Heap.alloc
  by_cases hb : b = h.next <;> simp [hb]

/-! ## Teardown of the weak-enabled implementation -/

namespace WeakEnabled

/-- C1, evaluated on the code.  One shared handle wraps a fresh object and two
weak handles are created from it.  Destroying the shared handle takes the
strong count from 1 to 0 and destroys the object (one `delete`).  Releasing one
of the two weak handles afterwards runs `delete object_` in `WeakPtr::Deleter`:
the same object is destroyed a second time, so it is not destroyed exactly
once. -/
theorem C1_object_destroyed_again_by_weak_release :
    (run Prog.init [Op.wrap, Op.weakOfShared 0, Op.weakOfShared 0, Op.destroy 0]).map
        (fun p => (GetStrongCounter p.heap 0, GetWeakCounter p.heap 0, p.heap.log))
      = some (0, 2, [Event.deleteObject (Addr.raw 0)]) ∧
    (run Prog.init [Op.wrap, Op.weakOfShared 0, Op.weakOfShared 0, Op.destroy 0,
        Op.weakDestroy 0]).map
        (fun p => (GetStrongCounter p.heap 0, GetWeakCounter p.heap 0, p.heap.log,
                   destroyedCount p.heap.log (Addr.raw 0)))
      = some (0, 1, [Event.deleteObject (Addr.raw 0), Event.deleteObject (Addr.raw 0)], 2) := by
  decide

/-- C2, evaluated on the code.  After the only shared handle is gone, the
remaining weak handle is copy-assigned from itself: `Deleter()` lowers the weak
count to 0 and frees the block, then the weak counter of the freed block is
incremented and the handle keeps referencing it.  Destroying the handle frees
the block a second time. -/
theorem C2_block_freed_twice_by_weak_self_assignment :
    (run Prog.init [Op.wrap, Op.weakOfShared 0, Op.destroy 0, Op.weakAssign 0 0]).map
        (fun p => (GetStrongCounter p.heap 0, GetWeakCounter p.heap 0,
                   freedCount p.heap.log 0, p.weak))
      = some (0, 1, 1, [some { block_weak_ := some 0, object_ := some (Addr.raw 0) }]) ∧
    (run Prog.init [Op.wrap, Op.weakOfShared 0, Op.destroy 0, Op.weakAssign 0 0,
        Op.weakDestroy 0]).map
        (fun p => (GetStrongCounter p.heap 0, GetWeakCounter p.heap 0,
                   freedCount p.heap.log 0, p.heap.log))
      = some (0, 0, 2, [Event.deleteObject (Addr.raw 0), Event.deleteBlock 0,
                        Event.deleteBlock 0]) := by
  decide

/-- C3, on the code.  For every block with strong count 0 and weak count
`w >= 2`, releasing a weak handle whose `object_` is the non-null address `a`
lowers the weak count to `w - 1` and also executes `delete object_`: the log
gains `deleteObject a`, so the destruction count of `a` grows by one.  The block
is not freed.  The destructor, `Reset` and both assignment operators release
through the same `Deleter()` and log the same event. -/
theorem C3_weak_release_deletes_object (h : Heap) (b : Nat) (this : WeakPtr) (a : Addr) (w : Int)
    (hb : this.block_weak_ = some b) (ha : this.object_ = some a)
    (hs : GetStrongCounter h b = 0) (hw : GetWeakCounter h b = w) (h2 : 2 ≤ w) :
    WeakPtr.Deleter h this = (setWeak h b (w - 1)).emit (Event.deleteObject a) ∧
    GetWeakCounter (WeakPtr.Deleter h this) b = w - 1 ∧
    (WeakPtr.Deleter h this).log = h.log ++ [Event.deleteObject a] ∧
    destroyedCount (WeakPtr.Deleter h this).log a = destroyedCount h.log a + 1 ∧
    freedCount (WeakPtr.Deleter h this).log b = freedCount h.log b ∧
    (WeakPtr.dtor h this).log = h.log ++ [Event.deleteObject a] ∧
    (WeakPtr.Reset h this).1.log = h.log ++ [Event.deleteObject a] ∧
    (∀ other, (WeakPtr.assignCopy h this other).1.log = h.log ++ [Event.deleteObject a]) ∧
    (∀ other, (WeakPtr.assignMove h this other).1.log = h.log ++ [Event.deleteObject a]) := by
  have key : WeakPtr.Deleter h this = (setWeak h b (w - 1)).emit (Event.deleteObject a) := by
    unfold WeakPtr.Deleter
    simp only [hb, hw]
    have h1 : ¬ (w - 1 = 0) := by omega
    have h3 : w - 1 > 0 := by omega
    simp [hs, h1, h3, deletePtr, ha]
  have hlog : (WeakPtr.Deleter h this).log = h.log ++ [Event.deleteObject a] := by
    rw [key]
    simp
  refine ⟨key, by rw [key]; simp, hlog, ?_, ?_, hlog, hlog, ?_, fun _ => hlog⟩
  · rw [hlog, destroyedCount_destroy h.log _ a a (Or.inl rfl)]
    simp
  · rw [hlog]
    simp [freedCount, List.count_append]
  · intro other
    unfold WeakPtr.assignCopy
    cases other.block_weak_ <;> simp [hlog]

/-- Witness of C3: a wrapped object with two weak handles whose only shared
handle has been destroyed (strong count 0, weak count 2). -/
theorem C3_weak_release_deletes_object_witness :
    (WeakPtr.Deleter
        (heapAfter [Op.wrap, Op.weakOfShared 0, Op.weakOfShared 0, Op.destroy 0])
        exampleWeak).log
      = [Event.deleteObject (Addr.raw 0)] ++ [Event.deleteObject (Addr.raw 0)] :=
  (C3_weak_release_deletes_object
    (heapAfter [Op.wrap, Op.weakOfShared 0, Op.weakOfShared 0, Op.destroy 0])
    0 exampleWeak (Addr.raw 0) 2 rfl rfl (by decide) (by decide) (by decide)).2.2.1

/-! ## Promotion of weak handles -/

theorem WeakPtr.Expired_null (h : Heap) (w : WeakPtr) (hn : w.block_weak_ = none) :
    WeakPtr.Expired h w = true := by
  simp [WeakPtr.Expired, WeakPtr.UseCount, hn]

theorem WeakPtr.Expired_of_strong_zero (h : Heap) (w : WeakPtr) (b : Nat)
    (hb : w.block_weak_ = some b) (hs : GetStrongCounter h b = 0) :
    WeakPtr.Expired h w = true := by
  simp [WeakPtr.Expired, WeakPtr.UseCount, hb, hs, toSizeT]

theorem WeakPtr.Expired_of_strong_ne_zero (h : Heap) (w : WeakPtr) (b : Nat)
    (hb : w.block_weak_ = some b) (hs : GetStrongCounter h b ≠ 0)
    (hlo : -(2 ^ 63 : Int) ≤ GetStrongCounter h b) :
    WeakPtr.Expired h w = false := by
  unfold WeakPtr.Expired
  have hu : ¬ (WeakPtr.UseCount h w = 0) := by
    simp only [WeakPtr.UseCount, hb]
    rw [toSizeT_eq_zero_iff _ hlo]
    exact hs
  simp [hb, hs, hu]

theorem SharedPtr.ctorPromote_of_strong_ne_zero (h : Heap) (w : WeakPtr) (b : Nat)
    (hb : w.block_weak_ = some b) (hs : GetStrongCounter h b ≠ 0)
    (hlo : -(2 ^ 63 : Int) ≤ GetStrongCounter h b) :
    SharedPtr.ctorPromote h w =
      (setStrong h b (GetStrongCounter h b + 1),
       Except.ok { pointer_ := w.object_, block_ := some b }) := by
  unfold SharedPtr.ctorPromote
  rw [WeakPtr.Expired_of_strong_ne_zero h w b hb hs hlo]
  simp [hb]

/-- C4.  `Lock` on a weak handle that is empty or whose block has strong count 0
returns the empty shared handle (use-count 0, `Get()` null) and leaves the heap
as it was; on a block with strong count `s >= 1` below `INT_MAX` (so that the
increment does not overflow) it returns a handle on the weak handle's (pointer,
block) whose use-count is `s + 1`, the heap differing from the old one only in
that strong counter, which stays within `int` (weak counter, other blocks and
log unchanged).  The scenario of the claim: after wrapping a raw pointer,
creating a weak handle and destroying the only shared handle, the object has
been destroyed, `UseCount()` of the weak handle is 0 and `Lock` returns the
empty handle. -/
theorem C4_lock (h : Heap) (w : WeakPtr) :
    ((w.block_weak_ = none ∨ ∃ b, w.block_weak_ = some b ∧ GetStrongCounter h b = 0) →
        WeakPtr.Lock h w = (h, Except.ok SharedPtr.null) ∧
        SharedPtr.UseCount h SharedPtr.null = 0 ∧ SharedPtr.null.Get = none) ∧
    (∀ (b : Nat) (s : Nat), w.block_weak_ = some b → GetStrongCounter h b = s → 1 ≤ s →
        (s : Int) < INT_MAX →
        ∃ h1 r, WeakPtr.Lock h w = (h1, Except.ok r) ∧
          r = { pointer_ := w.object_, block_ := some b } ∧
          SharedPtr.UseCount h1 r = s + 1 ∧
          h1 = setStrong h b (s + 1) ∧
          GetStrongCounter h1 b ≤ INT_MAX ∧
          GetWeakCounter h1 b = GetWeakCounter h b ∧
          (∀ c, c ≠ b → h1.block c = h.block c) ∧ h1.log = h.log) ∧
    (∀ (h0 : Heap) (ptr : Ptr),
        ∃ h2 w0, WeakPtr.ctorShared (SharedPtr.ctorPtr h0 ptr).1 (SharedPtr.ctorPtr h0 ptr).2
            = some (h2, w0) ∧
          (SharedPtr.dtor h2 (SharedPtr.ctorPtr h0 ptr).2).log = (deletePtr h0 ptr).log ∧
          WeakPtr.UseCount (SharedPtr.dtor h2 (SharedPtr.ctorPtr h0 ptr).2) w0 = 0 ∧
          WeakPtr.Lock (SharedPtr.dtor h2 (SharedPtr.ctorPtr h0 ptr).2) w0
            = (SharedPtr.dtor h2 (SharedPtr.ctorPtr h0 ptr).2, Except.ok SharedPtr.null)) := by
  refine ⟨?_, ?_, ?_⟩
  · rintro (hn | ⟨b, hb, hs⟩)
    · refine ⟨?_, rfl, rfl⟩
      simp [WeakPtr.Lock, WeakPtr.Expired_null h w hn]
    · refine ⟨?_, rfl, rfl⟩
      simp [WeakPtr.Lock, WeakPtr.Expired_of_strong_zero h w b hb hs]
  · intro b s hb hs h1 hmax
    have hne : GetStrongCounter h b ≠ 0 := by omega
    have hlo : -(2 ^ 63 : Int) ≤ GetStrongCounter h b := by omega
    refine ⟨setStrong h b (s + 1), { pointer_ := w.object_, block_ := some b }, ?_, rfl, ?_, rfl,
      ?_, ?_, ?_, ?_⟩
    · unfold WeakPtr.Lock
      rw [WeakPtr.Expired_of_strong_ne_zero h w b hb hne hlo,
        SharedPtr.ctorPromote_of_strong_ne_zero h w b hb hne hlo, hs]
      simp
    · simp only [SharedPtr.UseCount, GetStrongCounter_setStrong]
      have : ((s : Int) + 1) = ((s + 1 : Nat) : Int) := by push_cast; ring
      rw [this, toSizeT_natCast]
    · simp only [GetStrongCounter_setStrong]
      omega
    · simp
    · intro c hc
      exact block_setStrong_of_ne h b c _ hc
    · simp
  · intro h0 ptr
    simp only [SharedPtr.ctorPtr, WeakPtr.ctorShared]
    refine ⟨_, _, rfl, ?_, ?_, ?_⟩
    · cases ptr <;>
        simp [SharedPtr.dtor, SharedPtr.release, SharedPtr.ctorPtr, Heap.alloc, GetStrongCounter,
          GetWeakCounter, setStrong, setWeak, Heap.setBlock, DeleteObject, deletePtr, Heap.emit]
    · cases ptr <;>
        simp [WeakPtr.UseCount, SharedPtr.dtor, SharedPtr.release, SharedPtr.ctorPtr, Heap.alloc,
          GetStrongCounter, GetWeakCounter, setStrong, setWeak, Heap.setBlock, DeleteObject,
          deletePtr, Heap.emit, toSizeT]
    · cases ptr <;>
        simp [WeakPtr.Lock, WeakPtr.Expired, WeakPtr.UseCount, SharedPtr.dtor, SharedPtr.release,
          SharedPtr.ctorPtr, Heap.alloc, GetStrongCounter, GetWeakCounter, setStrong, setWeak,
          Heap.setBlock, DeleteObject, deletePtr, Heap.emit, toSizeT]

/-- Witness of C4: the expired case on the heap left by wrapping, demoting and
destroying the shared handle; the live case on the heap with strong count 1. -/
theorem C4_lock_witness :
    (WeakPtr.Lock (heapAfter [Op.wrap, Op.weakOfShared 0, Op.destroy 0]) exampleWeak
        = (heapAfter [Op.wrap, Op.weakOfShared 0, Op.destroy 0], Except.ok SharedPtr.null)) ∧
    (∃ h1 r, WeakPtr.Lock (heapAfter [Op.wrap, Op.weakOfShared 0]) exampleWeak
        = (h1, Except.ok r) ∧ SharedPtr.UseCount h1 r = 1 + 1) := by
  constructor
  · exact ((C4_lock (heapAfter [Op.wrap, Op.weakOfShared 0, Op.destroy 0]) exampleWeak).1
      (Or.inr ⟨0, rfl, by decide⟩)).1
  · obtain ⟨h1, r, hL, _, hU, _⟩ :=
      (C4_lock (heapAfter [Op.wrap, Op.weakOfShared 0]) exampleWeak).2.1 0 1 rfl
        (by decide) (by decide) (by decide)
    exact ⟨h1, r, hL, hU⟩

/-- C5.  The promoting constructor `SharedPtr(const WeakPtr&)` throws `BadWeakPtr`
exactly when the weak handle is empty or the strong count of its block is 0.
On the throwing path the heap is the one before the call.  Otherwise the heap
differs from the old one only in the strong counter of the block, which is one
larger and still within `int`, and the new handle holds the weak handle's
(pointer, block).  The strong counter is assumed to hold a value of the 32-bit
type `int` (so that its conversion to `size_t` in `UseCount()` is zero only for
zero), and on the path that increments it a value below `INT_MAX` (so that the
increment does not overflow). -/
theorem C5_promote (h : Heap) (w : WeakPtr)
    (hint : ∀ b, w.block_weak_ = some b →
      -(2 ^ 31 : Int) ≤ GetStrongCounter h b ∧ GetStrongCounter h b ≤ INT_MAX) :
    ((SharedPtr.ctorPromote h w).2 = Except.error BadWeakPtr.mk ↔
        (w.block_weak_ = none ∨ ∃ b, w.block_weak_ = some b ∧ GetStrongCounter h b = 0)) ∧
    ((SharedPtr.ctorPromote h w).2 = Except.error BadWeakPtr.mk →
        (SharedPtr.ctorPromote h w).1 = h) ∧
    (∀ b, w.block_weak_ = some b → GetStrongCounter h b ≠ 0 → GetStrongCounter h b < INT_MAX →
        SharedPtr.ctorPromote h w =
          (setStrong h b (GetStrongCounter h b + 1),
           Except.ok { pointer_ := w.object_, block_ := some b }) ∧
        GetStrongCounter (SharedPtr.ctorPromote h w).1 b = GetStrongCounter h b + 1 ∧
        GetStrongCounter (SharedPtr.ctorPromote h w).1 b ≤ INT_MAX ∧
        GetWeakCounter (SharedPtr.ctorPromote h w).1 b = GetWeakCounter h b ∧
        (∀ c, c ≠ b → (SharedPtr.ctorPromote h w).1.block c = h.block c) ∧
        (SharedPtr.ctorPromote h w).1.log = h.log) := by
  have ok : ∀ b, w.block_weak_ = some b → GetStrongCounter h b ≠ 0 →
      SharedPtr.ctorPromote h w =
        (setStrong h b (GetStrongCounter h b + 1),
         Except.ok { pointer_ := w.object_, block_ := some b }) := by
    intro b hb hs
    have hlo : -(2 ^ 63 : Int) ≤ GetStrongCounter h b := by
      have := (hint b hb).1
      omega
    exact SharedPtr.ctorPromote_of_strong_ne_zero h w b hb hs hlo
  have err : (w.block_weak_ = none ∨ ∃ b, w.block_weak_ = some b ∧ GetStrongCounter h b = 0) →
      SharedPtr.ctorPromote h w = (h, Except.error BadWeakPtr.mk) := by
    rintro (hn | ⟨b, hb, hs⟩)
    · simp [SharedPtr.ctorPromote, WeakPtr.Expired_null h w hn]
    · simp [SharedPtr.ctorPromote, WeakPtr.Expired_of_strong_zero h w b hb hs]
  refine ⟨⟨?_, fun hc => by rw [err hc]⟩, ?_, ?_⟩
  · intro he
    cases hb : w.block_weak_ with
    | none => exact Or.inl rfl
    | some b =>
      right
      refine ⟨b, rfl, ?_⟩
      by_contra hs
      rw [ok b hb hs] at he
      cases he
  · intro he
    cases hb : w.block_weak_ with
    | none => rw [err (Or.inl hb)]
    | some b =>
      by_cases hs : GetStrongCounter h b = 0
      · rw [err (Or.inr ⟨b, hb, hs⟩)]
      · rw [ok b hb hs] at he
        cases he
  · intro b hb hs hmax
    rw [ok b hb hs]
    refine ⟨rfl, by simp, ?_, by simp, ?_, by simp⟩
    · simp only [GetStrongCounter_setStrong]
      omega
    · intro c hc
      exact block_setStrong_of_ne h b c _ hc

/-- Witness of C5: promotion of a live weak handle (strong count 1 becomes 2). -/
theorem C5_promote_witness :
    SharedPtr.ctorPromote (heapAfter [Op.wrap, Op.weakOfShared 0]) exampleWeak =
      (setStrong (heapAfter [Op.wrap, Op.weakOfShared 0]) 0
          (GetStrongCounter (heapAfter [Op.wrap, Op.weakOfShared 0]) 0 + 1),
       Except.ok { pointer_ := exampleWeak.object_, block_ := some 0 }) ∧
    GetStrongCounter (heapAfter [Op.wrap, Op.weakOfShared 0]) 0 = 1 :=
  ⟨((C5_promote (heapAfter [Op.wrap, Op.weakOfShared 0]) exampleWeak
      (by intro b hb; cases hb; exact ⟨by decide, by decide⟩)).2.2 0 rfl (by decide)
      (by decide)).1, by decide⟩

end WeakEnabled

/-! ## The exclusive-ownership pointer -/

namespace Unique

/-- C8.  For every `UniquePtr` `u`, whatever pointer it holds: `Release` returns
that pointer, leaves the handle with a null pointer (`Get()` null, `bool`
false) and the same policy value, and invokes no policy; the destructor of the
released handle invokes no policy either, so the list of invocations after
`Release` followed by the destructor is the list before. -/
theorem C8_release {D : Type} (calls : Calls D) (u : UniquePtr D) :
    (UniquePtr.Release calls u).2.1 = u.object_block_.GetFirst ∧
    (UniquePtr.Release calls u).2.2.Get = none ∧
    (UniquePtr.Release calls u).2.2.toBool = false ∧
    (UniquePtr.Release calls u).2.2.GetDeleter = u.GetDeleter ∧
    (UniquePtr.Release calls u).1 = calls ∧
    UniquePtr.dtor (UniquePtr.Release calls u).1 (UniquePtr.Release calls u).2.2 = calls := by
  refine ⟨rfl, rfl, rfl, rfl, rfl, rfl⟩

end Unique

/-! ## Counting in the implementation without weak handles -/

namespace Plain

theorem SharedPtr.plain_ctorCopy_of_block (h : Heap) (s : SharedPtr) (b : Nat) (hb : s.block_ = some b) :
    SharedPtr.ctorCopy h s = (setStrong h b (GetStrongCounter h b + 1), s) := by
  cases s with
  | mk pointer_ block_ =>
    simp only at hb
    subst hb
    rfl

theorem plain_copyN_of_block (n : Nat) : ∀ (h : Heap) (s : SharedPtr) (b : Nat), s.block_ = some b →
    copyN n h s = setStrong h b (GetStrongCounter h b + n) := by
  induction n with
  | zero =>
    intro h s b _
    simp [copyN, setStrong_self]
  | succ n ih =>
    intro h s b hb
    simp only [copyN]
    rw [SharedPtr.plain_ctorCopy_of_block h s b hb, ih _ s b hb, setStrong_setStrong]
    simp only [GetStrongCounter_setStrong]
    congr 1
    push_cast
    ring

theorem SharedPtr.dtor_of_ne_one (h : Heap) (s : SharedPtr) (b : Nat) (hb : s.block_ = some b)
    (hk : GetStrongCounter h b ≠ 1) :
    SharedPtr.dtor h s = setStrong h b (GetStrongCounter h b - 1) := by
  simp [SharedPtr.dtor, hb, hk]

theorem SharedPtr.dtor_of_one (h : Heap) (s : SharedPtr) (b : Nat) (hb : s.block_ = some b)
    (hk : GetStrongCounter h b = 1) :
    SharedPtr.dtor h s = deleteBlock (setStrong h b 0) b := by
  simp [SharedPtr.dtor, hb, hk]

theorem dtorAll_replicate (k : Nat) : ∀ (h : Heap) (s : SharedPtr) (b : Nat), s.block_ = some b →
    (k : Int) + 1 ≤ GetStrongCounter h b →
    dtorAll h (List.replicate k s) = setStrong h b (GetStrongCounter h b - k) := by
  induction k with
  | zero =>
    intro h s b _ _
    simp [dtorAll, setStrong_self]
  | succ k ih =>
    intro h s b hb hk
    have hne : GetStrongCounter h b ≠ 1 := by push_cast at hk; omega
    simp only [dtorAll, List.replicate_succ, List.foldl_cons]
    rw [SharedPtr.dtor_of_ne_one h s b hb hne]
    have := ih (setStrong h b (GetStrongCounter h b - 1)) s b hb
      (by simp only [GetStrongCounter_setStrong]; push_cast at hk; omega)
    simp only [dtorAll] at this
    rw [this, setStrong_setStrong]
    simp only [GetStrongCounter_setStrong]
    congr 1
    push_cast
    ring

theorem MakeShared_handle (h : Heap) (args : List Int) :
    (MakeShared h args).2 = { pointer_ := some (Addr.inBlock h.next), block_ := some h.next } := by
  cases args <;> rfl

theorem MakeShared_strong (h : Heap) (args : List Int) :
    GetStrongCounter (MakeShared h args).1 h.next = 1 := by
  cases args <;>
    simp [MakeShared, newControlBlockForNewObject, Heap.alloc, GetStrongCounter, Heap.emit]

theorem MakeShared_kind (h : Heap) (args : List Int) :
    ((MakeShared h args).1.block h.next).kind = BlockKind.ForNewObject := by
  cases args <;>
    simp [MakeShared, newControlBlockForNewObject, Heap.alloc, Heap.emit]

theorem MakeShared_log (h : Heap) (args : List Int) :
    (MakeShared h args).1.log =
      h.log ++ (if args = [] then [] else [Event.construct (Addr.inBlock h.next) args]) := by
  cases args <;>
    simp [MakeShared, newControlBlockForNewObject, Heap.alloc, Heap.emit]

/-- C9 (shared/shared.h).  The handle returned by `MakeShared` observes the
embedded object of the fresh block and has use-count 1.  After `n` copies, with
`n + 1` within `int` (so that no increment overflows), the strong counter and
the use-count are `n + 1`, and every copy is a handle with the same fields, so
all `n + 1` handles report it.  Destroying `k <= n` of the handles leaves the
use-count at `n + 1 - k` and appends nothing to the log.  Destroying all
`n + 1` appends exactly the in-place destructor of the embedded object followed
by the deallocation of the block. -/
theorem C9_make_shared_use_count (h : Heap) (args : List Int) (n : Nat)
    (hmax : (n : Int) + 1 ≤ INT_MAX) :
    (MakeShared h args).2 = { pointer_ := some (Addr.inBlock h.next), block_ := some h.next } ∧
    SharedPtr.UseCount (MakeShared h args).1 (MakeShared h args).2 = 1 ∧
    (∀ h1 : Heap, (SharedPtr.ctorCopy h1 (MakeShared h args).2).2 = (MakeShared h args).2) ∧
    (∀ k, k ≤ n →
      GetStrongCounter (copyN k (MakeShared h args).1 (MakeShared h args).2) h.next = k + 1 ∧
      GetStrongCounter (copyN k (MakeShared h args).1 (MakeShared h args).2) h.next ≤ INT_MAX) ∧
    SharedPtr.UseCount (copyN n (MakeShared h args).1 (MakeShared h args).2)
      (MakeShared h args).2 = n + 1 ∧
    (copyN n (MakeShared h args).1 (MakeShared h args).2).log = (MakeShared h args).1.log ∧
    (∀ k, k ≤ n →
        SharedPtr.UseCount
          (dtorAll (copyN n (MakeShared h args).1 (MakeShared h args).2)
            (List.replicate k (MakeShared h args).2)) (MakeShared h args).2 = n + 1 - k ∧
        (dtorAll (copyN n (MakeShared h args).1 (MakeShared h args).2)
            (List.replicate k (MakeShared h args).2)).log = (MakeShared h args).1.log) ∧
    (dtorAll (copyN n (MakeShared h args).1 (MakeShared h args).2)
        (List.replicate (n + 1) (MakeShared h args).2)).log
      = (MakeShared h args).1.log ++
          [Event.destroyAt (Addr.inBlock h.next), Event.deleteBlock h.next] := by
  have hs := MakeShared_handle h args
  have hb : (MakeShared h args).2.block_ = some h.next := by rw [hs]
  have h1 := MakeShared_strong h args
  have hc := plain_copyN_of_block n (MakeShared h args).1 (MakeShared h args).2 h.next hb
  rw [h1] at hc
  have hcast : (1 : Int) + (n : Int) = ((n + 1 : Nat) : Int) := by push_cast; ring
  refine ⟨hs, ?_, ?_, ?_, ?_, ?_, ?_, ?_⟩
  · simp only [SharedPtr.UseCount, hb, h1]
    rfl
  · intro h1
    rw [SharedPtr.plain_ctorCopy_of_block h1 _ h.next hb]
  · intro k hk
    rw [plain_copyN_of_block k (MakeShared h args).1 (MakeShared h args).2 h.next hb, h1]
    simp only [GetStrongCounter_setStrong]
    constructor <;> omega
  · rw [hc]
    simp only [SharedPtr.UseCount, hb, GetStrongCounter_setStrong, hcast, toSizeT_natCast]
  · rw [hc]
    simp
  · intro k hk
    have hd := dtorAll_replicate k (copyN n (MakeShared h args).1 (MakeShared h args).2)
      (MakeShared h args).2 h.next hb
      (by rw [hc]; simp only [GetStrongCounter_setStrong]; omega)
    rw [hd, hc, setStrong_setStrong]
    simp only [GetStrongCounter_setStrong, SharedPtr.UseCount, hb, log_setStrong]
    refine ⟨?_, trivial⟩
    have : (1 : Int) + (n : Int) - (k : Int) = ((n + 1 - k : Nat) : Int) := by omega
    rw [this, toSizeT_natCast]
  · have hd := dtorAll_replicate n (copyN n (MakeShared h args).1 (MakeShared h args).2)
      (MakeShared h args).2 h.next hb
      (by rw [hc]; simp only [GetStrongCounter_setStrong]; omega)
    rw [hc, setStrong_setStrong] at hd
    simp only [GetStrongCounter_setStrong] at hd
    have hsplit : List.replicate (n + 1) (MakeShared h args).2
        = List.replicate n (MakeShared h args).2 ++ [(MakeShared h args).2] := by
      rw [List.replicate_succ']
    rw [hsplit]
    simp only [dtorAll, List.foldl_append, List.foldl_cons, List.foldl_nil]
    simp only [dtorAll] at hd
    rw [hc, hd]
    rw [SharedPtr.dtor_of_one _ _ h.next hb (by simp)]
    simp [deleteBlock, MakeShared_kind]

/-- Witness of C9: `MakeShared` of a value object holding 42 on the empty heap
and one copy.  Use-counts 1, 2, 1; after both handles are gone the log holds
one construction, one destructor call and one deallocation. -/
theorem C9_make_shared_use_count_witness :
    SharedPtr.UseCount (MakeShared Heap.empty [42]).1 (MakeShared Heap.empty [42]).2 = 1 ∧
    SharedPtr.UseCount (copyN 1 (MakeShared Heap.empty [42]).1 (MakeShared Heap.empty [42]).2)
      (MakeShared Heap.empty [42]).2 = 1 + 1 ∧
    SharedPtr.UseCount
      (dtorAll (copyN 1 (MakeShared Heap.empty [42]).1 (MakeShared Heap.empty [42]).2)
        (List.replicate 1 (MakeShared Heap.empty [42]).2)) (MakeShared Heap.empty [42]).2
      = 1 + 1 - 1 ∧
    (dtorAll (copyN 1 (MakeShared Heap.empty [42]).1 (MakeShared Heap.empty [42]).2)
        (List.replicate (1 + 1) (MakeShared Heap.empty [42]).2)).log
      = (MakeShared Heap.empty [42]).1.log ++
          [Event.destroyAt (Addr.inBlock Heap.empty.next), Event.deleteBlock Heap.empty.next] ∧
    (MakeShared Heap.empty [42]).1.log = [Event.construct (Addr.inBlock 0) [42]] :=
  ⟨(C9_make_shared_use_count Heap.empty [42] 1 (by decide)).2.1,
   (C9_make_shared_use_count Heap.empty [42] 1 (by decide)).2.2.2.2.1,
   ((C9_make_shared_use_count Heap.empty [42] 1 (by decide)).2.2.2.2.2.2.1 1 (le_refl 1)).1,
   (C9_make_shared_use_count Heap.empty [42] 1 (by decide)).2.2.2.2.2.2.2,
   rfl⟩

end Plain

/-! ## Aliasing -/

namespace WeakEnabled

theorem SharedPtr.dtor_of_two_le (h : Heap) (s : SharedPtr) (b : Nat) (hb : s.block_ = some b)
    (hk : 2 ≤ GetStrongCounter h b) :
    SharedPtr.dtor h s = setStrong h b (GetStrongCounter h b - 1) := by
  have h1 : ¬ (GetStrongCounter h b - 1 = 0) := by omega
  simp [SharedPtr.dtor, SharedPtr.release, hb, h1]

theorem WeakPtr.dtor_of_strong_pos (h : Heap) (w : WeakPtr) (b : Nat)
    (hb : w.block_weak_ = some b) (hk : 1 ≤ GetStrongCounter h b) :
    WeakPtr.dtor h w = setWeak h b (GetWeakCounter h b - 1) := by
  have h1 : ¬ (GetStrongCounter h b = 0) := by omega
  simp [WeakPtr.dtor, WeakPtr.Deleter, hb, h1]

theorem DeleteObject_log (h : Heap) (b : Nat) (o : Addr) (ho : ownedObject h b = some o) :
    ∃ e, (DeleteObject h b) = h.emit e ∧ (e = Event.deleteObject o ∨ e = Event.destroyAt o) := by
  unfold ownedObject at ho
  unfold DeleteObject
  cases hk : (h.block b).kind with
  | Base => simp [hk] at ho
  | ForExistedObject =>
    simp only [hk] at ho
    exact ⟨Event.deleteObject o, by simp [ho, deletePtr], Or.inl rfl⟩
  | ForNewObject =>
    simp only [hk, Option.some.injEq] at ho
    exact ⟨Event.destroyAt o, by simp [ho], Or.inr rfl⟩

theorem Handle.isShared_shared (s : SharedPtr) : (Handle.shared s).isShared = true := rfl

theorem Handle.isShared_weak (w : WeakPtr) : (Handle.weak w).isShared = false := rfl

theorem dtorAll_keep (b : Nat) (others : List Handle) : ∀ (h : Heap),
    (∀ x ∈ others, x.block = some b) →
    (others.countP Handle.isShared : Int) + 1 ≤ GetStrongCounter h b →
    dtorAll h others =
      setWeak (setStrong h b (GetStrongCounter h b - others.countP Handle.isShared)) b
        (GetWeakCounter h b - others.countP (fun x => !x.isShared)) := by
  induction others with
  | nil =>
    intro h _ _
    simp [dtorAll, setStrong_self, setWeak_self]
  | cons x xs ih =>
    intro h hall hk
    have hx : x.block = some b := hall x (List.mem_cons_self _ _)
    have hxs : ∀ y ∈ xs, y.block = some b := fun y hy => hall y (List.mem_cons_of_mem _ hy)
    cases x with
    | shared s =>
      have c1 : (Handle.shared s :: xs).countP Handle.isShared
          = xs.countP Handle.isShared + 1 := by
        simp [List.countP_cons, Handle.isShared_shared]
      have c2 : (Handle.shared s :: xs).countP (fun x => !x.isShared)
          = xs.countP (fun x => !x.isShared) := by
        simp [List.countP_cons, Handle.isShared_shared]
      rw [c1] at hk
      rw [c1, c2]
      push_cast at hk ⊢
      simp only [dtorAll, List.foldl_cons, Handle.dtor]
      have hs : s.block_ = some b := hx
      rw [SharedPtr.dtor_of_two_le h s b hs (by omega)]
      have := ih (setStrong h b (GetStrongCounter h b - 1)) hxs
        (by simp only [GetStrongCounter_setStrong]; omega)
      simp only [dtorAll] at this
      rw [this, setStrong_setStrong]
      simp only [GetStrongCounter_setStrong, GetWeakCounter_setStrong]
      congr 2
      ring
    | weak w =>
      have c1 : (Handle.weak w :: xs).countP Handle.isShared = xs.countP Handle.isShared := by
        simp [List.countP_cons, Handle.isShared_weak]
      have c2 : (Handle.weak w :: xs).countP (fun x => !x.isShared)
          = xs.countP (fun x => !x.isShared) + 1 := by
        simp [List.countP_cons, Handle.isShared_weak]
      rw [c1] at hk
      rw [c1, c2]
      push_cast at hk ⊢
      simp only [dtorAll, List.foldl_cons, Handle.dtor]
      have hw : w.block_weak_ = some b := hx
      rw [WeakPtr.dtor_of_strong_pos h w b hw (by omega)]
      have := ih (setWeak h b (GetWeakCounter h b - 1)) hxs
        (by simp only [GetStrongCounter_setWeak]; omega)
      simp only [dtorAll] at this
      rw [this, ← setWeak_setStrong, setWeak_setWeak]
      simp only [GetStrongCounter_setWeak, GetWeakCounter_setWeak]
      congr 1
      ring


theorem SharedPtr.dtor_last (h : Heap) (a : SharedPtr) (b : Nat) (o : Addr)
    (hb : a.block_ = some b) (h1 : GetStrongCounter h b = 1) (ho : ownedObject h b = some o) :
    ∃ e, (e = Event.deleteObject o ∨ e = Event.destroyAt o) ∧
      ((SharedPtr.dtor h a).log = h.log ++ [e] ∨
       (SharedPtr.dtor h a).log = (h.log ++ [e]) ++ [Event.deleteBlock b]) := by
  have ho' : ownedObject (setStrong h b 0) b = some o := by simpa using ho
  obtain ⟨e, he, hor⟩ := DeleteObject_log (setStrong h b 0) b o ho'
  refine ⟨e, hor, ?_⟩
  simp only [SharedPtr.dtor, SharedPtr.release, hb, h1, sub_self, GetStrongCounter_setStrong,
    GetWeakCounter_setStrong, true_and, if_true]
  by_cases hw : GetWeakCounter h b = 0
  · right
    simp [hw, he, deleteBlock]
  · left
    simp [hw, he]

end WeakEnabled

/-! ## Release on a pointee deriving from `EnableSharedFromThis` -/

namespace WeakEnabled

theorem destroySelf_of_unlinked (h : Heap) (e : Event) (obj : EnableSharedFromThis)
    (hn : obj.weak_ptr_.block_weak_ = none) : destroySelf h e obj = some (h.emit e) := by
  simp [destroySelf, WeakPtr.deletesObject, WeakPtr.dtor, WeakPtr.Deleter, hn]

theorem DeleteObjectSelf_of_unlinked (h : Heap) (b : Nat) (obj : EnableSharedFromThis)
    (hn : obj.weak_ptr_.block_weak_ = none) : DeleteObjectSelf h b obj = some (DeleteObject h b) := by
  unfold DeleteObjectSelf DeleteObject
  cases (h.block b).kind with
  | Base => rfl
  | ForExistedObject =>
    cases (h.block b).object_ with
    | none => rfl
    | some a => simp [destroySelf_of_unlinked h _ obj hn, deletePtr]
  | ForNewObject => simp [destroySelf_of_unlinked h _ obj hn]

theorem SharedPtr.releaseSelf_of_unlinked (h : Heap) (this : SharedPtr)
    (obj : EnableSharedFromThis) (hn : obj.weak_ptr_.block_weak_ = none) :
    SharedPtr.releaseSelf h this obj = some (SharedPtr.release h this) := by
  unfold SharedPtr.releaseSelf SharedPtr.release
  cases this.block_ with
  | none => rfl
  | some b =>
    simp only [DeleteObjectSelf_of_unlinked _ _ obj hn, Option.map_some']
    split_ifs <;> rfl

theorem SharedPtr.releaseSelf_of_ne_one (h : Heap) (this : SharedPtr)
    (obj : EnableSharedFromThis) (b : Nat) (hb : this.block_ = some b)
    (hs : GetStrongCounter h b ≠ 1) :
    SharedPtr.releaseSelf h this obj = some (setStrong h b (GetStrongCounter h b - 1)) := by
  have h1 : ¬ (GetStrongCounter h b - 1 = 0) := by omega
  simp [SharedPtr.releaseSelf, hb, h1]

theorem SharedPtr.releaseSelf_last (h : Heap) (this : SharedPtr) (obj : EnableSharedFromThis)
    (b : Nat) (o : Addr) (hb : this.block_ = some b) (hl : obj.weak_ptr_.block_weak_ = some b)
    (hs : GetStrongCounter h b = 1) (hw : GetWeakCounter h b = 1)
    (ho : ownedObject h b = some o) :
    ∃ e, (e = Event.deleteObject o ∨ e = Event.destroyAt o) ∧
      SharedPtr.releaseSelf h this obj
        = some (deleteBlock (setWeak ((setStrong h b 0).emit e) b 0) b) := by
  have hdes : ∀ e, destroySelf (setStrong h b 0) e obj
      = some (deleteBlock (setWeak ((setStrong h b 0).emit e) b 0) b) := by
    intro e
    simp [destroySelf, WeakPtr.deletesObject, WeakPtr.dtor, WeakPtr.Deleter, hl, hw]
  unfold ownedObject at ho
  cases hk : (h.block b).kind with
  | Base => simp [hk] at ho
  | ForExistedObject =>
    simp only [hk] at ho
    refine ⟨Event.deleteObject o, Or.inl rfl, ?_⟩
    simp [SharedPtr.releaseSelf, hb, hs, hw, DeleteObjectSelf, hk, ho, hdes]
  | ForNewObject =>
    simp only [hk, Option.some.injEq] at ho
    refine ⟨Event.destroyAt o, Or.inr rfl, ?_⟩
    simp [SharedPtr.releaseSelf, hb, hs, hw, DeleteObjectSelf, hk, ho, hdes]

theorem dtorAllSelf_keep (obj : EnableSharedFromThis) (b : Nat) (others : List Handle) :
    ∀ (h : Heap), (∀ x ∈ others, x.block = some b) →
    (others.countP Handle.isShared : Int) + 1 ≤ GetStrongCounter h b →
    dtorAllSelf obj h others = some (dtorAll h others) := by
  induction others with
  | nil =>
    intro h _ _
    rfl
  | cons x xs ih =>
    intro h hall hk
    have hx : x.block = some b := hall x (List.mem_cons_self _ _)
    have hxs : ∀ y ∈ xs, y.block = some b := fun y hy => hall y (List.mem_cons_of_mem _ hy)
    cases x with
    | shared s =>
      have c1 : (Handle.shared s :: xs).countP Handle.isShared
          = xs.countP Handle.isShared + 1 := by
        simp [List.countP_cons, Handle.isShared_shared]
      rw [c1] at hk
      push_cast at hk
      have hs : s.block_ = some b := hx
      have hd := SharedPtr.dtor_of_two_le h s b hs (by omega)
      simp only [dtorAllSelf, Handle.dtorSelf, SharedPtr.dtorSelf, dtorAll, List.foldl_cons,
        Handle.dtor]
      rw [SharedPtr.releaseSelf_of_ne_one h s obj b hs (by omega), hd, Option.some_bind]
      exact ih _ hxs (by simp only [GetStrongCounter_setStrong]; omega)
    | weak w =>
      have c1 : (Handle.weak w :: xs).countP Handle.isShared = xs.countP Handle.isShared := by
        simp [List.countP_cons, Handle.isShared_weak]
      rw [c1] at hk
      have hw : w.block_weak_ = some b := hx
      have hne : ¬ (GetStrongCounter h b = 0) := by omega
      have hd := WeakPtr.dtor_of_strong_pos h w b hw (by omega)
      simp only [dtorAllSelf, Handle.dtorSelf, WeakPtr.deletesObject, hw, hne, and_false,
        decide_False, Bool.false_and, Bool.false_eq_true, if_false, Option.some_bind, dtorAll,
        List.foldl_cons, Handle.dtor]
      rw [hd]
      exact ih _ hxs (by simp only [GetStrongCounter_setWeak]; omega)

end WeakEnabled


namespace Plain

theorem plain_dtorAll_keep (b : Nat) (others : List SharedPtr) : ∀ (h : Heap),
    (∀ x ∈ others, x.block_ = some b) →
    (others.length : Int) + 1 ≤ GetStrongCounter h b →
    dtorAll h others = setStrong h b (GetStrongCounter h b - others.length) := by
  induction others with
  | nil =>
    intro h _ _
    simp [dtorAll, setStrong_self]
  | cons x xs ih =>
    intro h hall hk
    have hx : x.block_ = some b := hall x (List.mem_cons_self _ _)
    have hxs : ∀ y ∈ xs, y.block_ = some b := fun y hy => hall y (List.mem_cons_of_mem _ hy)
    simp only [List.length_cons] at hk ⊢
    push_cast at hk ⊢
    simp only [dtorAll, List.foldl_cons]
    rw [SharedPtr.dtor_of_ne_one h x b hx (by omega)]
    have := ih (setStrong h b (GetStrongCounter h b - 1)) hxs
      (by simp only [GetStrongCounter_setStrong]; omega)
    simp only [dtorAll] at this
    rw [this, setStrong_setStrong]
    simp only [GetStrongCounter_setStrong]
    congr 1
    ring

theorem SharedPtr.plain_dtor_last (h : Heap) (a : SharedPtr) (b : Nat) (o : Addr)
    (hb : a.block_ = some b) (h1 : GetStrongCounter h b = 1) (ho : ownedObject h b = some o) :
    ∃ e, (e = Event.deleteObject o ∨ e = Event.destroyAt o) ∧
      (SharedPtr.dtor h a).log = (h.log ++ [e]) ++ [Event.deleteBlock b] := by
  rw [SharedPtr.dtor_of_one h a b hb h1]
  unfold ownedObject at ho
  unfold deleteBlock
  simp only [kind_setStrong, object_setStrong]
  cases hk : (h.block b).kind with
  | Base => simp [hk] at ho
  | ForExistedObject =>
    simp only [hk] at ho
    exact ⟨Event.deleteObject o, Or.inl rfl, by simp [ho, deletePtr]⟩
  | ForNewObject =>
    simp only [hk, Option.some.injEq] at ho
    exact ⟨Event.destroyAt o, Or.inr rfl, by simp [ho]⟩

end Plain

/-- C6.  Let `s` be a non-empty shared handle on block `b` whose strong count is
`n`, below `INT_MAX` (so that the increment does not overflow).  In both
implementations the aliasing constructor `SharedPtr(s, p)` yields a handle `a`
with `a.Get() == p` on the same block, touches nothing but the strong counter,
which stays within `int`, and afterwards
`s.UseCount() == a.UseCount() == n + 1`.  While `a` is alive, destroying other
handles of the block (at most the `n` other shared ones, and any weak ones)
appends nothing to the log: the owned object is not destroyed.  Once the `n`
other shared handles are gone, destroying `a` destroys the object owned by the
block exactly once more, and the destruction count of every other address (in
particular of `p`, when it differs) is unchanged.  The first two parts are
about a pointee whose destructor touches no control block (shared/shared.h
knows no other).  The third part is the weak-enabled implementation on a
pointee deriving from `EnableSharedFromThis` and linked to `b`, the weak handle
embedded in it being the only weak handle left when `a` is destroyed: the same
holds, every destructor call returns, and the destruction of the object, which
releases the embedded weak handle, frees the block once. -/
theorem C6_aliasing (h : Heap) (s : SharedPtr) (p : Ptr) (b : Nat) (n : Nat)
    (hb : s.block_ = some b) (hn : GetStrongCounter h b = n) (hmax : (n : Int) < INT_MAX) :
    (∃ h1 a, WeakEnabled.SharedPtr.ctorAlias h s p = some (h1, a) ∧
        a.Get = p ∧ a.block_ = s.block_ ∧ h1 = setStrong h b (n + 1) ∧
        GetStrongCounter h1 b ≤ INT_MAX ∧
        SharedPtr.UseCount h1 s = n + 1 ∧ SharedPtr.UseCount h1 a = n + 1 ∧
        (∀ others : List WeakEnabled.Handle, (∀ x ∈ others, x.block = some b) →
            others.countP WeakEnabled.Handle.isShared ≤ n →
            (WeakEnabled.dtorAll h1 others).log = h.log ∧
            SharedPtr.UseCount (WeakEnabled.dtorAll h1 others) a
              = n + 1 - others.countP WeakEnabled.Handle.isShared) ∧
        (∀ others : List WeakEnabled.Handle, (∀ x ∈ others, x.block = some b) →
            others.countP WeakEnabled.Handle.isShared = n →
            ∀ o, ownedObject h b = some o →
              ∀ q, destroyedCount
                    (WeakEnabled.SharedPtr.dtor (WeakEnabled.dtorAll h1 others) a).log q
                  = destroyedCount h.log q + (if q = o then 1 else 0))) ∧
    (∃ h1 a, Plain.SharedPtr.ctorAlias h s p = some (h1, a) ∧
        a.Get = p ∧ a.block_ = s.block_ ∧ h1 = setStrong h b (n + 1) ∧
        GetStrongCounter h1 b ≤ INT_MAX ∧
        SharedPtr.UseCount h1 s = n + 1 ∧ SharedPtr.UseCount h1 a = n + 1 ∧
        (∀ others : List SharedPtr, (∀ x ∈ others, x.block_ = some b) →
            others.length ≤ n →
            (Plain.dtorAll h1 others).log = h.log ∧
            SharedPtr.UseCount (Plain.dtorAll h1 others) a = n + 1 - others.length) ∧
        (∀ others : List SharedPtr, (∀ x ∈ others, x.block_ = some b) →
            others.length = n →
            ∀ o, ownedObject h b = some o →
              ∀ q, destroyedCount (Plain.SharedPtr.dtor (Plain.dtorAll h1 others) a).log q
                  = destroyedCount h.log q + (if q = o then 1 else 0))) ∧
    (∀ (obj : WeakEnabled.EnableSharedFromThis) (others : List WeakEnabled.Handle),
        obj.weak_ptr_.block_weak_ = some b →
        (∀ x ∈ others, x.block = some b) →
        others.countP WeakEnabled.Handle.isShared = n →
        GetWeakCounter h b = 1 + others.countP (fun x => !x.isShared) →
        ∀ o, ownedObject h b = some o →
          WeakEnabled.dtorAllSelf obj (setStrong h b (n + 1)) others
            = some (WeakEnabled.dtorAll (setStrong h b (n + 1)) others) ∧
          (WeakEnabled.dtorAll (setStrong h b (n + 1)) others).log = h.log ∧
          ∃ hf, WeakEnabled.SharedPtr.dtorSelf
                  (WeakEnabled.dtorAll (setStrong h b (n + 1)) others)
                  { pointer_ := p, block_ := some b } obj = some hf ∧
            (∀ q, destroyedCount hf.log q = destroyedCount h.log q + (if q = o then 1 else 0)) ∧
            freedCount hf.log b = freedCount h.log b + 1) := by
  have hcast : ((n : Int) + 1) = ((n + 1 : Nat) : Int) := by push_cast; ring
  have huse : ∀ x : SharedPtr, x.block_ = some b →
      SharedPtr.UseCount (setStrong h b (n + 1)) x = n + 1 := by
    intro x hx
    simp only [SharedPtr.UseCount, hx, GetStrongCounter_setStrong, hcast, toSizeT_natCast]
  have hrange : GetStrongCounter (setStrong h b (n + 1)) b ≤ INT_MAX := by
    simp only [GetStrongCounter_setStrong]
    omega
  refine ⟨?_, ?_, ?_⟩
  · refine ⟨setStrong h b (n + 1), { pointer_ := p, block_ := some b }, ?_, rfl, hb.symm, rfl,
      hrange, huse s hb, huse _ rfl, ?_, ?_⟩
    · simp [WeakEnabled.SharedPtr.ctorAlias, WeakEnabled.SharedPtr.release, hb, hn]
    · intro others hall hle
      have hk := WeakEnabled.dtorAll_keep b others (setStrong h b (n + 1)) hall
        (by simp only [GetStrongCounter_setStrong]; omega)
      rw [hk]
      refine ⟨by simp, ?_⟩
      simp only [SharedPtr.UseCount, GetStrongCounter_setWeak, GetStrongCounter_setStrong]
      have : (n : Int) + 1 - (others.countP WeakEnabled.Handle.isShared : Int)
          = ((n + 1 - others.countP WeakEnabled.Handle.isShared : Nat) : Int) := by omega
      rw [this, toSizeT_natCast]
    · intro others hall heq o ho q
      have hk := WeakEnabled.dtorAll_keep b others (setStrong h b (n + 1)) hall
        (by simp only [GetStrongCounter_setStrong]; omega)
      rw [hk]
      obtain ⟨e, he, hlog⟩ := WeakEnabled.SharedPtr.dtor_last
        (setWeak (setStrong (setStrong h b (n + 1)) b
          (GetStrongCounter (setStrong h b (n + 1)) b
            - (others.countP WeakEnabled.Handle.isShared : Int))) b
          (GetWeakCounter (setStrong h b (n + 1)) b
            - (others.countP (fun x => !x.isShared) : Int)))
        { pointer_ := p, block_ := some b } b o rfl
        (by simp only [GetStrongCounter_setWeak, GetStrongCounter_setStrong]; omega)
        (by simpa using ho)
      rcases hlog with hlog | hlog
      · rw [hlog]
        simp only [log_setWeak, log_setStrong]
        exact destroyedCount_destroy h.log e o q he
      · rw [hlog]
        simp only [log_setWeak, log_setStrong]
        rw [destroyedCount_deleteBlock]
        exact destroyedCount_destroy h.log e o q he
  · refine ⟨setStrong h b (n + 1), { pointer_ := p, block_ := some b }, ?_, rfl, hb.symm, rfl,
      hrange, huse s hb, huse _ rfl, ?_, ?_⟩
    · simp [Plain.SharedPtr.ctorAlias, Plain.SharedPtr.release, hb, hn]
    · intro others hall hle
      have hk := Plain.plain_dtorAll_keep b others (setStrong h b (n + 1)) hall
        (by simp only [GetStrongCounter_setStrong]; omega)
      rw [hk]
      refine ⟨by simp, ?_⟩
      simp only [SharedPtr.UseCount, GetStrongCounter_setStrong]
      have : (n : Int) + 1 - (others.length : Int) = ((n + 1 - others.length : Nat) : Int) := by
        omega
      rw [this, toSizeT_natCast]
    · intro others hall heq o ho q
      have hk := Plain.plain_dtorAll_keep b others (setStrong h b (n + 1)) hall
        (by simp only [GetStrongCounter_setStrong]; omega)
      rw [hk]
      obtain ⟨e, he, hlog⟩ := Plain.SharedPtr.plain_dtor_last
        (setStrong (setStrong h b (n + 1)) b
          (GetStrongCounter (setStrong h b (n + 1)) b - (others.length : Int)))
        { pointer_ := p, block_ := some b } b o rfl
        (by simp only [GetStrongCounter_setStrong]; omega)
        (by simpa using ho)
      rw [hlog]
      simp only [log_setStrong]
      rw [destroyedCount_deleteBlock]
      exact destroyedCount_destroy h.log e o q he
  · intro obj others hl hall heq hw o ho
    have hpre : (others.countP WeakEnabled.Handle.isShared : Int) + 1
        ≤ GetStrongCounter (setStrong h b (n + 1)) b := by
      simp only [GetStrongCounter_setStrong]
      omega
    have hk := WeakEnabled.dtorAll_keep b others (setStrong h b (n + 1)) hall hpre
    refine ⟨WeakEnabled.dtorAllSelf_keep obj b others (setStrong h b (n + 1)) hall hpre,
      by rw [hk]; simp, ?_⟩
    rw [hk]
    obtain ⟨e, he, hrel⟩ := WeakEnabled.SharedPtr.releaseSelf_last
      (setWeak (setStrong (setStrong h b (n + 1)) b
        (GetStrongCounter (setStrong h b (n + 1)) b
          - (others.countP WeakEnabled.Handle.isShared : Int))) b
        (GetWeakCounter (setStrong h b (n + 1)) b
          - (others.countP (fun x => !x.isShared) : Int)))
      { pointer_ := p, block_ := some b } obj b o rfl hl
      (by simp only [GetStrongCounter_setWeak, GetStrongCounter_setStrong]; omega)
      (by simp only [GetWeakCounter_setWeak]; simp only [GetWeakCounter_setStrong]; omega)
      (by simpa using ho)
    refine ⟨_, hrel, ?_, ?_⟩
    · intro q
      simp only [WeakEnabled.deleteBlock, log_emit, log_setWeak, log_setStrong]
      rw [destroyedCount_deleteBlock]
      exact destroyedCount_destroy h.log e o q he
    · simp only [WeakEnabled.deleteBlock, log_emit, log_setWeak, log_setStrong]
      rcases he with he | he <;> subst he <;> simp [freedCount, List.count_append]

/-- Witness of C6: one handle wraps the object at `raw 0` (strong count 1); an
alias observing `raw 7` is created; the original handle is destroyed, then the
alias.  The object at `raw 0` is destroyed once, the address `raw 7` never.  The
same on the wrapped object deriving from `EnableSharedFromThis`. -/
theorem C6_aliasing_witness :
    (∃ h1 a, WeakEnabled.SharedPtr.ctorAlias (WeakEnabled.heapAfter [WeakEnabled.Op.wrap])
          WeakEnabled.exampleShared (some (Addr.raw 7)) = some (h1, a) ∧
        a.Get = some (Addr.raw 7) ∧ SharedPtr.UseCount h1 a = 1 + 1 ∧
        (WeakEnabled.dtorAll h1 [WeakEnabled.Handle.shared WeakEnabled.exampleShared]).log = [] ∧
        destroyedCount
          (WeakEnabled.SharedPtr.dtor
            (WeakEnabled.dtorAll h1 [WeakEnabled.Handle.shared WeakEnabled.exampleShared]) a).log
          (Addr.raw 0) = 1 ∧
        destroyedCount
          (WeakEnabled.SharedPtr.dtor
            (WeakEnabled.dtorAll h1 [WeakEnabled.Handle.shared WeakEnabled.exampleShared]) a).log
          (Addr.raw 7) = 0) ∧
    (∃ h1 a, Plain.SharedPtr.ctorAlias (WeakEnabled.heapAfter [WeakEnabled.Op.wrap])
          WeakEnabled.exampleShared (some (Addr.raw 7)) = some (h1, a) ∧
        a.Get = some (Addr.raw 7) ∧ SharedPtr.UseCount h1 a = 1 + 1 ∧
        (Plain.dtorAll h1 [WeakEnabled.exampleShared]).log = [] ∧
        destroyedCount
          (Plain.SharedPtr.dtor (Plain.dtorAll h1 [WeakEnabled.exampleShared]) a).log
          (Addr.raw 0) = 1 ∧
        destroyedCount
          (Plain.SharedPtr.dtor (Plain.dtorAll h1 [WeakEnabled.exampleShared]) a).log
          (Addr.raw 7) = 0) ∧
    (∃ hf, WeakEnabled.SharedPtr.dtorSelf
          (WeakEnabled.dtorAll (setStrong WeakEnabled.exampleSelf.1 0 ((1 : Nat) + 1))
            [WeakEnabled.Handle.shared WeakEnabled.exampleSelf.2.1])
          { pointer_ := some (Addr.raw 7), block_ := some 0 } WeakEnabled.exampleSelf.2.2
            = some hf ∧
        destroyedCount hf.log (Addr.raw 0) = 1 ∧ destroyedCount hf.log (Addr.raw 7) = 0) := by
  have kself := (C6_aliasing WeakEnabled.exampleSelf.1 WeakEnabled.exampleSelf.2.1
    (some (Addr.raw 7)) 0 1 rfl (by decide) (by decide)).2.2 WeakEnabled.exampleSelf.2.2
    [WeakEnabled.Handle.shared WeakEnabled.exampleSelf.2.1] rfl
    (by
      intro x hx
      simp only [List.mem_singleton] at hx
      subst hx
      rfl)
    (by decide) (by decide) (Addr.raw 0) (by decide)
  have key := C6_aliasing (WeakEnabled.heapAfter [WeakEnabled.Op.wrap]) WeakEnabled.exampleShared
    (some (Addr.raw 7)) 0 1 rfl (by decide) (by decide)
  have hall : ∀ x ∈ [WeakEnabled.Handle.shared WeakEnabled.exampleShared],
      x.block = some 0 := by
    intro x hx
    simp only [List.mem_singleton] at hx
    subst hx
    rfl
  have hall' : ∀ x ∈ [WeakEnabled.exampleShared], x.block_ = some 0 := by
    intro x hx
    simp only [List.mem_singleton] at hx
    subst hx
    rfl
  have ho : ownedObject (WeakEnabled.heapAfter [WeakEnabled.Op.wrap]) 0 = some (Addr.raw 0) := by
    decide
  obtain ⟨⟨h1, a, hal, hg, _, _, _, _, hu, hkeep, hlast⟩, ⟨h1', a', hal', hg', _, _, _, _, hu',
    hkeep', hlast'⟩, _⟩ := key
  obtain ⟨_, _, hf, hd, hcount, _⟩ := kself
  refine ⟨⟨h1, a, hal, hg, hu, (hkeep _ hall (by decide)).1, ?_, ?_⟩,
    ⟨h1', a', hal', hg', hu', (hkeep' _ hall' (by decide)).1, ?_, ?_⟩,
    ⟨hf, hd, (hcount (Addr.raw 0)).trans (by decide), (hcount (Addr.raw 7)).trans (by decide)⟩⟩
  · exact (hlast _ hall (by decide) _ ho (Addr.raw 0)).trans (by decide)
  · exact (hlast _ hall (by decide) _ ho (Addr.raw 7)).trans (by decide)
  · exact (hlast' _ hall' (by decide) _ ho (Addr.raw 0)).trans (by decide)
  · exact (hlast' _ hall' (by decide) _ ho (Addr.raw 7)).trans (by decide)

/-! ## Self-observation -/

namespace WeakEnabled

theorem SharedPtr.ctorCopy_of_block (h : Heap) (s : SharedPtr) (b : Nat) (hb : s.block_ = some b) :
    SharedPtr.ctorCopy h s = (setStrong h b (GetStrongCounter h b + 1), s) := by
  cases s with
  | mk pointer_ block_ =>
    simp only at hb
    subst hb
    rfl

theorem copyN_of_block (n : Nat) : ∀ (h : Heap) (s : SharedPtr) (b : Nat), s.block_ = some b →
    copyN n h s = setStrong h b (GetStrongCounter h b + n) := by
  induction n with
  | zero =>
    intro h s b _
    simp [copyN, setStrong_self]
  | succ n ih =>
    intro h s b hb
    simp only [copyN]
    rw [SharedPtr.ctorCopy_of_block h s b hb, ih _ s b hb, setStrong_setStrong]
    simp only [GetStrongCounter_setStrong]
    congr 1
    push_cast
    ring

theorem selfObserved_of_link (h1 : Heap) (sp : SharedPtr) (obj : EnableSharedFromThis)
    (b : Nat) (p : Ptr) (n : Nat)
    (hsp : sp = { pointer_ := p, block_ := some b })
    (hobj : obj.weak_ptr_ = { block_weak_ := some b, object_ := p })
    (hs : GetStrongCounter h1 b = 1) :
    SelfObserved h1 sp obj n := by
  subst hsp
  have hc := copyN_of_block n h1 { pointer_ := p, block_ := some b } b rfl
  rw [hs] at hc
  have hcast : (1 : Int) + (n : Int) = ((n + 1 : Nat) : Int) := by push_cast; ring
  have hcast2 : (1 : Int) + (n : Int) + 1 = ((n + 2 : Nat) : Int) := by push_cast; ring
  have hw : WeakFromThis (setStrong h1 b (1 + n)) obj
      = (setWeak (setStrong h1 b (1 + n)) b (GetWeakCounter (setStrong h1 b (1 + n)) b + 1),
         { block_weak_ := some b, object_ := p }) := by
    simp [WeakFromThis, WeakPtr.ctorCopy, hobj]
  have hne : GetStrongCounter
      (setWeak (setStrong h1 b (1 + n)) b (GetWeakCounter (setStrong h1 b (1 + n)) b + 1)) b
      ≠ 0 := by
    simp only [GetStrongCounter_setWeak, GetStrongCounter_setStrong]
    omega
  have hlo : -(2 ^ 63 : Int) ≤ GetStrongCounter
      (setWeak (setStrong h1 b (1 + n)) b (GetWeakCounter (setStrong h1 b (1 + n)) b + 1)) b := by
    simp only [GetStrongCounter_setWeak, GetStrongCounter_setStrong]
    omega
  have hne0 : GetStrongCounter (setStrong h1 b (1 + n)) b ≠ 0 := by
    simp only [GetStrongCounter_setStrong]
    omega
  have hlo0 : -(2 ^ 63 : Int) ≤ GetStrongCounter (setStrong h1 b (1 + n)) b := by
    simp only [GetStrongCounter_setStrong]
    omega
  unfold SelfObserved
  rw [hc, hw]
  refine ⟨?_, ?_, rfl, ?_, ?_, ?_⟩
  · simp only [SharedPtr.UseCount, GetStrongCounter_setStrong, hcast, toSizeT_natCast]
  · exact WeakPtr.Expired_of_strong_ne_zero _ _ b rfl hne hlo
  · simp only [SharedPtr.UseCount, GetStrongCounter_setWeak, GetStrongCounter_setStrong, hcast,
      toSizeT_natCast]
  · refine ⟨setStrong
        (setWeak (setStrong h1 b (1 + n)) b (GetWeakCounter (setStrong h1 b (1 + n)) b + 1)) b
        (1 + n + 1), { pointer_ := p, block_ := some b }, ?_, rfl, rfl, ?_⟩
    · unfold WeakPtr.Lock
      rw [WeakPtr.Expired_of_strong_ne_zero _ _ b rfl hne hlo,
        SharedPtr.ctorPromote_of_strong_ne_zero _ _ b rfl hne hlo]
      simp
    · simp only [SharedPtr.UseCount, GetStrongCounter_setStrong, hcast2, toSizeT_natCast]
  · refine ⟨setStrong (setStrong h1 b (1 + n)) b (1 + n + 1), { pointer_ := p, block_ := some b },
      ?_, rfl, rfl, ?_⟩
    · unfold SharedFromThis
      rw [SharedPtr.ctorPromote_of_strong_ne_zero _ _ b (by rw [hobj]) hne0 hlo0, hobj]
      simp
    · simp only [SharedPtr.UseCount, GetStrongCounter_setStrong, hcast2, toSizeT_natCast]

theorem WeakPtr.Deleter_strong (h : Heap) (w : WeakPtr) (b : Nat) :
    GetStrongCounter (WeakPtr.Deleter h w) b = GetStrongCounter h b := by
  unfold WeakPtr.Deleter
  cases hw : w.block_weak_ with
  | none => rfl
  | some b0 =>
    simp only
    split_ifs <;> cases w.object_ <;> simp [deleteBlock, deletePtr]

/-- C7, refuted as stated.  An object of a type deriving from
`EnableSharedFromThis` is wrapped through a handle whose element type does not
pass the test `is_convertible_v<T*, EnableSharedFromThisBase*>` (such as
`SharedPtr<const D>`): the handle exists with use-count 1, but `InitializeWeak`
has not run, the embedded `weak_ptr_` is still empty, `WeakFromThis()` returns an
empty, expired weak handle and `SharedFromThis()` throws `BadWeakPtr`.  The same
holds for `MakeShared`. -/
theorem C7_handle_type_without_conversion_leaves_object_unlinked :
    (SharedPtr.ctorPtrSelf false Heap.empty (some (Addr.raw 0)) EnableSharedFromThis.fresh).map
        (fun r => (r.2.2, r.2.1, SharedPtr.UseCount r.1 r.2.1, (WeakFromThis r.1 r.2.2).2,
                   WeakPtr.Expired r.1 (WeakFromThis r.1 r.2.2).2, (SharedFromThis r.1 r.2.2).2))
      = some (EnableSharedFromThis.fresh,
              { pointer_ := some (Addr.raw 0), block_ := some 0 }, 1, WeakPtr.null, true,
              Except.error BadWeakPtr.mk) ∧
    (MakeSharedSelf false Heap.empty [42]).map
        (fun r => (r.2.2, r.2.1, SharedPtr.UseCount r.1 r.2.1, (WeakFromThis r.1 r.2.2).2,
                   WeakPtr.Expired r.1 (WeakFromThis r.1 r.2.2).2, (SharedFromThis r.1 r.2.2).2))
      = some (EnableSharedFromThis.fresh,
              { pointer_ := some (Addr.inBlock 0), block_ := some 0 }, 1, WeakPtr.null, true,
              Except.error BadWeakPtr.mk) := by
  constructor <;> rfl

/-- C7, amended.  Take a pointee of a type deriving from `EnableSharedFromThis`,
whatever its embedded `weak_ptr_` held before (empty for a freshly constructed
object), and let `n + 2` be within `int`.  When the element type of the handle
passes the test `is_convertible_v<T*, EnableSharedFromThisBase*>`, both ways of
creating a shared handle `sp` over the pointee (wrapping the non-null raw
pointer, `MakeShared`) succeed and populate the embedded `weak_ptr_` from `sp`;
after `n` further copies of `sp` (strong count and use-count `n + 1`, below
`INT_MAX`), `WeakFromThis()` returns a non-expired weak handle on the block of
`sp`, and promoting it by `Lock()`, or calling `SharedFromThis()`, returns a
shared handle with `Get() == sp.Get()` and use-count `n + 2`.  When the element
type does not pass the test, both ways return the handle and leave the embedded
`weak_ptr_` as it was, so that on a freshly constructed pointee
`WeakFromThis()` returns the empty weak handle and `SharedFromThis()` throws. -/
theorem C7_self_observation (h : Heap) (a : Addr) (obj : EnableSharedFromThis)
    (args : List Int) (n : Nat) (hmax : (n : Int) + 2 ≤ INT_MAX) :
    (∃ h1 sp obj1,
        SharedPtr.ctorPtrSelf true h (some a) obj = some (h1, sp, obj1) ∧
        sp.Get = some a ∧ SharedPtr.UseCount h1 sp = 1 ∧
        obj1.weak_ptr_ = { block_weak_ := sp.block_, object_ := sp.pointer_ } ∧
        GetStrongCounter (copyN n h1 sp) h.next = n + 1 ∧
        GetStrongCounter (copyN n h1 sp) h.next < INT_MAX ∧
        SelfObserved h1 sp obj1 n) ∧
    (∃ h1 sp obj1,
        MakeSharedSelf true h args = some (h1, sp, obj1) ∧
        sp.Get = some (Addr.inBlock h.next) ∧ SharedPtr.UseCount h1 sp = 1 ∧
        obj1.weak_ptr_ = { block_weak_ := sp.block_, object_ := sp.pointer_ } ∧
        GetStrongCounter (copyN n h1 sp) h.next = n + 1 ∧
        GetStrongCounter (copyN n h1 sp) h.next < INT_MAX ∧
        SelfObserved h1 sp obj1 n) ∧
    (SharedPtr.ctorPtrSelf false h (some a) obj
        = some ((SharedPtr.ctorPtr h (some a)).1, (SharedPtr.ctorPtr h (some a)).2, obj) ∧
     MakeSharedSelf false h args
        = some ((MakeShared h args).1, (MakeShared h args).2, EnableSharedFromThis.fresh) ∧
     (∀ h1 : Heap, WeakFromThis h1 EnableSharedFromThis.fresh = (h1, WeakPtr.null) ∧
        SharedFromThis h1 EnableSharedFromThis.fresh = (h1, Except.error BadWeakPtr.mk))) := by
  have hcopy : ∀ (h1 : Heap) (p : Ptr), GetStrongCounter h1 h.next = 1 →
      GetStrongCounter (copyN n h1 { pointer_ := p, block_ := some h.next }) h.next = n + 1 ∧
      GetStrongCounter (copyN n h1 { pointer_ := p, block_ := some h.next }) h.next < INT_MAX := by
    intro h1 p hs
    rw [copyN_of_block n h1 _ h.next rfl, hs]
    simp only [GetStrongCounter_setStrong]
    constructor <;> omega
  refine ⟨?_, ?_, ⟨rfl, rfl, fun _ => ⟨rfl, rfl⟩⟩⟩
  · have hstrong : GetStrongCounter
        (WeakPtr.dtor
          (WeakPtr.assignMove
            (setWeak (SharedPtr.ctorPtr h (some a)).1 h.next
              (GetWeakCounter (SharedPtr.ctorPtr h (some a)).1 h.next + 1))
            obj.weak_ptr_ { block_weak_ := some h.next, object_ := some a }).1
          (WeakPtr.assignMove
            (setWeak (SharedPtr.ctorPtr h (some a)).1 h.next
              (GetWeakCounter (SharedPtr.ctorPtr h (some a)).1 h.next + 1))
            obj.weak_ptr_ { block_weak_ := some h.next, object_ := some a }).2.2) h.next = 1 := by
      simp only [WeakPtr.assignMove, WeakPtr.dtor]
      rw [WeakPtr.Deleter_strong, WeakPtr.Deleter_strong]
      simp [SharedPtr.ctorPtr, Heap.alloc, GetStrongCounter, setWeak, Heap.setBlock]
    refine ⟨_, _, _, rfl, rfl, ?_, rfl, (hcopy _ (some a) hstrong).1,
      (hcopy _ (some a) hstrong).2, ?_⟩
    · simp only [SharedPtr.UseCount, SharedPtr.ctorPtr, Heap.alloc]
      have := hstrong
      simp only [SharedPtr.ctorPtr, Heap.alloc] at this
      rw [this]
      rfl
    · exact selfObserved_of_link _ _ _ h.next (some a) n rfl rfl hstrong
  · have hstrong : GetStrongCounter
        (WeakPtr.dtor
          (WeakPtr.assignMove
            (setWeak (newControlBlockForNewObject h args).1 h.next
              (GetWeakCounter (newControlBlockForNewObject h args).1 h.next + 1))
            EnableSharedFromThis.fresh.weak_ptr_
            { block_weak_ := some h.next, object_ := some (Addr.inBlock h.next) }).1
          (WeakPtr.assignMove
            (setWeak (newControlBlockForNewObject h args).1 h.next
              (GetWeakCounter (newControlBlockForNewObject h args).1 h.next + 1))
            EnableSharedFromThis.fresh.weak_ptr_
            { block_weak_ := some h.next, object_ := some (Addr.inBlock h.next) }).2.2)
        h.next = 1 := by
      simp [newControlBlockForNewObject, Heap.alloc,
        WeakPtr.assignMove, WeakPtr.dtor, WeakPtr.Deleter,
        EnableSharedFromThis.fresh, WeakPtr.null, GetStrongCounter, setWeak, Heap.setBlock,
        Heap.emit]
    refine ⟨_, _, _, rfl, rfl, ?_, rfl, (hcopy _ (some (Addr.inBlock h.next)) hstrong).1,
      (hcopy _ (some (Addr.inBlock h.next)) hstrong).2, ?_⟩
    · simp [SharedPtr.UseCount, SharedPtr.ctorBlock, newControlBlockForNewObject, Heap.alloc,
        WeakPtr.ctorShared, WeakPtr.assignMove, WeakPtr.dtor, WeakPtr.Deleter,
        EnableSharedFromThis.fresh, WeakPtr.null, GetStrongCounter, setWeak, Heap.setBlock,
        Heap.emit, toSizeT]
    · exact selfObserved_of_link _ _ _ h.next (some (Addr.inBlock h.next)) n rfl rfl hstrong

/-- Witness of C7 (amended): a fresh object is wrapped on the empty heap through a
handle type that passes the test, and one copy of the handle is made. -/
theorem C7_self_observation_witness :
    ∃ h1 sp obj1,
      SharedPtr.ctorPtrSelf true Heap.empty (some (Addr.raw 0)) EnableSharedFromThis.fresh
        = some (h1, sp, obj1) ∧
      GetStrongCounter (copyN 1 h1 sp) Heap.empty.next = (1 : Nat) + 1 ∧
      SelfObserved h1 sp obj1 1 := by
  obtain ⟨h1, sp, obj1, hc, _, _, _, hs, _, ho⟩ :=
    (C7_self_observation Heap.empty (Addr.raw 0) EnableSharedFromThis.fresh [] 1 (by decide)).1
  exact ⟨h1, sp, obj1, hc, hs, ho⟩

end WeakEnabled

/-! ## Safety of dereferencing -/

namespace WeakEnabled

/-- C10, evaluated on the code.  Two fresh objects are wrapped (blocks 0 and 1);
an aliasing handle on block 0 observes the object of block 1, and two weak
handles are created from it.  After both shared handles of block 0 are gone,
releasing one weak handle runs `delete object_` on the observed pointer, which
is the object owned by block 1.  The shared handle in variable 1 is still
non-empty, its block is not freed and has strong count 1, but the object the
block owns has been destroyed. -/
theorem C10_owned_object_destroyed_under_live_handle :
    (run Prog.init [Op.wrap, Op.wrap, Op.alias 0 (some (Addr.raw 1)), Op.weakOfShared 2,
        Op.weakOfShared 2, Op.destroy 0, Op.destroy 2]).map
        (fun p => (p.sharedAt 1, GetStrongCounter p.heap 0, GetWeakCounter p.heap 0,
                   ownedDestroyed p.heap 1, p.heap.log))
      = some (some { pointer_ := some (Addr.raw 1), block_ := some 1 }, 0, 2, 0,
              [Event.deleteObject (Addr.raw 0)]) ∧
    (run Prog.init [Op.wrap, Op.wrap, Op.alias 0 (some (Addr.raw 1)), Op.weakOfShared 2,
        Op.weakOfShared 2, Op.destroy 0, Op.destroy 2, Op.weakDestroy 0]).map
        (fun p => (p.sharedAt 1, GetStrongCounter p.heap 1, freedCount p.heap.log 1,
                   ownedObject p.heap 1, ownedDestroyed p.heap 1, p.heap.log))
      = some (some { pointer_ := some (Addr.raw 1), block_ := some 1 }, 1, 0,
              some (Addr.raw 1), 1,
              [Event.deleteObject (Addr.raw 0), Event.deleteObject (Addr.raw 1)]) := by
  constructor <;> rfl

end WeakEnabled

/-! ## Copy and move construction of shared handles -/

/-- C11.  Copy construction in both implementations.  From a source `s` on
block `b` with strong count `n` below `INT_MAX` (so that the increment does not
overflow): the heap differs from the old one only in the strong counter of `b`,
which is `n + 1` and within `int` (weak counter, other blocks, log unchanged), the copy has the fields of `s`, and both report use-count `n + 1`
when `n` is a count.  From a source with a null block pointer: the heap is
untouched, the copy has the fields of `s` and use-count 0; the copy of the
empty handle is the empty handle, whose `Get()` is null. -/
theorem C11_copy_construct (h : Heap) (s : SharedPtr) :
    (∀ (b : Nat) (n : Int), s.block_ = some b → GetStrongCounter h b = n → n < INT_MAX →
        WeakEnabled.SharedPtr.ctorCopy h s = (setStrong h b (n + 1), s) ∧
        Plain.SharedPtr.ctorCopy h s = (setStrong h b (n + 1), s) ∧
        GetStrongCounter (setStrong h b (n + 1)) b = n + 1 ∧
        GetStrongCounter (setStrong h b (n + 1)) b ≤ INT_MAX ∧
        GetWeakCounter (setStrong h b (n + 1)) b = GetWeakCounter h b ∧
        (∀ c, c ≠ b → (setStrong h b (n + 1)).block c = h.block c) ∧
        (setStrong h b (n + 1)).log = h.log ∧
        (∀ m : Nat, n = m → SharedPtr.UseCount (setStrong h b (n + 1)) s = m + 1)) ∧
    (s.block_ = none →
        WeakEnabled.SharedPtr.ctorCopy h s = (h, s) ∧
        Plain.SharedPtr.ctorCopy h s = (h, s) ∧
        SharedPtr.UseCount h (WeakEnabled.SharedPtr.ctorCopy h s).2 = 0 ∧
        SharedPtr.UseCount h (Plain.SharedPtr.ctorCopy h s).2 = 0) ∧
    (WeakEnabled.SharedPtr.ctorCopy h SharedPtr.null = (h, SharedPtr.null) ∧
     Plain.SharedPtr.ctorCopy h SharedPtr.null = (h, SharedPtr.null) ∧
     SharedPtr.null.Get = none ∧ SharedPtr.UseCount h SharedPtr.null = 0) := by
  refine ⟨?_, ?_, ⟨rfl, rfl, rfl, rfl⟩⟩
  · intro b n hb hn hmax
    refine ⟨?_, ?_, by simp, ?_, by simp, ?_, by simp, ?_⟩
    · rw [WeakEnabled.SharedPtr.ctorCopy_of_block h s b hb, hn]
    · rw [Plain.SharedPtr.plain_ctorCopy_of_block h s b hb, hn]
    · simp only [GetStrongCounter_setStrong]
      omega
    · intro c hc
      exact block_setStrong_of_ne h b c _ hc
    · intro m hm
      subst hm
      simp only [SharedPtr.UseCount, hb, GetStrongCounter_setStrong]
      have : ((m : Int) + 1) = ((m + 1 : Nat) : Int) := by push_cast; ring
      rw [this, toSizeT_natCast]
  · intro hb
    cases s with
    | mk pointer_ block_ =>
      simp only at hb
      subst hb
      exact ⟨rfl, rfl, rfl, rfl⟩

/-- Witness of C11: copying the handle that wraps `raw 0` (strong count 1). -/
theorem C11_copy_construct_witness :
    WeakEnabled.SharedPtr.ctorCopy (WeakEnabled.heapAfter [WeakEnabled.Op.wrap])
        WeakEnabled.exampleShared
      = (setStrong (WeakEnabled.heapAfter [WeakEnabled.Op.wrap]) 0 (1 + 1),
         WeakEnabled.exampleShared) ∧
    SharedPtr.UseCount (setStrong (WeakEnabled.heapAfter [WeakEnabled.Op.wrap]) 0 (1 + 1))
        WeakEnabled.exampleShared = 1 + 1 ∧
    SharedPtr.UseCount Heap.empty (WeakEnabled.SharedPtr.ctorCopy Heap.empty SharedPtr.null).2
      = 0 := by
  have key := C11_copy_construct (WeakEnabled.heapAfter [WeakEnabled.Op.wrap])
    WeakEnabled.exampleShared
  have k2 := C11_copy_construct Heap.empty SharedPtr.null
  obtain ⟨h1, _, _, _, _, _, _, h7⟩ := key.1 0 1 rfl (by decide) (by decide)
  exact ⟨h1, h7 1 rfl, (k2.2.1 rfl).2.2.1⟩

/-- C12.  Move construction in both implementations: the new handle has exactly
the fields of the source, the source becomes the empty handle (`Get()` null,
use-count 0 in every heap, `bool` false), and the constructor does not access
the heap; in a program the move step leaves the whole heap, hence every
strong and weak counter, as it was. -/
theorem C12_move_construct (s : SharedPtr) :
    (WeakEnabled.SharedPtr.ctorMove s).1 = s ∧
    (WeakEnabled.SharedPtr.ctorMove s).2 = SharedPtr.null ∧
    (Plain.SharedPtr.ctorMove s).1 = s ∧
    (Plain.SharedPtr.ctorMove s).2 = SharedPtr.null ∧
    SharedPtr.null.Get = none ∧
    (∀ h : Heap, SharedPtr.UseCount h SharedPtr.null = 0) ∧
    SharedPtr.null.toBool = false ∧
    (∀ (p q : WeakEnabled.Prog) (i : Nat), WeakEnabled.step p (WeakEnabled.Op.move i) = some q →
        q.heap = p.heap) := by
  refine ⟨rfl, rfl, rfl, rfl, rfl, fun _ => rfl, rfl, ?_⟩
  intro p q i hq
  simp only [WeakEnabled.step, Option.map_eq_some'] at hq
  obtain ⟨u, _, hu⟩ := hq
  rw [← hu]

/-- Witness of C12: a program that wraps an object and moves the handle. -/
theorem C12_move_construct_witness :
    ∃ q, WeakEnabled.step
        { heap := WeakEnabled.heapAfter [WeakEnabled.Op.wrap],
          shared := [some WeakEnabled.exampleShared], weak := [], fresh := 1 }
        (WeakEnabled.Op.move 0) = some q ∧
      q.heap = WeakEnabled.heapAfter [WeakEnabled.Op.wrap] ∧
      q.shared = [some SharedPtr.null, some WeakEnabled.exampleShared] :=
  ⟨_, rfl,
   (C12_move_construct WeakEnabled.exampleShared).2.2.2.2.2.2.2 _ _ 0 rfl, rfl⟩

/-! ## Reset and assignment of shared handles -/

namespace WeakEnabled

theorem DeleteObject_of_none (h : Heap) (b : Nat) (ho : ownedObject h b = none) :
    DeleteObject h b = h := by
  unfold ownedObject at ho
  unfold DeleteObject
  cases hk : (h.block b).kind with
  | Base => rfl
  | ForExistedObject =>
    simp only [hk] at ho
    simp [ho, deletePtr]
  | ForNewObject => simp [hk] at ho

theorem DeleteObject_block (h : Heap) (b : Nat) : (DeleteObject h b).block = h.block := by
  unfold DeleteObject
  cases (h.block b).kind <;> try rfl
  cases (h.block b).object_ <;> rfl

theorem DeleteObject_next (h : Heap) (b : Nat) : (DeleteObject h b).next = h.next := by
  unfold DeleteObject
  cases (h.block b).kind <;> try rfl
  cases (h.block b).object_ <;> rfl

theorem DeleteObject_destroyedCount (h : Heap) (b : Nat) (q : Addr) :
    destroyedCount (DeleteObject h b).log q
      = destroyedCount h.log q + (if ownedObject h b = some q then 1 else 0) := by
  cases ho : ownedObject h b with
  | none => simp [DeleteObject_of_none h b ho]
  | some o =>
    obtain ⟨e, he, hor⟩ := DeleteObject_log h b o ho
    rw [he, log_emit, destroyedCount_destroy h.log e o q hor]
    by_cases hq : q = o
    · subst hq; simp
    · have : ¬ (o = q) := fun hc => hq hc.symm
      simp [hq, this]

theorem DeleteObject_freedCount (h : Heap) (b c : Nat) :
    freedCount (DeleteObject h b).log c = freedCount h.log c := by
  unfold DeleteObject
  cases (h.block b).kind <;> try rfl
  · cases (h.block b).object_ <;> simp [deletePtr, freedCount, List.count_append]
  · simp [freedCount, List.count_append]

theorem SharedPtr.release_eq (h : Heap) (this : SharedPtr) (B : Nat) (s w : Int)
    (hB : this.block_ = some B) (hs : GetStrongCounter h B = s) (hw : GetWeakCounter h B = w) :
    SharedPtr.release h this =
      if s = 1 then
        if w = 0 then deleteBlock (DeleteObject (setStrong h B 0) B) B
        else DeleteObject (setStrong h B 0) B
      else setStrong h B (s - 1) := by
  unfold SharedPtr.release
  simp only [hB, hs, GetStrongCounter_setStrong, GetWeakCounter_setStrong, hw]
  by_cases h1 : s = 1
  · subst h1
    by_cases h0 : w = 0 <;> simp [h0]
  · have : ¬ (s - 1 = 0) := by omega
    simp [h1, this]

end WeakEnabled

namespace WeakEnabled

theorem GetStrongCounter_DeleteObject (h : Heap) (b c : Nat) :
    GetStrongCounter (DeleteObject h b) c = GetStrongCounter h c := by
  simp [GetStrongCounter, DeleteObject_block]

theorem GetWeakCounter_DeleteObject (h : Heap) (b c : Nat) :
    GetWeakCounter (DeleteObject h b) c = GetWeakCounter h c := by
  simp [GetWeakCounter, DeleteObject_block]

theorem SharedPtr.release_profile (h : Heap) (this : SharedPtr) (B : Nat) (s w : Int)
    (hB : this.block_ = some B) (hs : GetStrongCounter h B = s) (hw : GetWeakCounter h B = w) :
    GetStrongCounter (SharedPtr.release h this) B = s - 1 ∧
    GetWeakCounter (SharedPtr.release h this) B = w ∧
    (∀ c, c ≠ B → (SharedPtr.release h this).block c = h.block c) ∧
    (SharedPtr.release h this).next = h.next ∧
    (∀ q, destroyedCount (SharedPtr.release h this).log q
        = destroyedCount h.log q + (if s = 1 ∧ ownedObject h B = some q then 1 else 0)) ∧
    (∀ c, freedCount (SharedPtr.release h this).log c
        = freedCount h.log c + (if s = 1 ∧ w = 0 ∧ c = B then 1 else 0)) := by
  rw [SharedPtr.release_eq h this B s w hB hs hw]
  by_cases h1 : s = 1
  · subst h1
    by_cases h0 : w = 0
    · subst h0
      simp only [if_true, deleteBlock, sub_self]
      refine ⟨?_, ?_, ?_, ?_, ?_, ?_⟩
      · simp [GetStrongCounter_DeleteObject]
      · simp [GetWeakCounter_DeleteObject, hw]
      · intro c hc
        simp only [block_emit, DeleteObject_block]
        exact block_setStrong_of_ne h B c _ hc
      · simp [DeleteObject_next]
      · intro q
        rw [log_emit, destroyedCount_deleteBlock, DeleteObject_destroyedCount]
        simp
      · intro c
        simp only [log_emit, freedCount, List.count_append]
        have := DeleteObject_freedCount (setStrong h B 0) B c
        simp only [freedCount, log_setStrong] at this
        rw [this]
        by_cases hc : c = B
        · subst hc; simp
        · have : ¬ (B = c) := fun hcc => hc hcc.symm
          simp [hc, this]
    · simp only [if_true, h0, if_false, sub_self]
      refine ⟨?_, ?_, ?_, ?_, ?_, ?_⟩
      · simp [GetStrongCounter_DeleteObject]
      · simp [GetWeakCounter_DeleteObject, hw]
      · intro c hc
        simp only [DeleteObject_block]
        exact block_setStrong_of_ne h B c _ hc
      · simp [DeleteObject_next]
      · intro q
        rw [DeleteObject_destroyedCount]
        simp
      · intro c
        rw [DeleteObject_freedCount]
        simp [h0]
  · simp only [h1, if_false]
    refine ⟨by simp, by simp [hw], ?_, by simp, by simp, by simp⟩
    intro c hc
    exact block_setStrong_of_ne h B c _ hc

end WeakEnabled

namespace WeakEnabled

/-- C13, refuted as stated.  A fresh object of a type deriving from
`EnableSharedFromThis` is wrapped: block 0 has strong count 1 and weak count 1
(the weak handle embedded in the object), and is not freed.  `Reset()` on the
handle destroys the object, whose destructor releases the embedded weak
handle, and that release frees the block: block 0 is freed although the weak
count before the call was 1, not 0. -/
theorem C13_reset_frees_block_of_self_observing_pointee :
    (GetStrongCounter exampleSelf.1 0, GetWeakCounter exampleSelf.1 0,
      freedCount exampleSelf.1.log 0) = (1, 1, 0) ∧
    exampleSelf.2.1 = { pointer_ := some (Addr.raw 0), block_ := some 0 } ∧
    exampleSelf.2.2.weak_ptr_ = { block_weak_ := some 0, object_ := some (Addr.raw 0) } ∧
    (SharedPtr.ResetSelf exampleSelf.1 exampleSelf.2.1 exampleSelf.2.2).map
        (fun q => (q.1.log, q.2, GetStrongCounter q.1 0, GetWeakCounter q.1 0,
                   freedCount q.1.log 0))
      = some ([Event.deleteObject (Addr.raw 0), Event.deleteBlock 0], SharedPtr.null, 0, 0, 1) := by
  refine ⟨rfl, rfl, rfl, rfl⟩

/-- C13, amended.  Let `this` be a shared handle on block `B` with strong count
`s >= 1` and weak count `w`.  For a pointee whose destructor touches no control
block (its type does not derive from `EnableSharedFromThis`): the release step
that opens `Reset()`, `Reset(ptr)` and both assignment operators lowers the
strong count of `B` to `s - 1` and touches no other counter; it destroys the
object owned by `B` (once) exactly when `s == 1` and destroys nothing else; it
frees `B` (once) exactly when `s == 1` and `w == 0` and frees nothing else.  On
the heap so obtained: `Reset()` leaves the empty handle; `Reset(ptr)` allocates a
fresh external-storage block over `ptr` with strong count 1 and weak count 0
and leaves a handle on it; copy assignment from a different handle leaves the
fields of the source and raises the strong count of the source's block by 1
when that count is below `INT_MAX` (nothing for an empty source); move
assignment from a different handle leaves the fields of the source, changes no
counter and empties the source.  Assigning a handle to itself returns the heap
and the handle as they were.  For a pointee deriving from
`EnableSharedFromThis` with base-class subobject `obj`: the release step is the
same when `s != 1` or when the embedded `weak_ptr_` is empty; when `s == 1` and
the embedded `weak_ptr_` is the only weak handle on `B` (`w == 1`), the release
returns, has destroyed the object once, has lowered both counters to 0 and has
freed `B` once; the four operations then continue as above. -/
theorem C13_reset_and_assignment (h : Heap) (this : SharedPtr) (B : Nat) (s w : Int)
    (hB : this.block_ = some B) (hs : GetStrongCounter h B = s) (hw : GetWeakCounter h B = w)
    (hs1 : 1 ≤ s) :
    (GetStrongCounter (SharedPtr.release h this) B = s - 1 ∧
     0 ≤ GetStrongCounter (SharedPtr.release h this) B ∧
     GetWeakCounter (SharedPtr.release h this) B = w ∧
     (∀ c, c ≠ B → (SharedPtr.release h this).block c = h.block c) ∧
     (SharedPtr.release h this).next = h.next ∧
     (∀ q, destroyedCount (SharedPtr.release h this).log q
        = destroyedCount h.log q + (if s = 1 ∧ ownedObject h B = some q then 1 else 0)) ∧
     (∀ c, freedCount (SharedPtr.release h this).log c
        = freedCount h.log c + (if s = 1 ∧ w = 0 ∧ c = B then 1 else 0))) ∧
    SharedPtr.Reset h this = (SharedPtr.release h this, SharedPtr.null) ∧
    (∀ ptr : Ptr,
        (SharedPtr.ResetPtr h this ptr).2 = { pointer_ := ptr, block_ := some h.next } ∧
        GetStrongCounter (SharedPtr.ResetPtr h this ptr).1 h.next = 1 ∧
        GetWeakCounter (SharedPtr.ResetPtr h this ptr).1 h.next = 0 ∧
        ownedObject (SharedPtr.ResetPtr h this ptr).1 h.next = ptr ∧
        SharedPtr.UseCount (SharedPtr.ResetPtr h this ptr).1 (SharedPtr.ResetPtr h this ptr).2 = 1 ∧
        (SharedPtr.ResetPtr h this ptr).1.log = (SharedPtr.release h this).log ∧
        (SharedPtr.ResetPtr h this ptr).1.next = h.next + 1 ∧
        (∀ c, c ≠ h.next →
          (SharedPtr.ResetPtr h this ptr).1.block c = (SharedPtr.release h this).block c)) ∧
    (∀ other : SharedPtr, other.block_ = none →
        SharedPtr.assignCopy h this other false = (SharedPtr.release h this, other)) ∧
    (∀ (other : SharedPtr) (b : Nat), other.block_ = some b →
        GetStrongCounter (SharedPtr.release h this) b < INT_MAX →
        SharedPtr.assignCopy h this other false =
          (setStrong (SharedPtr.release h this) b
            (GetStrongCounter (SharedPtr.release h this) b + 1), other) ∧
        GetStrongCounter (SharedPtr.assignCopy h this other false).1 b
          = GetStrongCounter (SharedPtr.release h this) b + 1 ∧
        GetStrongCounter (SharedPtr.assignCopy h this other false).1 b ≤ INT_MAX) ∧
    (∀ other : SharedPtr,
        SharedPtr.assignMove h this other false
          = (SharedPtr.release h this, other, SharedPtr.null)) ∧
    (∀ other : SharedPtr,
        SharedPtr.assignCopy h this other true = (h, this) ∧
        SharedPtr.assignMove h this other true = (h, this, other)) ∧
    (∀ obj : EnableSharedFromThis,
        (obj.weak_ptr_.block_weak_ = none ∨ s ≠ 1 →
          SharedPtr.releaseSelf h this obj = some (SharedPtr.release h this)) ∧
        (∀ o, obj.weak_ptr_.block_weak_ = some B → s = 1 → w = 1 → ownedObject h B = some o →
          ∃ hf, SharedPtr.releaseSelf h this obj = some hf ∧
            GetStrongCounter hf B = 0 ∧ GetWeakCounter hf B = 0 ∧
            (∀ c, c ≠ B → hf.block c = h.block c) ∧ hf.next = h.next ∧
            (∀ q, destroyedCount hf.log q = destroyedCount h.log q + (if q = o then 1 else 0)) ∧
            (∀ c, freedCount hf.log c = freedCount h.log c + (if c = B then 1 else 0))) ∧
        SharedPtr.ResetSelf h this obj
          = (SharedPtr.releaseSelf h this obj).map (fun h1 => (h1, SharedPtr.null)) ∧
        (∀ ptr, SharedPtr.ResetPtrSelf h this obj ptr
          = (SharedPtr.releaseSelf h this obj).map
              (fun h1 => (SharedPtr.ResetPtr h1 SharedPtr.null ptr))) ∧
        (∀ other, SharedPtr.assignCopySelf h this other obj
          = (SharedPtr.releaseSelf h this obj).map
              (fun h1 => SharedPtr.assignCopy h1 SharedPtr.null other false)) ∧
        (∀ other, SharedPtr.assignMoveSelf h this other obj
          = (SharedPtr.releaseSelf h this obj).map
              (fun h1 => SharedPtr.assignMove h1 SharedPtr.null other false))) := by
  have hp := SharedPtr.release_profile h this B s w hB hs hw
  refine ⟨⟨hp.1, by rw [hp.1]; omega, hp.2⟩, rfl, ?_, ?_, ?_, fun _ => rfl, fun _ => ⟨rfl, rfl⟩, ?_⟩
  · intro ptr
    have hnext := hp.2.2.2.1
    refine ⟨?_, ?_, ?_, ?_, ?_, rfl, ?_, ?_⟩
    · simp [SharedPtr.ResetPtr, Heap.alloc, hnext]
    · simp [SharedPtr.ResetPtr, Heap.alloc, GetStrongCounter, hnext]
    · simp [SharedPtr.ResetPtr, Heap.alloc, GetWeakCounter, hnext]
    · simp [SharedPtr.ResetPtr, Heap.alloc, ownedObject, hnext]
    · simp [SharedPtr.ResetPtr, Heap.alloc, SharedPtr.UseCount, GetStrongCounter, toSizeT]
    · simp [SharedPtr.ResetPtr, Heap.alloc, hnext]
    · intro c hc
      simp [SharedPtr.ResetPtr, Heap.alloc, hnext, hc]
  · intro other ho
    cases other with
    | mk pointer_ block_ =>
      simp only at ho
      subst ho
      rfl
  · intro other b ho hmax
    have heq : SharedPtr.assignCopy h this other false =
        (setStrong (SharedPtr.release h this) b
          (GetStrongCounter (SharedPtr.release h this) b + 1), other) := by
      cases other with
      | mk pointer_ block_ =>
        simp only at ho
        subst ho
        rfl
    rw [heq]
    refine ⟨rfl, by simp, ?_⟩
    simp only [GetStrongCounter_setStrong]
    omega
  · intro obj
    refine ⟨?_, ?_, rfl, fun _ => ?_, fun _ => ?_, fun _ => ?_⟩
    · rintro (hn | hne)
      · exact SharedPtr.releaseSelf_of_unlinked h this obj hn
      · rw [SharedPtr.releaseSelf_of_ne_one h this obj B hB (by rw [hs]; exact hne),
          SharedPtr.release_eq h this B s w hB hs hw, hs]
        simp [hne]
    · intro o hl h1 hw1 ho
      subst h1
      subst hw1
      obtain ⟨e, he, hrel⟩ := SharedPtr.releaseSelf_last h this obj B o hB hl hs hw ho
      refine ⟨_, hrel, by simp [deleteBlock], by simp [deleteBlock], ?_, rfl, ?_, ?_⟩
      · intro c hc
        simp only [deleteBlock, block_emit]
        rw [block_setWeak_of_ne _ B c _ hc, block_emit, block_setStrong_of_ne h B c _ hc]
      · intro q
        simp only [deleteBlock, log_emit, log_setWeak, log_setStrong]
        rw [destroyedCount_deleteBlock]
        exact destroyedCount_destroy h.log e o q he
      · intro c
        simp only [deleteBlock, log_emit, log_setWeak, log_setStrong]
        by_cases hc : c = B
        · subst hc
          rcases he with he | he <;> subst he <;> simp [freedCount, List.count_append]
        · have hc' : ¬ (B = c) := fun e => hc e.symm
          rcases he with he | he <;> subst he <;> simp [freedCount, List.count_append, hc, hc']
    · cases hr : SharedPtr.releaseSelf h this obj <;>
        simp [SharedPtr.ResetPtrSelf, hr, SharedPtr.ResetPtr, SharedPtr.release, SharedPtr.null]
    · cases hr : SharedPtr.releaseSelf h this obj <;>
        simp [SharedPtr.assignCopySelf, hr, SharedPtr.assignCopy, SharedPtr.release,
          SharedPtr.null]
    · cases hr : SharedPtr.releaseSelf h this obj <;>
        simp [SharedPtr.assignMoveSelf, hr, SharedPtr.assignMove, SharedPtr.release,
          SharedPtr.null]

/-- Witness of C13 (amended): the only shared handle of a wrapped object (strong
count 1, weak count 0) is reset: the object is destroyed once and the block
freed once.  On the wrapped object deriving from `EnableSharedFromThis`
(strong count 1, weak count 1) the release frees the block as well. -/
theorem C13_reset_and_assignment_witness :
    SharedPtr.Reset (heapAfter [Op.wrap]) exampleShared
      = (SharedPtr.release (heapAfter [Op.wrap]) exampleShared, SharedPtr.null) ∧
    GetStrongCounter (SharedPtr.release (heapAfter [Op.wrap]) exampleShared) 0 = 1 - 1 ∧
    destroyedCount (SharedPtr.release (heapAfter [Op.wrap]) exampleShared).log (Addr.raw 0) = 1 ∧
    freedCount (SharedPtr.release (heapAfter [Op.wrap]) exampleShared).log 0 = 1 ∧
    (∃ hf, SharedPtr.releaseSelf exampleSelf.1 exampleSelf.2.1 exampleSelf.2.2 = some hf ∧
      freedCount hf.log 0 = 1) := by
  have key := C13_reset_and_assignment (heapAfter [Op.wrap]) exampleShared 0 1 0 rfl
    (by decide) (by decide) (by decide)
  have ks := (C13_reset_and_assignment exampleSelf.1 exampleSelf.2.1 0 1 1 rfl
    (by decide) (by decide) (by decide)).2.2.2.2.2.2.2 exampleSelf.2.2
  refine ⟨key.2.1, key.1.1, ?_, ?_, ?_⟩
  · exact (key.1.2.2.2.2.2.1 (Addr.raw 0)).trans (by decide)
  · exact (key.1.2.2.2.2.2.2 0).trans (by decide)
  · obtain ⟨hf, hrel, _, _, _, _, _, hfree⟩ := ks.2.1 (Addr.raw 0) rfl rfl rfl (by decide)
    exact ⟨hf, hrel, (hfree 0).trans (by decide)⟩

end WeakEnabled

/-! ## Construction and expiry of weak handles -/

namespace WeakEnabled

/-- C14.  The constructors of `WeakPtr` leave every strong counter as it was.
From a shared handle on block `b` whose weak counter is below `INT_MAX` (so
that the increment does not overflow): the heap differs from the old one only
in the weak counter of `b`, which is one larger and within `int`, and the new
handle holds the
(block, pointer) of the shared handle, which is passed by const reference and
stays as it is.  Copy construction from a weak handle on block `b` does the
same; from an empty weak handle it returns the heap as it was and an empty
handle.  Move construction does not access the heap, gives the new handle the
fields of the source and empties the source; in a program the step leaves the
heap as it was. -/
theorem C14_weak_construction (h : Heap) :
    (∀ (s : SharedPtr) (b : Nat), s.block_ = some b → GetWeakCounter h b < INT_MAX →
        WeakPtr.ctorShared h s
          = some (setWeak h b (GetWeakCounter h b + 1),
                  { block_weak_ := some b, object_ := s.pointer_ }) ∧
        GetWeakCounter (setWeak h b (GetWeakCounter h b + 1)) b = GetWeakCounter h b + 1 ∧
        GetWeakCounter (setWeak h b (GetWeakCounter h b + 1)) b ≤ INT_MAX ∧
        (∀ c, GetStrongCounter (setWeak h b (GetWeakCounter h b + 1)) c = GetStrongCounter h c) ∧
        (∀ c, c ≠ b → (setWeak h b (GetWeakCounter h b + 1)).block c = h.block c) ∧
        (setWeak h b (GetWeakCounter h b + 1)).log = h.log) ∧
    (∀ (w : WeakPtr) (b : Nat), w.block_weak_ = some b → GetWeakCounter h b < INT_MAX →
        WeakPtr.ctorCopy h w = (setWeak h b (GetWeakCounter h b + 1), w) ∧
        GetWeakCounter (WeakPtr.ctorCopy h w).1 b = GetWeakCounter h b + 1 ∧
        GetWeakCounter (WeakPtr.ctorCopy h w).1 b ≤ INT_MAX ∧
        (∀ c, GetStrongCounter (WeakPtr.ctorCopy h w).1 c = GetStrongCounter h c)) ∧
    (∀ w : WeakPtr, w.block_weak_ = none → WeakPtr.ctorCopy h w = (h, w)) ∧
    (∀ w : WeakPtr, (WeakPtr.ctorMove w).1 = w ∧ (WeakPtr.ctorMove w).2 = WeakPtr.null ∧
        WeakPtr.UseCount h WeakPtr.null = 0 ∧ WeakPtr.null.block_weak_ = none) ∧
    (∀ (p q : Prog) (j : Nat), step p (Op.weakMove j) = some q → q.heap = p.heap) := by
  refine ⟨?_, ?_, ?_, fun _ => ⟨rfl, rfl, rfl, rfl⟩, ?_⟩
  · intro s b hb hmax
    refine ⟨by simp [WeakPtr.ctorShared, hb], by simp, ?_, fun c => by simp, ?_, by simp⟩
    · simp only [GetWeakCounter_setWeak]
      omega
    · intro c hc
      exact block_setWeak_of_ne h b c _ hc
  · intro w b hb hmax
    have hc : WeakPtr.ctorCopy h w = (setWeak h b (GetWeakCounter h b + 1), w) := by
      cases w with
      | mk block_weak_ object_ =>
        simp only at hb
        subst hb
        rfl
    rw [hc]
    refine ⟨rfl, by simp, ?_, fun c => by simp⟩
    simp only [GetWeakCounter_setWeak]
    omega
  · intro w hb
    cases w with
    | mk block_weak_ object_ =>
      simp only at hb
      subst hb
      rfl
  · intro p q j hq
    simp only [step, Option.map_eq_some'] at hq
    obtain ⟨u, _, hu⟩ := hq
    rw [← hu]

/-- Witness of C14: a weak handle is created from the handle that wraps `raw 0`
(weak count 0 becomes 1, strong count stays 1), then copied (weak count 2). -/
theorem C14_weak_construction_witness :
    WeakPtr.ctorShared (heapAfter [Op.wrap]) exampleShared
      = some (setWeak (heapAfter [Op.wrap]) 0 (GetWeakCounter (heapAfter [Op.wrap]) 0 + 1),
              { block_weak_ := some 0, object_ := exampleShared.pointer_ }) ∧
    GetWeakCounter (WeakPtr.ctorCopy (heapAfter [Op.wrap, Op.weakOfShared 0]) exampleWeak).1 0
      = GetWeakCounter (heapAfter [Op.wrap, Op.weakOfShared 0]) 0 + 1 ∧
    GetStrongCounter (WeakPtr.ctorCopy (heapAfter [Op.wrap, Op.weakOfShared 0]) exampleWeak).1 0
      = 1 :=
  ⟨((C14_weak_construction (heapAfter [Op.wrap])).1 exampleShared 0 rfl (by decide)).1,
   ((C14_weak_construction (heapAfter [Op.wrap, Op.weakOfShared 0])).2.1 exampleWeak 0 rfl
      (by decide)).2.1,
   (((C14_weak_construction (heapAfter [Op.wrap, Op.weakOfShared 0])).2.1
      exampleWeak 0 rfl (by decide)).2.2.2 0).trans (by decide)⟩

/-- C15.  For every weak handle, `Expired()` is true exactly when `UseCount()`
is 0, in every heap; and when the strong counter of its block holds a value of
the 32-bit type `int` (whose conversion to `size_t` is zero only for zero),
`Expired()` is true exactly when the handle is empty or that strong count
is 0. -/
theorem C15_expired (h : Heap) (w : WeakPtr) :
    (WeakPtr.Expired h w = true ↔ WeakPtr.UseCount h w = 0) ∧
    ((∀ b, w.block_weak_ = some b → -(2 ^ 31 : Int) ≤ GetStrongCounter h b) →
      (WeakPtr.Expired h w = true ↔
        (w.block_weak_ = none ∨ ∃ b, w.block_weak_ = some b ∧ GetStrongCounter h b = 0))) := by
  constructor
  · cases hb : w.block_weak_ with
    | none => simp [WeakPtr.Expired, WeakPtr.UseCount, hb]
    | some b =>
      by_cases hs : GetStrongCounter h b = 0
      · simp [WeakPtr.Expired, WeakPtr.UseCount, hb, hs, toSizeT]
      · by_cases hu : toSizeT (GetStrongCounter h b) = 0
        · simp [WeakPtr.Expired, WeakPtr.UseCount, hb, hu]
        · simp [WeakPtr.Expired, WeakPtr.UseCount, hb, hu, hs]
  · intro hint
    constructor
    · intro he
      cases hb : w.block_weak_ with
      | none => exact Or.inl rfl
      | some b =>
        right
        refine ⟨b, rfl, ?_⟩
        by_contra hs
        have hlo : -(2 ^ 63 : Int) ≤ GetStrongCounter h b := by
          have := hint b hb
          omega
        rw [WeakPtr.Expired_of_strong_ne_zero h w b hb hs hlo] at he
        cases he
    · rintro (hn | ⟨b, hb, hs⟩)
      · exact WeakPtr.Expired_null h w hn
      · exact WeakPtr.Expired_of_strong_zero h w b hb hs

/-- Witness of C15: the weak handle of a wrapped object is not expired while
the shared handle lives (strong count 1) and expired once it is destroyed. -/
theorem C15_expired_witness :
    (WeakPtr.Expired (heapAfter [Op.wrap, Op.weakOfShared 0, Op.destroy 0]) exampleWeak = true ↔
      (exampleWeak.block_weak_ = none ∨ ∃ b, exampleWeak.block_weak_ = some b ∧
        GetStrongCounter (heapAfter [Op.wrap, Op.weakOfShared 0, Op.destroy 0]) b = 0)) ∧
    WeakPtr.Expired (heapAfter [Op.wrap, Op.weakOfShared 0, Op.destroy 0]) exampleWeak = true ∧
    WeakPtr.Expired (heapAfter [Op.wrap, Op.weakOfShared 0]) exampleWeak = false :=
  ⟨(C15_expired (heapAfter [Op.wrap, Op.weakOfShared 0, Op.destroy 0]) exampleWeak).2
      (by intro b hb; cases hb; decide),
   by decide, by decide⟩

end WeakEnabled

/-! ## Single ownership of the exclusive-ownership pointer -/

namespace Unique

theorem ptrAt_of_getElem? {D : Type} (vars : List (UniquePtr D)) (i : Nat) (u : UniquePtr D)
    (hu : vars[i]? = some u) : ptrAt vars i = u.object_block_.first := by
  simp [ptrAt, hu]

theorem lt_of_getElem? {D : Type} (vars : List (UniquePtr D)) (i : Nat) (u : UniquePtr D)
    (hu : vars[i]? = some u) : i < vars.length := by
  rcases List.getElem?_eq_some.mp hu with ⟨hlt, _⟩
  exact hlt

theorem ptrAt_set {D : Type} (vars : List (UniquePtr D)) (k : Nat) (v : UniquePtr D) (x : Nat)
    (hk : k < vars.length) :
    ptrAt (vars.set k v) x = if x = k then v.object_block_.first else ptrAt vars x := by
  unfold ptrAt
  rw [List.getElem?_set]
  by_cases hx : x = k
  · subst hx
    simp [hk]
  · have : ¬ (k = x) := fun hc => hx hc.symm
    simp [hx, this]

theorem ptrAt_append {D : Type} (vars : List (UniquePtr D)) (v : UniquePtr D) (x : Nat) :
    ptrAt (vars ++ [v]) x = if x = vars.length then v.object_block_.first else ptrAt vars x := by
  unfold ptrAt
  by_cases hx : x = vars.length
  · subst hx
    simp
  · rcases Nat.lt_or_gt_of_ne hx with hlt | hgt
    · rw [List.getElem?_append_left hlt]
      simp [hx]
    · have h1 : (vars ++ [v])[x]? = none := by
        apply List.getElem?_eq_none
        simp
        omega
      have h2 : vars[x]? = none := by
        apply List.getElem?_eq_none
        omega
      simp [h1, h2, hx]

theorem ptrAt_ne_of_not_held {D : Type} (vars : List (UniquePtr D)) (a : Addr)
    (hh : isHeld vars a = false) (y : Nat) : ptrAt vars y ≠ some a := by
  intro hy
  unfold ptrAt at hy
  cases hv : vars[y]? with
  | none => simp [hv] at hy
  | some u =>
    simp only [hv] at hy
    have hmem : u ∈ vars := List.getElem?_mem hv
    have : isHeld vars a = true := by
      unfold isHeld
      rw [List.any_eq_true]
      exact ⟨u, hmem, by simp [hy]⟩
    rw [hh] at this
    cases this

theorem ustep_distinct {D : Type} (st st1 : UState D) (op : UOp)
    (hd : Distinct st.vars) (hstep : ustep st op = some st1) : Distinct st1.vars := by
  cases op with
  | moveCtor i =>
    simp only [ustep, Option.map_eq_some'] at hstep
    obtain ⟨u, hu, rfl⟩ := hstep
    have hi := lt_of_getElem? _ _ _ hu
    have hpi := ptrAt_of_getElem? _ _ _ hu
    intro x y a hx hy
    simp only [UniquePtr.ctorMove, UniquePtr.Release, CompressedPair.GetFirst] at hx hy
    rw [ptrAt_append, ptrAt_set _ _ _ _ hi, List.length_set] at hx hy
    by_cases hxl : x = st.vars.length <;> by_cases hyl : y = st.vars.length
    · omega
    · simp only [hxl, if_true] at hx
      simp only [hyl, if_false] at hy
      by_cases hyi : y = i
      · simp [hyi] at hy
      · simp only [hyi, if_false] at hy
        exact absurd (hd y i a hy (hpi.trans hx)) hyi
    · simp only [hyl, if_true] at hy
      simp only [hxl, if_false] at hx
      by_cases hxi : x = i
      · simp [hxi] at hx
      · simp only [hxi, if_false] at hx
        exact absurd (hd x i a hx (hpi.trans hy)) hxi
    · simp only [hxl, hyl, if_false] at hx hy
      by_cases hxi : x = i
      · simp [hxi] at hx
      · by_cases hyi : y = i
        · simp [hyi] at hy
        · simp only [hxi, hyi, if_false] at hx hy
          exact hd x y a hx hy
  | moveAssign i k =>
    simp only [ustep, Option.bind_eq_some, Option.map_eq_some'] at hstep
    obtain ⟨this, ht, other, ho, rfl⟩ := hstep
    have hi := lt_of_getElem? _ _ _ ht
    have hk := lt_of_getElem? _ _ _ ho
    have hpi := ptrAt_of_getElem? _ _ _ ht
    have hpk := ptrAt_of_getElem? _ _ _ ho
    by_cases heq : this.object_block_.GetFirst = other.object_block_.GetFirst
    · have hr : UniquePtr.assignMove st.calls this other = (st.calls, this, other) := by
        simp [UniquePtr.assignMove, heq]
      have key : ∀ x, ptrAt ((st.vars.set i (UniquePtr.assignMove st.calls this other).2.1).set k
          (UniquePtr.assignMove st.calls this other).2.2) x = ptrAt st.vars x := by
        intro x
        rw [hr, ptrAt_set _ _ _ _ (by simpa using hk), ptrAt_set _ _ _ _ hi]
        by_cases hxk : x = k
        · subst hxk
          simp [hpk]
        · by_cases hxi : x = i
          · subst hxi
            simp [hxk, hpi]
          · simp [hxk, hxi]
      intro x y a hx hy
      simp only at hx hy
      rw [key] at hx hy
      exact hd x y a hx hy
    · have hr : UniquePtr.assignMove st.calls this other
          = (st.calls ++ [{ deleter := this.GetDeleter, arg := this.object_block_.GetFirst,
                            holds := this.object_block_.GetFirst }],
             { object_block_ := { first := other.object_block_.GetFirst,
                                  second := other.object_block_.second } },
             { object_block_ := { first := none, second := other.object_block_.second } }) := by
        simp [UniquePtr.assignMove, heq, UniquePtr.Release]
      have key : ∀ x, ptrAt ((st.vars.set i (UniquePtr.assignMove st.calls this other).2.1).set k
          (UniquePtr.assignMove st.calls this other).2.2) x
          = if x = k then none else if x = i then ptrAt st.vars k else ptrAt st.vars x := by
        intro x
        rw [hr, ptrAt_set _ _ _ _ (by simpa using hk), ptrAt_set _ _ _ _ hi]
        simp only [hpk, CompressedPair.GetFirst]
      intro x y a hx hy
      simp only at hx hy
      rw [key] at hx hy
      by_cases hxk : x = k
      · simp [hxk] at hx
      · by_cases hyk : y = k
        · simp [hyk] at hy
        · simp only [hxk, hyk, if_false] at hx hy
          by_cases hxi : x = i <;> by_cases hyi : y = i
          · omega
          · simp only [hxi, if_true] at hx
            simp only [hyi, if_false] at hy
            exact absurd (hd y k a hy hx) hyk
          · simp only [hyi, if_true] at hy
            simp only [hxi, if_false] at hx
            exact absurd (hd x k a hx hy) hxk
          · simp only [hxi, hyi, if_false] at hx hy
            exact hd x y a hx hy
  | release i =>
    simp only [ustep, Option.map_eq_some'] at hstep
    obtain ⟨u, hu, rfl⟩ := hstep
    have hi := lt_of_getElem? _ _ _ hu
    intro x y a hx hy
    simp only [UniquePtr.Release] at hx hy
    rw [ptrAt_set _ _ _ _ hi] at hx hy
    by_cases hxi : x = i
    · simp [hxi] at hx
    · by_cases hyi : y = i
      · simp [hyi] at hy
      · simp only [hxi, hyi, if_false] at hx hy
        exact hd x y a hx hy
  | reset i b =>
    simp only [ustep] at hstep
    by_cases hh : isHeld st.vars b = true
    · simp [hh] at hstep
    · have hh' : isHeld st.vars b = false := by simpa using hh
      simp only [hh', Bool.false_eq_true, if_false, Option.map_eq_some'] at hstep
      obtain ⟨u, hu, rfl⟩ := hstep
      have hi := lt_of_getElem? _ _ _ hu
      have hfirst : (UniquePtr.Reset st.calls u (some b)).2.object_block_.first = some b := by
        unfold UniquePtr.Reset
        cases u.object_block_.GetFirst <;> rfl
      intro x y a hx hy
      rw [ptrAt_set _ _ _ _ hi, hfirst] at hx hy
      by_cases hxi : x = i <;> by_cases hyi : y = i
      · omega
      · simp only [hxi, if_true, Option.some.injEq] at hx
        simp only [hyi, if_false] at hy
        subst hx
        exact absurd hy (ptrAt_ne_of_not_held _ _ hh' y)
      · simp only [hyi, if_true, Option.some.injEq] at hy
        simp only [hxi, if_false] at hx
        subst hy
        exact absurd hx (ptrAt_ne_of_not_held _ _ hh' x)
      · simp only [hxi, hyi, if_false] at hx hy
        exact hd x y a hx hy
  | swap i k =>
    simp only [ustep, Option.bind_eq_some, Option.map_eq_some'] at hstep
    obtain ⟨this, ht, other, ho, rfl⟩ := hstep
    have hi := lt_of_getElem? _ _ _ ht
    have hk := lt_of_getElem? _ _ _ ho
    have hpi := ptrAt_of_getElem? _ _ _ ht
    have hpk := ptrAt_of_getElem? _ _ _ ho
    have key : ∀ x, ptrAt ((st.vars.set i (UniquePtr.Swap this other).1).set k
        (UniquePtr.Swap this other).2) x
        = ptrAt st.vars (if x = k then i else if x = i then k else x) := by
      intro x
      rw [ptrAt_set _ _ _ _ (by simpa using hk), ptrAt_set _ _ _ _ hi]
      simp only [UniquePtr.Swap]
      by_cases hxk : x = k
      · subst hxk
        simp [hpi]
      · by_cases hxi : x = i
        · subst hxi
          simp [hxk, hpk]
        · simp [hxk, hxi]
    intro x y a hx hy
    simp only at hx hy
    rw [key] at hx hy
    have := hd _ _ a hx hy
    split_ifs at this <;> omega

theorem urun_distinct {D : Type} (ops : List UOp) : ∀ (st st1 : UState D),
    Distinct st.vars → urun st ops = some st1 → Distinct st1.vars := by
  induction ops with
  | nil =>
    intro st st1 hd hr
    simp only [urun, Option.some.injEq] at hr
    subst hr
    exact hd
  | cons op ops ih =>
    intro st st1 hd hr
    simp only [urun, Option.bind_eq_some] at hr
    obtain ⟨q, hq, hrest⟩ := hr
    exact ih q st1 (ustep_distinct st q op hd hq) hrest

/-- C16.  Move construction from a source holding `(p, d)` returns a handle
holding `(p, d)`, leaves the source holding a null pointer and invokes no
policy.  Move assignment `t = std::move(s)` with `t` holding `q != p` invokes
the policy of `t` on `q` while `t` still holds `q`, then `t` holds `(p, d)` and
`s` a null pointer.  Consequently every program of move constructions, move
assignments, `Release`, `Reset` to a pointer no handle holds, and `Swap`, run
from handle variables holding pairwise distinct non-null pointers, ends with
handle variables holding pairwise distinct non-null pointers. -/
theorem C16_single_owner {D : Type} :
    (∀ (calls : Calls D) (s : UniquePtr D),
        UniquePtr.ctorMove calls s
          = (calls,
             { object_block_ := { first := s.object_block_.first,
                                  second := s.object_block_.second } },
             { object_block_ := { first := none, second := s.object_block_.second } })) ∧
    (∀ (calls : Calls D) (t s : UniquePtr D),
        t.object_block_.first ≠ s.object_block_.first →
        UniquePtr.assignMove calls t s
          = (calls ++ [{ deleter := t.object_block_.second, arg := t.object_block_.first,
                         holds := t.object_block_.first }],
             { object_block_ := { first := s.object_block_.first,
                                  second := s.object_block_.second } },
             { object_block_ := { first := none, second := s.object_block_.second } })) ∧
    (∀ (st st1 : UState D) (ops : List UOp),
        Distinct st.vars → urun st ops = some st1 → Distinct st1.vars) := by
  refine ⟨fun _ _ => rfl, ?_, fun st st1 ops => urun_distinct ops st st1⟩
  intro calls t s hne
  simp [UniquePtr.assignMove, hne, UniquePtr.Release, UniquePtr.GetDeleter,
    CompressedPair.GetFirst, CompressedPair.GetSecond]

/-- C17.  After `u.Reset(p)` the handle holds `p` and keeps its policy.  If the
old pointer was null no policy is invoked; if it was `q` the policy is invoked
once, on `q`, at a moment when the handle already holds `p`.  The destructor
invokes nothing for a null pointer and invokes the policy once, on the held
pointer, otherwise.  Assigning `nullptr` is `Reset(nullptr)`. -/
theorem C17_reset_and_destructor {D : Type} (calls : Calls D) (u : UniquePtr D) (p : Ptr) :
    (UniquePtr.Reset calls u p).2.Get = p ∧
    (UniquePtr.Reset calls u p).2.GetDeleter = u.GetDeleter ∧
    (u.object_block_.first = none → (UniquePtr.Reset calls u p).1 = calls) ∧
    (∀ q, u.object_block_.first = some q →
        (UniquePtr.Reset calls u p).1
          = calls ++ [{ deleter := u.GetDeleter, arg := some q, holds := p }]) ∧
    (u.object_block_.first = none → UniquePtr.dtor calls u = calls) ∧
    (∀ q, u.object_block_.first = some q →
        UniquePtr.dtor calls u
          = calls ++ [{ deleter := u.GetDeleter, arg := some q, holds := some q }]) ∧
    UniquePtr.assignNull calls u = UniquePtr.Reset calls u none := by
  refine ⟨?_, ?_, ?_, ?_, ?_, ?_, rfl⟩
  · unfold UniquePtr.Reset
    cases u.object_block_.GetFirst <;> cases p <;> rfl
  · unfold UniquePtr.Reset
    cases u.object_block_.GetFirst <;> rfl
  · intro hq
    have : u.object_block_.GetFirst = none := hq
    simp [UniquePtr.Reset, this]
  · intro q hq
    simp [UniquePtr.Reset, hq, UniquePtr.GetDeleter, CompressedPair.GetFirst,
      CompressedPair.GetSecond]
  · intro hq
    have : u.object_block_.GetFirst = none := hq
    simp [UniquePtr.dtor, this]
  · intro q hq
    have : u.object_block_.GetFirst = some q := hq
    simp [UniquePtr.dtor, this]

/-- Witness of C16: from two handles holding `raw 0` and `raw 1`, the program
move-constructs from the first, move-assigns the new handle into the second,
releases, resets to `raw 5` and swaps; the run succeeds and the final handles
hold pairwise distinct non-null pointers.  The move assignment inside it is one
with different pointers. -/
theorem C16_single_owner_witness :
    urun exampleState [UOp.moveCtor 0, UOp.moveAssign 1 2, UOp.release 0,
        UOp.reset 0 (Addr.raw 5), UOp.swap 0 1]
      = some { calls := [{ deleter := (), arg := some (Addr.raw 1), holds := some (Addr.raw 1) }],
               vars := [{ object_block_ := { first := some (Addr.raw 0), second := () } },
                        { object_block_ := { first := some (Addr.raw 5), second := () } },
                        { object_block_ := { first := none, second := () } }] } ∧
    Distinct [({ object_block_ := { first := some (Addr.raw 0), second := () } } : UniquePtr Unit),
              { object_block_ := { first := some (Addr.raw 5), second := () } },
              { object_block_ := { first := none, second := () } }] ∧
    (UniquePtr.assignMove [] exampleUnique
        { object_block_ := { first := some (Addr.raw 1), second := () } }).1
      = [{ deleter := (), arg := some (Addr.raw 0), holds := some (Addr.raw 0) }] := by
  have hd : Distinct exampleState.vars := by
    intro i j a hi hj
    rcases i with _ | _ | i <;> rcases j with _ | _ | j <;>
      simp [ptrAt, exampleState, exampleUnique] at hi hj ⊢
    · rw [← hi] at hj; cases hj
    · rw [← hi] at hj; cases hj
  have hrun : urun exampleState [UOp.moveCtor 0, UOp.moveAssign 1 2, UOp.release 0,
        UOp.reset 0 (Addr.raw 5), UOp.swap 0 1]
      = some { calls := [{ deleter := (), arg := some (Addr.raw 1), holds := some (Addr.raw 1) }],
               vars := [{ object_block_ := { first := some (Addr.raw 0), second := () } },
                        { object_block_ := { first := some (Addr.raw 5), second := () } },
                        { object_block_ := { first := none, second := () } }] } := rfl
  refine ⟨hrun, (C16_single_owner (D := Unit)).2.2 exampleState _ _ hd hrun, ?_⟩
  have := (C16_single_owner (D := Unit)).2.1 [] exampleUnique
    { object_block_ := { first := some (Addr.raw 1), second := () } } (by decide)
  rw [this]
  rfl

/-- Witness of C17: a handle holding `raw 0` is reset to `raw 1`, and a handle
holding `raw 0` is destroyed. -/
theorem C17_reset_and_destructor_witness :
    (UniquePtr.Reset [] exampleUnique (some (Addr.raw 1))).1
      = [] ++ [{ deleter := exampleUnique.GetDeleter, arg := some (Addr.raw 0),
                 holds := some (Addr.raw 1) }] ∧
    UniquePtr.dtor [] exampleUnique
      = [] ++ [{ deleter := exampleUnique.GetDeleter, arg := some (Addr.raw 0),
                 holds := some (Addr.raw 0) }] ∧
    (UniquePtr.Reset [] (UniquePtr.Release [] exampleUnique).2.2 (some (Addr.raw 1))).1 = [] :=
  ⟨(C17_reset_and_destructor [] exampleUnique (some (Addr.raw 1))).2.2.2.1 (Addr.raw 0) rfl,
   (C17_reset_and_destructor [] exampleUnique (some (Addr.raw 1))).2.2.2.2.2.1 (Addr.raw 0) rfl,
   (C17_reset_and_destructor [] (UniquePtr.Release [] exampleUnique).2.2
      (some (Addr.raw 1))).2.2.1 rfl⟩

end Unique

/-! ## The self-counting pointer -/

namespace Intrusive

theorem RefCount_IncRef (s : Store) (a : Addr) :
    RefCounted.RefCount (RefCounted.IncRef s a) a = (RefCounted.RefCount s a + 1) % 2 ^ 64 := by
  simp [RefCounted.RefCount, RefCounted.IncRef, Store.setCounter, SimpleCounter.IncRef,
    SimpleCounter.RefCount]

theorem RefCount_IncRef_of_ne (s : Store) (a x : Addr) (hx : x ≠ a) :
    RefCounted.RefCount (RefCounted.IncRef s a) x = RefCounted.RefCount s x := by
  simp [RefCounted.RefCount, RefCounted.IncRef, Store.setCounter, hx]

/-- C18.  Let the pointee at `a` have reference count `c`, with `c + 1`
representable in `size_t`.  `IntrusivePtr(T*)` on `a` and copy construction from
a handle on `a` each return a handle on `a` and make the count `c + 1`, touching
no other counter and invoking no destroyer.  Move construction returns the
fields of the source, empties the source and leaves the store as it was.
Construction from `nullptr` and copy construction from the empty handle return
the empty handle and the store as it was.  `UseCount()` is 0 for the empty
handle and `RefCount()` of the pointee otherwise. -/
theorem C18_intrusive_construction (s : Store) (a : Addr) (c : Nat)
    (hc : RefCounted.RefCount s a = c) (hfit : c + 1 < 2 ^ 64) :
    ((IntrusivePtr.ctorPtr s (some a)).2 = { object_ := some a } ∧
     RefCounted.RefCount (IntrusivePtr.ctorPtr s (some a)).1 a = c + 1 ∧
     (∀ x, x ≠ a → RefCounted.RefCount (IntrusivePtr.ctorPtr s (some a)).1 x
        = RefCounted.RefCount s x) ∧
     (IntrusivePtr.ctorPtr s (some a)).1.destroyed = s.destroyed) ∧
    (∀ other : IntrusivePtr, other.object_ = some a →
        (IntrusivePtr.ctorCopy s other).2 = other ∧
        RefCounted.RefCount (IntrusivePtr.ctorCopy s other).1 a = c + 1 ∧
        (∀ x, x ≠ a → RefCounted.RefCount (IntrusivePtr.ctorCopy s other).1 x
          = RefCounted.RefCount s x) ∧
        (IntrusivePtr.ctorCopy s other).1.destroyed = s.destroyed ∧
        IntrusivePtr.UseCount s other = c ∧
        IntrusivePtr.UseCount (IntrusivePtr.ctorCopy s other).1 other = c + 1) ∧
    (∀ other : IntrusivePtr,
        IntrusivePtr.ctorMove s other = (s, other, IntrusivePtr.null)) ∧
    IntrusivePtr.ctorPtr s none = (s, IntrusivePtr.null) ∧
    IntrusivePtr.ctorCopy s IntrusivePtr.null = (s, IntrusivePtr.null) ∧
    IntrusivePtr.UseCount s IntrusivePtr.null = 0 := by
  have hmod : (c + 1) % 2 ^ 64 = c + 1 := Nat.mod_eq_of_lt hfit
  refine ⟨⟨rfl, ?_, ?_, rfl⟩, ?_, fun _ => rfl, rfl, rfl, rfl⟩
  · simp only [IntrusivePtr.ctorPtr]
    rw [RefCount_IncRef, hc, hmod]
  · intro x hx
    simp only [IntrusivePtr.ctorPtr]
    exact RefCount_IncRef_of_ne s a x hx
  · intro other ho
    cases other with
    | mk object_ =>
      simp only at ho
      subst ho
      refine ⟨rfl, ?_, ?_, rfl, hc, ?_⟩
      · simp only [IntrusivePtr.ctorCopy]
        rw [RefCount_IncRef, hc, hmod]
      · intro x hx
        simp only [IntrusivePtr.ctorCopy]
        exact RefCount_IncRef_of_ne s a x hx
      · simp only [IntrusivePtr.ctorCopy, IntrusivePtr.UseCount]
        rw [RefCount_IncRef, hc, hmod]

/-- Witness of C18: a fresh pointee (count 0) is adopted, then the handle is
copied (count 1 becomes 2). -/
theorem C18_intrusive_construction_witness :
    RefCounted.RefCount (IntrusivePtr.ctorPtr Store.empty (some (Addr.raw 0))).1 (Addr.raw 0)
      = 0 + 1 ∧
    IntrusivePtr.UseCount (IntrusivePtr.ctorCopy exampleStore exampleIntrusive).1 exampleIntrusive
      = 1 + 1 :=
  ⟨(C18_intrusive_construction Store.empty (Addr.raw 0) 0 rfl (by decide)).1.2.1,
   ((C18_intrusive_construction exampleStore (Addr.raw 0) 1 rfl (by decide)).2.1
      exampleIntrusive rfl).2.2.2.2.2⟩

/-- C19, on the code.  For a handle on the pointee at `a`: when the count is
`c >= 2` the destructor and `Reset()` lower it to `c - 1` and invoke no
destroyer; when the count is 1 they invoke the destroyer once on `a`, and the
counter is not decremented: it still reads 1, not 0. -/
theorem C19_last_release_keeps_count (s : Store) (a : Addr) (this : IntrusivePtr)
    (hthis : this.object_ = some a) :
    (RefCounted.RefCount s a = 1 →
        (IntrusivePtr.dtor s this).destroyed = s.destroyed ++ [a] ∧
        RefCounted.RefCount (IntrusivePtr.dtor s this) a = 1 ∧
        IntrusivePtr.Reset s this = (IntrusivePtr.dtor s this, IntrusivePtr.null)) ∧
    (∀ c : Nat, RefCounted.RefCount s a = c → 2 ≤ c → c < 2 ^ 64 →
        (IntrusivePtr.dtor s this).destroyed = s.destroyed ∧
        RefCounted.RefCount (IntrusivePtr.dtor s this) a = c - 1 ∧
        IntrusivePtr.Reset s this = (IntrusivePtr.dtor s this, IntrusivePtr.null)) := by
  have hreset : IntrusivePtr.Reset s this = (IntrusivePtr.dtor s this, IntrusivePtr.null) := by
    simp [IntrusivePtr.Reset, hthis, IntrusivePtr.dtor, IntrusivePtr.null]
  constructor
  · intro h1
    refine ⟨?_, ?_, hreset⟩
    · simp [IntrusivePtr.dtor, IntrusivePtr.Deleter, hthis, RefCounted.DecRef, h1]
    · simp only [IntrusivePtr.dtor, IntrusivePtr.Deleter, hthis, RefCounted.DecRef, h1, if_true]
      exact h1
  · intro c hc h2 hlt
    have hne : ¬ (RefCounted.RefCount s a = 1) := by omega
    refine ⟨?_, ?_, hreset⟩
    · simp [IntrusivePtr.dtor, IntrusivePtr.Deleter, hthis, RefCounted.DecRef, hne,
        Store.setCounter]
    · simp only [IntrusivePtr.dtor, IntrusivePtr.Deleter, hthis, RefCounted.DecRef, hne, if_false]
      simp only [RefCounted.RefCount, SimpleCounter.RefCount] at hc
      simp only [RefCounted.RefCount, Store.setCounter, SimpleCounter.DecRef,
        SimpleCounter.RefCount, if_true, hc]
      omega

/-- Witness of C19: a fresh pointee adopted by one handle (count 1); destroying
the handle invokes the destroyer and leaves the counter at 1. -/
theorem C19_last_release_keeps_count_witness :
    (IntrusivePtr.dtor exampleStore exampleIntrusive).destroyed
      = exampleStore.destroyed ++ [Addr.raw 0] ∧
    RefCounted.RefCount (IntrusivePtr.dtor exampleStore exampleIntrusive) (Addr.raw 0) = 1 ∧
    RefCounted.RefCount exampleStore (Addr.raw 0) = 1 :=
  ⟨((C19_last_release_keeps_count exampleStore (Addr.raw 0) exampleIntrusive rfl).1 rfl).1,
   ((C19_last_release_keeps_count exampleStore (Addr.raw 0) exampleIntrusive rfl).1 rfl).2.1,
   rfl⟩

end Intrusive

/-! ## Repeated destruction through the control block -/

namespace WeakEnabled

theorem ownedObject_DeleteObject (h : Heap) (b c : Nat) :
    ownedObject (DeleteObject h b) c = ownedObject h c := by
  simp [ownedObject, DeleteObject_block]

/-- C20, refuted as stated.  On the block of a wrapped object and on the block
made by `MakeShared`, a second call of `DeleteObject` is not a no-op: it appends
a second destruction event, so the owned object has been destroyed twice. -/
theorem C20_delete_object_twice_destroys_twice :
    (DeleteObject (heapAfter [Op.wrap]) 0).log = [Event.deleteObject (Addr.raw 0)] ∧
    (DeleteObject (DeleteObject (heapAfter [Op.wrap]) 0) 0).log
      = [Event.deleteObject (Addr.raw 0), Event.deleteObject (Addr.raw 0)] ∧
    destroyedCount (DeleteObject (DeleteObject (heapAfter [Op.wrap]) 0) 0).log (Addr.raw 0) = 2 ∧
    (DeleteObject (heapAfter [Op.makeShared [42]]) 0).log
      = [Event.construct (Addr.inBlock 0) [42], Event.destroyAt (Addr.inBlock 0)] ∧
    (DeleteObject (DeleteObject (heapAfter [Op.makeShared [42]]) 0) 0).log
      = [Event.construct (Addr.inBlock 0) [42], Event.destroyAt (Addr.inBlock 0),
         Event.destroyAt (Addr.inBlock 0)] ∧
    destroyedCount (DeleteObject (DeleteObject (heapAfter [Op.makeShared [42]]) 0) 0).log
      (Addr.inBlock 0) = 2 := by
  refine ⟨rfl, rfl, rfl, rfl, rfl, rfl⟩

theorem destroySelf_log (h : Heap) (e : Event) (obj : EnableSharedFromThis) (hf : Heap)
    (hd : destroySelf h e obj = some hf) :
    (hf.log = h.log ++ [e] ∨ ∃ c, hf.log = (h.log ++ [e]) ++ [Event.deleteBlock c]) ∧
    (∀ c, (hf.block c).kind = (h.block c).kind ∧ (hf.block c).object_ = (h.block c).object_) ∧
    (∀ c, GetStrongCounter hf c = GetStrongCounter h c) ∧
    (∀ c, GetWeakCounter hf c
        = GetWeakCounter h c - (if obj.weak_ptr_.block_weak_ = some c then 1 else 0)) := by
  unfold destroySelf at hd
  by_cases hdel : WeakPtr.deletesObject (h.emit e) obj.weak_ptr_ = true
  · simp [hdel] at hd
  · simp only [hdel, Bool.false_eq_true, if_false, Option.some.injEq] at hd
    subst hd
    unfold WeakPtr.deletesObject at hdel
    unfold WeakPtr.dtor WeakPtr.Deleter
    cases hb : obj.weak_ptr_.block_weak_ with
    | none => exact ⟨Or.inl rfl, fun c => ⟨rfl, rfl⟩, fun c => rfl, fun c => by simp⟩
    | some b =>
      simp only [hb, GetWeakCounter_emit, GetStrongCounter_emit, Bool.and_eq_true,
        decide_eq_true_eq, not_and, Option.isSome_iff_exists, not_exists] at hdel
      have hweak : ∀ (x : Heap) (c : Nat),
          GetWeakCounter x c = GetWeakCounter (setWeak (h.emit e) b (GetWeakCounter h b - 1)) c →
          GetWeakCounter x c = GetWeakCounter h c - (if some b = some c then 1 else 0) := by
        intro x c hx
        rw [hx, GetWeakCounter_setWeak_ite]
        by_cases hcb : c = b
        · subst hcb
          simp
        · have hbc : ¬ (b = c) := fun e => hcb e.symm
          simp [hcb, hbc]
      simp only [GetWeakCounter_setWeak, GetStrongCounter_setWeak, GetWeakCounter_emit,
        GetStrongCounter_emit]
      split_ifs with c1 c2 c3
      · exact ⟨Or.inr ⟨b, by simp [deleteBlock]⟩, fun c => by simp [deleteBlock],
          fun c => by simp [deleteBlock], fun c => hweak _ c (by simp [deleteBlock])⟩
      · exact ⟨Or.inl (by simp), fun c => by simp, fun c => by simp, fun c => hweak _ c rfl⟩
      · have hnone : obj.weak_ptr_.object_ = none := by
          cases ho : obj.weak_ptr_.object_ with
          | none => rfl
          | some a => exact absurd ho (hdel ⟨by omega, c3.2⟩ a)
        rw [hnone]
        exact ⟨Or.inl (by simp [deletePtr]), fun c => by simp [deletePtr],
          fun c => by simp [deletePtr], fun c => hweak _ c (by simp [deletePtr])⟩
      · exact ⟨Or.inl (by simp), fun c => by simp, fun c => by simp, fun c => hweak _ c rfl⟩

theorem DeleteObjectSelf_profile (h : Heap) (b : Nat) (obj : EnableSharedFromThis) (o : Addr)
    (hf : Heap) (ho : ownedObject h b = some o) (hd : DeleteObjectSelf h b obj = some hf) :
    (∀ q, destroyedCount hf.log q = destroyedCount h.log q + (if q = o then 1 else 0)) ∧
    (∀ c, ownedObject hf c = ownedObject h c) ∧
    (∀ c, GetStrongCounter hf c = GetStrongCounter h c) ∧
    (∀ c, GetWeakCounter hf c
        = GetWeakCounter h c - (if obj.weak_ptr_.block_weak_ = some c then 1 else 0)) := by
  have hmain : ∃ e, (e = Event.deleteObject o ∨ e = Event.destroyAt o) ∧
      destroySelf h e obj = some hf := by
    unfold ownedObject at ho
    unfold DeleteObjectSelf at hd
    cases hk : (h.block b).kind with
    | Base => simp [hk] at ho
    | ForExistedObject =>
      simp only [hk] at ho hd
      simp only [ho] at hd
      exact ⟨_, Or.inl rfl, hd⟩
    | ForNewObject =>
      simp only [hk, Option.some.injEq] at ho hd
      subst ho
      exact ⟨_, Or.inr rfl, hd⟩
  obtain ⟨e, he, hdes⟩ := hmain
  obtain ⟨hlog, hkind, hstrong, hweak⟩ := destroySelf_log h e obj hf hdes
  refine ⟨?_, ?_, hstrong, hweak⟩
  · intro q
    rcases hlog with hlog | ⟨c, hlog⟩
    · rw [hlog]
      exact destroyedCount_destroy h.log e o q he
    · rw [hlog, destroyedCount_deleteBlock]
      exact destroyedCount_destroy h.log e o q he
  · intro c
    unfold ownedObject
    rw [(hkind c).1, (hkind c).2]

/-- C20, amended.  `DeleteObject` keeps no record of an earlier destruction:
every call on a block whose owned object is the non-null `o` destroys `o` once
more, so after `k` calls the destruction count of `o` has grown by `k` (and
that of no other address).  It is a no-op only on a block that owns no object
(an external-storage block holding `nullptr`).  The teardown of a shared handle
reaches `DeleteObject` only in the release that finds the strong count at 1:
from any other strong count the release logs nothing.  The first three parts
are the call on a pointee whose destructor touches no control block.  On a
pointee deriving from `EnableSharedFromThis` every call that returns destroys
`o` once more as well, `k` returning calls `k` times, and each also releases
the weak handle embedded in the object: the weak counter of the block that
handle references is lowered by 1 per call. -/
theorem C20_delete_object_destroys_each_call (h : Heap) (b : Nat) :
    (∀ (o : Addr), ownedObject h b = some o → ∀ (k : Nat) (q : Addr),
        destroyedCount (deleteObjectTimes k h b).log q
          = destroyedCount h.log q + (if q = o then k else 0)) ∧
    (ownedObject h b = none → DeleteObject h b = h) ∧
    (∀ (this : SharedPtr), this.block_ = some b → GetStrongCounter h b ≠ 1 →
        (SharedPtr.release h this).log = h.log) ∧
    (∀ (obj : EnableSharedFromThis) (o : Addr), ownedObject h b = some o →
        ∀ (k : Nat) (hf : Heap), deleteObjectSelfTimes k h b obj = some hf →
          (∀ q, destroyedCount hf.log q = destroyedCount h.log q + (if q = o then k else 0)) ∧
          (∀ c, GetWeakCounter hf c
              = GetWeakCounter h c - (if obj.weak_ptr_.block_weak_ = some c then (k : Int) else 0))) := by
  refine ⟨?_, DeleteObject_of_none h b, ?_, ?_⟩
  · intro o ho k
    induction k generalizing h with
    | zero =>
      intro q
      simp [deleteObjectTimes]
    | succ k ih =>
      intro q
      simp only [deleteObjectTimes]
      rw [ih (DeleteObject h b) (by rw [ownedObject_DeleteObject]; exact ho) q,
        DeleteObject_destroyedCount, ho]
      by_cases hq : q = o
      · subst hq
        simp
        omega
      · have : ¬ (o = q) := fun hc => hq hc.symm
        simp [hq, this]
  · intro this hb hne
    rw [SharedPtr.release_eq h this b _ _ hb rfl rfl]
    simp [hne]
  · intro obj o ho k
    induction k generalizing h with
    | zero =>
      intro hf hd
      simp only [deleteObjectSelfTimes, Option.some.injEq] at hd
      subst hd
      exact ⟨fun q => by simp, fun c => by simp⟩
    | succ k ih =>
      intro hf hd
      simp only [deleteObjectSelfTimes, Option.bind_eq_some] at hd
      obtain ⟨h1, hd1, hrest⟩ := hd
      obtain ⟨p1, p2, _, p4⟩ := DeleteObjectSelf_profile h b obj o h1 ho hd1
      obtain ⟨q1, q2⟩ := ih h1 (by rw [p2]; exact ho) hf hrest
      constructor
      · intro q
        rw [q1 q, p1 q]
        split_ifs <;> omega
      · intro c
        rw [q2 c, p4 c]
        split_ifs <;> push_cast <;> omega

/-- Witness of C20 (amended): three calls on the block of a wrapped object
destroy the object three times; releasing one of two shared handles logs
nothing; one call on the block of the wrapped object deriving from
`EnableSharedFromThis` destroys the object once and lowers the weak count from
1 to 0. -/
theorem C20_delete_object_destroys_each_call_witness :
    destroyedCount (deleteObjectTimes 3 (heapAfter [Op.wrap]) 0).log (Addr.raw 0) = 3 ∧
    (SharedPtr.release (heapAfter [Op.wrap, Op.copy 0]) exampleShared).log
      = (heapAfter [Op.wrap, Op.copy 0]).log ∧
    (∃ hf, deleteObjectSelfTimes 1 exampleSelf.1 0 exampleSelf.2.2 = some hf ∧
      destroyedCount hf.log (Addr.raw 0) = 1 ∧ GetWeakCounter hf 0 = 0) := by
  refine ⟨?_, ?_, ?_⟩
  · exact ((C20_delete_object_destroys_each_call (heapAfter [Op.wrap]) 0).1 (Addr.raw 0)
      (by decide) 3 (Addr.raw 0)).trans (by decide)
  · exact (C20_delete_object_destroys_each_call (heapAfter [Op.wrap, Op.copy 0]) 0).2.2.1
      exampleShared rfl (by decide)
  · have key := (C20_delete_object_destroys_each_call exampleSelf.1 0).2.2.2 exampleSelf.2.2
      (Addr.raw 0) (by decide) 1 _ rfl
    exact ⟨_, rfl, (key.1 (Addr.raw 0)).trans (by decide), (key.2 0).trans (by decide)⟩

end WeakEnabled

/-! ## Accessors of a never-owned self-observing object -/

namespace WeakEnabled

/-- C21, refuted as stated.  On an object no shared pointer has ever owned (its
`weak_ptr_` is default-constructed), `SharedFromThis()` does not return an empty
shared handle: the promoting constructor throws `BadWeakPtr`. -/
theorem C21_shared_from_this_throws :
    SharedFromThis Heap.empty EnableSharedFromThis.fresh
      = (Heap.empty, Except.error BadWeakPtr.mk) ∧
    (SharedFromThis Heap.empty EnableSharedFromThis.fresh).2 ≠ Except.ok SharedPtr.null := by
  constructor
  · rfl
  · intro hc
    cases hc

/-- C21, amended.  Take an object of a type deriving from `EnableSharedFromThis`
that no shared pointer has ever owned, in any heap.  If its embedded
`weak_ptr_` is empty (the object was default-constructed, or copy-constructed
from an object in that state, which copies the empty handle):
`WeakFromThis()` returns an empty weak handle (expired, use-count 0) and leaves
the heap as it was; `SharedFromThis()` throws `BadWeakPtr` and leaves the heap as
it was.  If the object was copy-constructed from an object that is owned
through block `b` (strong count at least 1; both counters low enough for the
increments), its `weak_ptr_` is a copy of the owner's, counted in the weak
counter of `b`: `WeakFromThis()` returns a non-expired weak handle on `b` and
`SharedFromThis()` returns a shared handle on `b`, raising the strong count by
1. -/
theorem C21_accessors_on_never_owned (h : Heap) (obj : EnableSharedFromThis) :
    (obj.weak_ptr_.block_weak_ = none →
        WeakFromThis h obj = (h, obj.weak_ptr_) ∧
        (WeakFromThis h obj).2.block_weak_ = none ∧
        WeakPtr.Expired h (WeakFromThis h obj).2 = true ∧
        WeakPtr.UseCount h (WeakFromThis h obj).2 = 0 ∧
        SharedFromThis h obj = (h, Except.error BadWeakPtr.mk) ∧
        EnableSharedFromThis.ctorCopy h obj = (h, obj)) ∧
    (EnableSharedFromThis.fresh.weak_ptr_.block_weak_ = none ∧
     WeakFromThis h EnableSharedFromThis.fresh = (h, WeakPtr.null) ∧
     SharedFromThis h EnableSharedFromThis.fresh = (h, Except.error BadWeakPtr.mk)) ∧
    (∀ (b : Nat), obj.weak_ptr_.block_weak_ = some b → 1 ≤ GetStrongCounter h b →
        GetStrongCounter h b < INT_MAX → GetWeakCounter h b + 1 < INT_MAX →
        (EnableSharedFromThis.ctorCopy h obj).2 = obj ∧
        GetWeakCounter (EnableSharedFromThis.ctorCopy h obj).1 b = GetWeakCounter h b + 1 ∧
        GetStrongCounter (EnableSharedFromThis.ctorCopy h obj).1 b = GetStrongCounter h b ∧
        (WeakFromThis (EnableSharedFromThis.ctorCopy h obj).1
            (EnableSharedFromThis.ctorCopy h obj).2).2 = obj.weak_ptr_ ∧
        WeakPtr.Expired
          (WeakFromThis (EnableSharedFromThis.ctorCopy h obj).1
            (EnableSharedFromThis.ctorCopy h obj).2).1
          (WeakFromThis (EnableSharedFromThis.ctorCopy h obj).1
            (EnableSharedFromThis.ctorCopy h obj).2).2 = false ∧
        GetWeakCounter
          (WeakFromThis (EnableSharedFromThis.ctorCopy h obj).1
            (EnableSharedFromThis.ctorCopy h obj).2).1 b ≤ INT_MAX ∧
        ∃ h2 r, SharedFromThis (EnableSharedFromThis.ctorCopy h obj).1
              (EnableSharedFromThis.ctorCopy h obj).2 = (h2, Except.ok r) ∧
          r = { pointer_ := obj.weak_ptr_.object_, block_ := some b } ∧
          GetStrongCounter h2 b = GetStrongCounter h b + 1 ∧
          GetStrongCounter h2 b ≤ INT_MAX) := by
  refine ⟨?_, ⟨rfl, rfl, rfl⟩, ?_⟩
  · intro hn
    have hcopy : WeakPtr.ctorCopy h obj.weak_ptr_ = (h, obj.weak_ptr_) := by
      cases hw : obj.weak_ptr_ with
      | mk block_weak_ object_ =>
        rw [hw] at hn
        simp only at hn
        subst hn
        rfl
    have hexp := WeakPtr.Expired_null h obj.weak_ptr_ hn
    refine ⟨hcopy, ?_, ?_, ?_, ?_, ?_⟩
    · simp only [WeakFromThis, hcopy, hn]
    · simp only [WeakFromThis, hcopy, hexp]
    · simp [WeakFromThis, hcopy, WeakPtr.UseCount, hn]
    · simp [SharedFromThis, SharedPtr.ctorPromote, hexp]
    · simp [EnableSharedFromThis.ctorCopy, hcopy]
  · intro b hb hs hsmax hwmax
    have hcopy : ∀ h0 : Heap, WeakPtr.ctorCopy h0 obj.weak_ptr_
        = (setWeak h0 b (GetWeakCounter h0 b + 1), obj.weak_ptr_) := by
      intro h0
      cases hw : obj.weak_ptr_ with
      | mk block_weak_ object_ =>
        rw [hw] at hb
        simp only at hb
        subst hb
        rfl
    have hc : EnableSharedFromThis.ctorCopy h obj
        = (setWeak h b (GetWeakCounter h b + 1), obj) := by
      simp [EnableSharedFromThis.ctorCopy, hcopy]
    have hne : GetStrongCounter (setWeak h b (GetWeakCounter h b + 1)) b ≠ 0 := by
      simp only [GetStrongCounter_setWeak]
      omega
    have hlo : -(2 ^ 63 : Int) ≤ GetStrongCounter (setWeak h b (GetWeakCounter h b + 1)) b := by
      simp only [GetStrongCounter_setWeak]
      omega
    rw [hc]
    simp only [WeakFromThis, hcopy, SharedFromThis]
    refine ⟨trivial, by simp, by simp, trivial, ?_, ?_, ?_⟩
    · exact WeakPtr.Expired_of_strong_ne_zero _ _ b hb (by simpa using hne) (by simpa using hlo)
    · simp only [GetWeakCounter_setWeak]
      omega
    · refine ⟨_, _, SharedPtr.ctorPromote_of_strong_ne_zero _ _ b hb hne hlo, rfl, by simp, ?_⟩
      simp only [GetStrongCounter_setStrong, GetStrongCounter_setWeak]
      omega

/-- Witness of C21 (amended): the freshly constructed object on the empty heap;
a copy of the wrapped, linked object of `exampleSelf`. -/
theorem C21_accessors_on_never_owned_witness :
    SharedFromThis Heap.empty EnableSharedFromThis.fresh
      = (Heap.empty, Except.error BadWeakPtr.mk) ∧
    WeakPtr.Expired
      (WeakFromThis (EnableSharedFromThis.ctorCopy exampleSelf.1 exampleSelf.2.2).1
        (EnableSharedFromThis.ctorCopy exampleSelf.1 exampleSelf.2.2).2).1
      (WeakFromThis (EnableSharedFromThis.ctorCopy exampleSelf.1 exampleSelf.2.2).1
        (EnableSharedFromThis.ctorCopy exampleSelf.1 exampleSelf.2.2).2).2 = false :=
  ⟨((C21_accessors_on_never_owned Heap.empty EnableSharedFromThis.fresh).1 rfl).2.2.2.2.1,
   ((C21_accessors_on_never_owned exampleSelf.1 exampleSelf.2.2).2.2 0 rfl (by decide)
      (by decide) (by decide)).2.2.2.2.1⟩

end WeakEnabled

/-! ## Move assignment into an empty exclusive-ownership handle -/

namespace Unique

/-- C25, on the code.  Move-assigning a source that holds the non-null pointer
`a` into an empty handle invokes the policy of the empty handle once, on
`nullptr`: the assignment operator tests only whether the two pointers are
equal, not whether the old pointer is null. -/
theorem C25_move_assign_calls_policy_on_null {D : Type} (calls : Calls D) (t s : UniquePtr D)
    (a : Addr) (ht : t.object_block_.first = none) (hs : s.object_block_.first = some a) :
    (UniquePtr.assignMove calls t s).1
      = calls ++ [{ deleter := t.GetDeleter, arg := none, holds := none }] ∧
    (UniquePtr.assignMove calls t s).2.1.object_block_.first = some a ∧
    (UniquePtr.assignMove calls t s).2.2.object_block_.first = none := by
  have hne : ¬ (t.object_block_.first = s.object_block_.first) := by
    rw [ht, hs]
    intro hc
    cases hc
  simp [UniquePtr.assignMove, hne, UniquePtr.Release, UniquePtr.GetDeleter,
    CompressedPair.GetFirst, CompressedPair.GetSecond, ht, hs]

/-- Witness of C25: the handle holding `raw 0` is move-assigned into an empty
handle. -/
theorem C25_move_assign_calls_policy_on_null_witness :
    (UniquePtr.assignMove [] (UniquePtr.Release [] exampleUnique).2.2 exampleUnique).1
      = [] ++ [{ deleter := (UniquePtr.Release [] exampleUnique).2.2.GetDeleter, arg := none,
                 holds := none }] :=
  (C25_move_assign_calls_policy_on_null [] (UniquePtr.Release [] exampleUnique).2.2
    exampleUnique (Addr.raw 0) rfl rfl).1

end Unique

/-! ## Copy assignment of weak handles on one block -/

namespace WeakEnabled

/-- C26, evaluated on the code.  First program: the only weak handle of a block
whose strong count is already 0 is copy-assigned from itself; before the
assignment the block is not freed, after it the block has been freed once
(and the handle still references it).  Second program: with two weak handles
on such a block, the first is copy-assigned from the second; before the
assignment the object has been destroyed once, after it twice. -/
theorem C26_weak_copy_assignment_changes_status :
    (run Prog.init [Op.wrap, Op.weakOfShared 0, Op.destroy 0]).map
        (fun p => (GetStrongCounter p.heap 0, GetWeakCounter p.heap 0,
                   destroyedCount p.heap.log (Addr.raw 0), freedCount p.heap.log 0))
      = some (0, 1, 1, 0) ∧
    (run Prog.init [Op.wrap, Op.weakOfShared 0, Op.destroy 0, Op.weakAssign 0 0]).map
        (fun p => (GetStrongCounter p.heap 0, GetWeakCounter p.heap 0,
                   destroyedCount p.heap.log (Addr.raw 0), freedCount p.heap.log 0))
      = some (0, 1, 1, 1) ∧
    (run Prog.init [Op.wrap, Op.weakOfShared 0, Op.weakOfShared 0, Op.destroy 0]).map
        (fun p => (GetStrongCounter p.heap 0, GetWeakCounter p.heap 0,
                   destroyedCount p.heap.log (Addr.raw 0), freedCount p.heap.log 0))
      = some (0, 2, 1, 0) ∧
    (run Prog.init [Op.wrap, Op.weakOfShared 0, Op.weakOfShared 0, Op.destroy 0,
        Op.weakAssign 0 1]).map
        (fun p => (GetStrongCounter p.heap 0, GetWeakCounter p.heap 0,
                   destroyedCount p.heap.log (Addr.raw 0), freedCount p.heap.log 0))
      = some (0, 2, 2, 0) := by
  refine ⟨rfl, rfl, rfl, rfl⟩

end WeakEnabled

/-! ## Assignment between self-counting pointees -/

namespace Intrusive

/-- C30.  `RefCounted::operator=` between the pointees at `this` and `other`
returns the store as it was: the reference count of every pointee, the target
and the source included, and the list of destroyer invocations are unchanged.
Hence, for any handles `hs`, a pointee whose count matched the number of
handles referencing it before the assignment matches it afterwards. -/
theorem C30_refcounted_assignment (s : Store) (this other : Addr) :
    RefCounted.assign s this other = s ∧
    RefCounted.RefCount (RefCounted.assign s this other) this = RefCounted.RefCount s this ∧
    RefCounted.RefCount (RefCounted.assign s this other) other = RefCounted.RefCount s other ∧
    (RefCounted.assign s this other).destroyed = s.destroyed ∧
    (∀ (hs : List IntrusivePtr) (a : Addr),
        RefCounted.RefCount s a = hs.countP (fun x => decide (x.object_ = some a)) →
        RefCounted.RefCount (RefCounted.assign s this other) a
          = hs.countP (fun x => decide (x.object_ = some a))) := by
  refine ⟨rfl, rfl, rfl, rfl, ?_⟩
  intro hs a hcount
  exact hcount

/-- Witness of C30: the pointee at `raw 0` is referenced by one handle and has
count 1; it is assigned from the pointee at `raw 1`. -/
theorem C30_refcounted_assignment_witness :
    RefCounted.RefCount (RefCounted.assign exampleStore (Addr.raw 0) (Addr.raw 1)) (Addr.raw 0)
      = [exampleIntrusive].countP (fun x => decide (x.object_ = some (Addr.raw 0))) :=
  (C30_refcounted_assignment exampleStore (Addr.raw 0) (Addr.raw 1)).2.2.2.2
    [exampleIntrusive] (Addr.raw 0) (by decide)

end Intrusive

/-! ## Construction in place -/

/-- C23, evaluated on the code.  With an empty argument list, `MakeShared` of
shared/shared.h allocates the block with strong count 1 and returns a handle on
the embedded storage, but logs no construction: the default constructor of
`ControlBlockForNewObject` sets the counters only.  Destroying the handle then
runs the in-place destructor of the never-constructed object once: no
construction, one destruction.  The weak-enabled `MakeShared` with the same
empty argument list constructs the object, and with one argument both do. -/
theorem C23_plain_make_shared_without_arguments_constructs_nothing :
    (Plain.MakeShared Heap.empty []).1.log = [] ∧
    (Plain.MakeShared Heap.empty []).2
      = { pointer_ := some (Addr.inBlock 0), block_ := some 0 } ∧
    GetStrongCounter (Plain.MakeShared Heap.empty []).1 0 = 1 ∧
    (Plain.SharedPtr.dtor (Plain.MakeShared Heap.empty []).1 (Plain.MakeShared Heap.empty []).2).log
      = [Event.destroyAt (Addr.inBlock 0), Event.deleteBlock 0] ∧
    (WeakEnabled.MakeShared Heap.empty []).1.log = [Event.construct (Addr.inBlock 0) []] ∧
    (WeakEnabled.SharedPtr.dtor (WeakEnabled.MakeShared Heap.empty []).1
        (WeakEnabled.MakeShared Heap.empty []).2).log
      = [Event.construct (Addr.inBlock 0) [], Event.destroyAt (Addr.inBlock 0),
         Event.deleteBlock 0] ∧
    (Plain.MakeShared Heap.empty [42]).1.log = [Event.construct (Addr.inBlock 0) [42]] := by
  refine ⟨rfl, rfl, rfl, rfl, rfl, rfl, rfl⟩

/-- C29, on the code.  In both implementations, adopting a freshly created
embedded-storage block through the template constructor (block type different
from the handle type) leaves the strong count at 2 for the single handle, whose
`UseCount()` is 2; destroying that handle lowers the count to 1 and logs
nothing: the object is not destroyed and the block is not freed.  The
non-template constructor leaves the count at 1. -/
theorem C29_template_block_constructor_counts_twice (h : Heap) (args : List Int) :
    (SharedPtr.UseCount
        (WeakEnabled.SharedPtr.ctorBlockOther (WeakEnabled.newControlBlockForNewObject h args).1
          (WeakEnabled.newControlBlockForNewObject h args).2).1
        (WeakEnabled.SharedPtr.ctorBlockOther (WeakEnabled.newControlBlockForNewObject h args).1
          (WeakEnabled.newControlBlockForNewObject h args).2).2 = 2 ∧
     GetStrongCounter
        (WeakEnabled.SharedPtr.dtor
          (WeakEnabled.SharedPtr.ctorBlockOther (WeakEnabled.newControlBlockForNewObject h args).1
            (WeakEnabled.newControlBlockForNewObject h args).2).1
          (WeakEnabled.SharedPtr.ctorBlockOther (WeakEnabled.newControlBlockForNewObject h args).1
            (WeakEnabled.newControlBlockForNewObject h args).2).2) h.next = 1 ∧
     (WeakEnabled.SharedPtr.dtor
          (WeakEnabled.SharedPtr.ctorBlockOther (WeakEnabled.newControlBlockForNewObject h args).1
            (WeakEnabled.newControlBlockForNewObject h args).2).1
          (WeakEnabled.SharedPtr.ctorBlockOther (WeakEnabled.newControlBlockForNewObject h args).1
            (WeakEnabled.newControlBlockForNewObject h args).2).2).log
        = (WeakEnabled.newControlBlockForNewObject h args).1.log ∧
     SharedPtr.UseCount (WeakEnabled.MakeShared h args).1 (WeakEnabled.MakeShared h args).2 = 1) ∧
    (SharedPtr.UseCount
        (Plain.SharedPtr.ctorBlockOther (Plain.newControlBlockForNewObject h args).1
          (Plain.newControlBlockForNewObject h args).2).1
        (Plain.SharedPtr.ctorBlockOther (Plain.newControlBlockForNewObject h args).1
          (Plain.newControlBlockForNewObject h args).2).2 = 2 ∧
     GetStrongCounter
        (Plain.SharedPtr.dtor
          (Plain.SharedPtr.ctorBlockOther (Plain.newControlBlockForNewObject h args).1
            (Plain.newControlBlockForNewObject h args).2).1
          (Plain.SharedPtr.ctorBlockOther (Plain.newControlBlockForNewObject h args).1
            (Plain.newControlBlockForNewObject h args).2).2) h.next = 1 ∧
     (Plain.SharedPtr.dtor
          (Plain.SharedPtr.ctorBlockOther (Plain.newControlBlockForNewObject h args).1
            (Plain.newControlBlockForNewObject h args).2).1
          (Plain.SharedPtr.ctorBlockOther (Plain.newControlBlockForNewObject h args).1
            (Plain.newControlBlockForNewObject h args).2).2).log
        = (Plain.newControlBlockForNewObject h args).1.log ∧
     SharedPtr.UseCount (Plain.MakeShared h args).1 (Plain.MakeShared h args).2 = 1) := by
  constructor
  · refine ⟨?_, ?_, ?_, ?_⟩ <;>
      simp [SharedPtr.UseCount, WeakEnabled.SharedPtr.ctorBlockOther,
        WeakEnabled.newControlBlockForNewObject, WeakEnabled.MakeShared,
        WeakEnabled.SharedPtr.ctorBlock, WeakEnabled.SharedPtr.dtor,
        WeakEnabled.SharedPtr.release, Heap.alloc, Heap.emit, GetStrongCounter,
        GetWeakCounter, setStrong, Heap.setBlock, toSizeT]
  · cases args <;> (refine ⟨?_, ?_, ?_, ?_⟩ <;>
      simp [SharedPtr.UseCount, Plain.SharedPtr.ctorBlockOther,
        Plain.newControlBlockForNewObject, Plain.MakeShared,
        Plain.SharedPtr.ctorBlock, Plain.SharedPtr.dtor, Heap.alloc, Heap.emit,
        GetStrongCounter, GetWeakCounter, setStrong, Heap.setBlock, toSizeT])

/-! ## Allocation failure -/

namespace Plain

theorem deleteBlock_eq (h : Heap) (b : Nat) :
    deleteBlock h b = WeakEnabled.deleteBlock (WeakEnabled.DeleteObject h b) b := by
  unfold deleteBlock WeakEnabled.deleteBlock WeakEnabled.DeleteObject
  cases (h.block b).kind <;> rfl

theorem SharedPtr.plain_release_eq (h : Heap) (this : SharedPtr) (B : Nat) (s : Int)
    (hB : this.block_ = some B) (hs : GetStrongCounter h B = s) :
    SharedPtr.release h this =
      if s = 1 then deleteBlock (setStrong h B 0) B else setStrong h B (s - 1) := by
  unfold SharedPtr.release
  simp only [hB, hs, GetStrongCounter_setStrong]
  by_cases h1 : s = 1
  · subst h1
    simp
  · have : ¬ (s - 1 = 0) := by omega
    simp [h1, this]

theorem SharedPtr.plain_release_profile (h : Heap) (this : SharedPtr) (B : Nat) (s : Int)
    (hB : this.block_ = some B) (hs : GetStrongCounter h B = s) :
    GetStrongCounter (SharedPtr.release h this) B = s - 1 ∧
    (∀ q, destroyedCount (SharedPtr.release h this).log q
        = destroyedCount h.log q + (if s = 1 ∧ ownedObject h B = some q then 1 else 0)) := by
  rw [SharedPtr.plain_release_eq h this B s hB hs]
  by_cases h1 : s = 1
  · subst h1
    simp only [if_true, deleteBlock_eq, WeakEnabled.deleteBlock, sub_self]
    constructor
    · simp [WeakEnabled.GetStrongCounter_DeleteObject]
    · intro q
      rw [log_emit, destroyedCount_deleteBlock, WeakEnabled.DeleteObject_destroyedCount]
      simp
  · simp only [h1, if_false]
    exact ⟨by simp, by simp⟩

end Plain

/-- C22, evaluated on the code.  Allocation of the new control block fails
during `Reset(ptr)`.  (1) On the only shared handle of a wrapped object: in both
implementations the release of the previous block has already run, so the
previously owned object has been destroyed and the block freed, and the handle
is left holding the new pointer together with the pointer to the freed block.
(2) On one of two handles of the block: the strong count has gone from 2 to 1
while the handle still references the block, so that when the handle is
destroyed afterwards the count reaches 0 and the object is destroyed and the
block freed although the other handle is still alive.  Wrapping construction
under the same failure has touched nothing. -/
theorem C22_failed_reset_has_released :
    ((WeakEnabled.SharedPtr.ResetPtrAlloc false (WeakEnabled.heapAfter [WeakEnabled.Op.wrap])
        WeakEnabled.exampleShared (some (Addr.raw 9))).1.log
      = [Event.deleteObject (Addr.raw 0), Event.deleteBlock 0] ∧
     (WeakEnabled.heapAfter [WeakEnabled.Op.wrap]).log = [] ∧
     (WeakEnabled.SharedPtr.ResetPtrAlloc false (WeakEnabled.heapAfter [WeakEnabled.Op.wrap])
        WeakEnabled.exampleShared (some (Addr.raw 9))).2
      = ({ pointer_ := some (Addr.raw 9), block_ := some 0 }, Except.error BadAlloc.mk) ∧
     (Plain.SharedPtr.ResetPtrAlloc false (WeakEnabled.heapAfter [WeakEnabled.Op.wrap])
        WeakEnabled.exampleShared (some (Addr.raw 9))).1.log
      = [Event.deleteObject (Addr.raw 0), Event.deleteBlock 0] ∧
     (Plain.SharedPtr.ResetPtrAlloc false (WeakEnabled.heapAfter [WeakEnabled.Op.wrap])
        WeakEnabled.exampleShared (some (Addr.raw 9))).2
      = ({ pointer_ := some (Addr.raw 9), block_ := some 0 }, Except.error BadAlloc.mk)) ∧
    (GetStrongCounter (WeakEnabled.heapAfter [WeakEnabled.Op.wrap, WeakEnabled.Op.copy 0]) 0 = 2 ∧
     GetStrongCounter
       (WeakEnabled.SharedPtr.ResetPtrAlloc false
         (WeakEnabled.heapAfter [WeakEnabled.Op.wrap, WeakEnabled.Op.copy 0])
         WeakEnabled.exampleShared (some (Addr.raw 9))).1 0 = 1 ∧
     (WeakEnabled.SharedPtr.ResetPtrAlloc false
         (WeakEnabled.heapAfter [WeakEnabled.Op.wrap, WeakEnabled.Op.copy 0])
         WeakEnabled.exampleShared (some (Addr.raw 9))).2
       = ({ pointer_ := some (Addr.raw 9), block_ := some 0 }, Except.error BadAlloc.mk) ∧
     (WeakEnabled.SharedPtr.dtor
         (WeakEnabled.SharedPtr.ResetPtrAlloc false
           (WeakEnabled.heapAfter [WeakEnabled.Op.wrap, WeakEnabled.Op.copy 0])
           WeakEnabled.exampleShared (some (Addr.raw 9))).1
         (WeakEnabled.SharedPtr.ResetPtrAlloc false
           (WeakEnabled.heapAfter [WeakEnabled.Op.wrap, WeakEnabled.Op.copy 0])
           WeakEnabled.exampleShared (some (Addr.raw 9))).2.1).log
       = [Event.deleteObject (Addr.raw 0), Event.deleteBlock 0] ∧
     (Plain.SharedPtr.dtor
         (Plain.SharedPtr.ResetPtrAlloc false
           (WeakEnabled.heapAfter [WeakEnabled.Op.wrap, WeakEnabled.Op.copy 0])
           WeakEnabled.exampleShared (some (Addr.raw 9))).1
         (Plain.SharedPtr.ResetPtrAlloc false
           (WeakEnabled.heapAfter [WeakEnabled.Op.wrap, WeakEnabled.Op.copy 0])
           WeakEnabled.exampleShared (some (Addr.raw 9))).2.1).log
       = [Event.deleteObject (Addr.raw 0), Event.deleteBlock 0]) ∧
    ((WeakEnabled.SharedPtr.ctorPtrAlloc false (WeakEnabled.heapAfter [WeakEnabled.Op.wrap])
        (some (Addr.raw 9))).1.log = (WeakEnabled.heapAfter [WeakEnabled.Op.wrap]).log ∧
     GetStrongCounter
       (WeakEnabled.SharedPtr.ctorPtrAlloc false (WeakEnabled.heapAfter [WeakEnabled.Op.wrap])
         (some (Addr.raw 9))).1 0 = 1 ∧
     (WeakEnabled.SharedPtr.ctorPtrAlloc false (WeakEnabled.heapAfter [WeakEnabled.Op.wrap])
        (some (Addr.raw 9))).2 = Except.error BadAlloc.mk ∧
     (Plain.SharedPtr.ctorPtrAlloc false (WeakEnabled.heapAfter [WeakEnabled.Op.wrap])
        (some (Addr.raw 9))).2 = Except.error BadAlloc.mk) := by
  refine ⟨⟨rfl, rfl, rfl, rfl, rfl⟩, ⟨rfl, rfl, rfl, rfl, rfl⟩, ⟨rfl, rfl, rfl, rfl⟩⟩

/-! ## Counter effects of the handle operations -/

namespace WeakEnabled

theorem SharedPtr.release_strong (h : Heap) (s : SharedPtr) (c : Nat) :
    GetStrongCounter (SharedPtr.release h s) c
      = GetStrongCounter h c - (if s.block_ = some c then 1 else 0) := by
  unfold SharedPtr.release
  cases hb : s.block_ with
  | none => simp
  | some b =>
    simp only [Option.some.injEq]
    split_ifs <;>
      simp_all [deleteBlock, GetStrongCounter_DeleteObject, GetStrongCounter_setStrong_ite] <;>
      omega

theorem SharedPtr.release_weak (h : Heap) (s : SharedPtr) (c : Nat) :
    GetWeakCounter (SharedPtr.release h s) c = GetWeakCounter h c := by
  unfold SharedPtr.release
  cases hb : s.block_ with
  | none => rfl
  | some b =>
    simp only
    split_ifs <;> simp [deleteBlock, GetWeakCounter_DeleteObject]

theorem SharedPtr.release_next (h : Heap) (s : SharedPtr) :
    (SharedPtr.release h s).next = h.next := by
  unfold SharedPtr.release
  cases hb : s.block_ with
  | none => rfl
  | some b =>
    simp only
    split_ifs <;> simp [deleteBlock, DeleteObject_next]

theorem WeakPtr.Deleter_weak (h : Heap) (w : WeakPtr) (c : Nat) :
    GetWeakCounter (WeakPtr.Deleter h w) c
      = GetWeakCounter h c - (if w.block_weak_ = some c then 1 else 0) := by
  unfold WeakPtr.Deleter
  cases hb : w.block_weak_ with
  | none => simp
  | some b =>
    simp only [Option.some.injEq]
    split_ifs <;>
      simp_all [deleteBlock, GetWeakCounter_deletePtr, GetWeakCounter_setWeak_ite] <;>
      omega

theorem WeakPtr.Deleter_strong_all (h : Heap) (w : WeakPtr) (c : Nat) :
    GetStrongCounter (WeakPtr.Deleter h w) c = GetStrongCounter h c := by
  unfold WeakPtr.Deleter
  cases hb : w.block_weak_ with
  | none => rfl
  | some b =>
    simp only
    split_ifs <;> simp [deleteBlock, GetStrongCounter_deletePtr]

theorem WeakPtr.Deleter_next (h : Heap) (w : WeakPtr) :
    (WeakPtr.Deleter h w).next = h.next := by
  unfold WeakPtr.Deleter
  cases hb : w.block_weak_ with
  | none => rfl
  | some b =>
    simp only
    split_ifs <;> simp [deleteBlock, next_deletePtr]

end WeakEnabled

/-! ## The two shared-handle implementations on programs without weak handles -/

namespace Plain

theorem SharedPtr.plain_release_eq_weakEnabled (h : Heap) (s : SharedPtr)
    (hw : ∀ b, GetWeakCounter h b = 0) :
    SharedPtr.release h s = WeakEnabled.SharedPtr.release h s := by
  unfold SharedPtr.release WeakEnabled.SharedPtr.release
  cases hb : s.block_ with
  | none => rfl
  | some b =>
    simp only [GetWeakCounter_setStrong, hw, and_true, deleteBlock_eq]
    split_ifs <;> rfl

theorem SharedPtr.plain_dtor_eq_release (h : Heap) (s : SharedPtr) :
    SharedPtr.dtor h s = SharedPtr.release h s := by
  unfold SharedPtr.dtor SharedPtr.release
  cases hb : s.block_ with
  | none => rfl
  | some b =>
    simp only [GetStrongCounter_setStrong]
    by_cases h1 : GetStrongCounter h b = 1
    · simp [h1]
    · have : ¬ (GetStrongCounter h b - 1 = 0) := by omega
      simp [h1, this]

theorem step_eq_weakEnabled (p : WeakEnabled.Prog) (op : WeakEnabled.Op)
    (hop : WeakEnabled.sharedOnly op = true) (hw : ∀ b, GetWeakCounter p.heap b = 0) :
    step p op = WeakEnabled.step p op := by
  have hr : ∀ s, SharedPtr.release p.heap s = WeakEnabled.SharedPtr.release p.heap s :=
    fun s => SharedPtr.plain_release_eq_weakEnabled p.heap s hw
  cases op
  · -- sharedNull
    rfl
  · -- wrap
    rfl
  · -- makeShared
    rename_i args
    cases args with
    | nil => simp [WeakEnabled.sharedOnly] at hop
    | cons a as => rfl
  · -- copy
    rename_i i
    rfl
  · -- move
    rename_i i
    rfl
  · -- alias
    rename_i i ptr
    rfl
  · -- promote
    rename_i j
    simp [WeakEnabled.sharedOnly] at hop
  · -- lock
    rename_i j
    simp [WeakEnabled.sharedOnly] at hop
  · -- assign
    rename_i i k
    simp only [step, WeakEnabled.step, SharedPtr.assignCopy, WeakEnabled.SharedPtr.assignCopy, hr]
  · -- assignMove
    rename_i i k
    simp only [step, WeakEnabled.step, SharedPtr.assignMove, WeakEnabled.SharedPtr.assignMove, hr]
  · -- reset
    rename_i i
    simp only [step, WeakEnabled.step, SharedPtr.Reset, WeakEnabled.SharedPtr.Reset, hr]
  · -- resetPtr
    rename_i i
    simp only [step, WeakEnabled.step, SharedPtr.ResetPtr, WeakEnabled.SharedPtr.ResetPtr, hr]
  · -- swap
    rename_i i k
    rfl
  · -- destroy
    rename_i i
    simp only [step, WeakEnabled.step, SharedPtr.plain_dtor_eq_release, WeakEnabled.SharedPtr.dtor, hr]
  · -- weakNull
    simp [WeakEnabled.sharedOnly] at hop
  · -- weakOfShared
    rename_i i
    simp [WeakEnabled.sharedOnly] at hop
  · -- weakCopy
    rename_i j
    simp [WeakEnabled.sharedOnly] at hop
  · -- weakMove
    rename_i j
    simp [WeakEnabled.sharedOnly] at hop
  · -- weakAssign
    rename_i j l
    simp [WeakEnabled.sharedOnly] at hop
  · -- weakAssignMove
    rename_i j l
    simp [WeakEnabled.sharedOnly] at hop
  · -- weakReset
    rename_i j
    simp [WeakEnabled.sharedOnly] at hop
  · -- weakSwap
    rename_i j l
    simp [WeakEnabled.sharedOnly] at hop
  · -- weakDestroy
    rename_i j
    simp [WeakEnabled.sharedOnly] at hop

end Plain

namespace WeakEnabled

theorem step_weak_zero (p q : Prog) (op : Op) (hop : sharedOnly op = true)
    (hstep : step p op = some q) (hw : ∀ b, GetWeakCounter p.heap b = 0) :
    ∀ b, GetWeakCounter q.heap b = 0 := by
  intro b
  cases op
  · -- sharedNull
    simp only [step, Option.some.injEq] at hstep
    subst hstep
    exact hw b
  · -- wrap
    simp only [step, Option.some.injEq] at hstep
    subst hstep
    simp only [SharedPtr.ctorPtr, GetWeakCounter_alloc, hw]
    split_ifs <;> rfl
  · -- makeShared
    rename_i args
    simp only [step, Option.some.injEq] at hstep
    subst hstep
    simp only [MakeShared, newControlBlockForNewObject, GetWeakCounter_emit, GetWeakCounter_alloc, hw]
    split_ifs <;> rfl
  · -- copy
    rename_i i
    simp only [step, Option.map_eq_some'] at hstep
    obtain ⟨s, -, rfl⟩ := hstep
    simp only [SharedPtr.ctorCopy]
    cases s.block_ <;> simp [hw]
  · -- move
    rename_i i
    simp only [step, Option.map_eq_some'] at hstep
    obtain ⟨s, -, rfl⟩ := hstep
    exact hw b
  · -- alias
    rename_i i ptr
    simp only [step, Option.bind_eq_some, Option.map_eq_some'] at hstep
    obtain ⟨s, -, r, hr, rfl⟩ := hstep
    simp only [SharedPtr.ctorAlias, SharedPtr.release] at hr
    cases hb : s.block_ with
    | none => simp [hb] at hr
    | some c =>
      simp only [hb, Option.some.injEq] at hr
      subst hr
      simp [hw]
  · -- promote
    rename_i j
    simp [sharedOnly] at hop
  · -- lock
    rename_i j
    simp [sharedOnly] at hop
  · -- assign
    rename_i i k
    simp only [step, Option.bind_eq_some, Option.map_eq_some'] at hstep
    obtain ⟨this, -, other, -, rfl⟩ := hstep
    simp only [SharedPtr.assignCopy]
    by_cases hik : (i == k) = true
    · simp [hik, hw]
    · simp only [hik, Bool.false_eq_true, if_false]
      cases other.block_ <;> simp [SharedPtr.release_weak, hw]
  · -- assignMove
    rename_i i k
    simp only [step, Option.bind_eq_some, Option.map_eq_some'] at hstep
    obtain ⟨this, -, other, -, rfl⟩ := hstep
    simp only [SharedPtr.assignMove]
    by_cases hik : (i == k) = true
    · simp [hik, hw]
    · simp [hik, SharedPtr.release_weak, hw]
  · -- reset
    rename_i i
    simp only [step, Option.map_eq_some'] at hstep
    obtain ⟨s, -, rfl⟩ := hstep
    simp [SharedPtr.Reset, SharedPtr.release_weak, hw]
  · -- resetPtr
    rename_i i
    simp only [step, Option.map_eq_some'] at hstep
    obtain ⟨s, -, rfl⟩ := hstep
    simp only [SharedPtr.ResetPtr, GetWeakCounter_alloc, SharedPtr.release_weak, hw]
    split_ifs <;> rfl
  · -- swap
    rename_i i k
    simp only [step, Option.bind_eq_some, Option.map_eq_some'] at hstep
    obtain ⟨this, -, other, -, rfl⟩ := hstep
    exact hw b
  · -- destroy
    rename_i i
    simp only [step, Option.map_eq_some'] at hstep
    obtain ⟨s, -, rfl⟩ := hstep
    simp [SharedPtr.dtor, SharedPtr.release_weak, hw]
  · -- weakNull
    simp [sharedOnly] at hop
  · -- weakOfShared
    rename_i i
    simp [sharedOnly] at hop
  · -- weakCopy
    rename_i j
    simp [sharedOnly] at hop
  · -- weakMove
    rename_i j
    simp [sharedOnly] at hop
  · -- weakAssign
    rename_i j l
    simp [sharedOnly] at hop
  · -- weakAssignMove
    rename_i j l
    simp [sharedOnly] at hop
  · -- weakReset
    rename_i j
    simp [sharedOnly] at hop
  · -- weakSwap
    rename_i j l
    simp [sharedOnly] at hop
  · -- weakDestroy
    rename_i j
    simp [sharedOnly] at hop

end WeakEnabled

namespace Plain

theorem run_eq_weakEnabled (ops : List WeakEnabled.Op) : ∀ (p : WeakEnabled.Prog),
    (∀ op ∈ ops, WeakEnabled.sharedOnly op = true) → (∀ b, GetWeakCounter p.heap b = 0) →
    run p ops = WeakEnabled.run p ops := by
  induction ops with
  | nil => intro p _ _; rfl
  | cons op ops ih =>
    intro p hops hw
    have hop : WeakEnabled.sharedOnly op = true := hops op (List.mem_cons_self _ _)
    have hrest : ∀ o ∈ ops, WeakEnabled.sharedOnly o = true :=
      fun o ho => hops o (List.mem_cons_of_mem _ ho)
    simp only [run, WeakEnabled.run, step_eq_weakEnabled p op hop hw]
    cases hq : WeakEnabled.step p op with
    | none => rfl
    | some q =>
      simp only [Option.some_bind]
      exact ih q hrest (WeakEnabled.step_weak_zero p q op hop hq hw)

end Plain

/-- C28.  Take any sequence of shared-handle operations (declaration of an empty
handle, wrap, MakeShared with at least one argument, copy, move, aliasing, copy
and move assignment, Reset, Reset(ptr), Swap, destruction) on a pointee that is
not self-observing, and stop it after any number `n` of steps.  Run from no
handles with the `SharedPtr` of shared/shared.h and with the one of
shared-from-this/shared.h, the two programs are in the same state: the same
handle variables (so the same `Get()`), the same counters (so the same
`UseCount()`), and the same log of object destructions and block releases. -/
theorem C28_plain_agrees_with_weak_enabled (ops : List WeakEnabled.Op)
    (hops : ∀ op ∈ ops, WeakEnabled.sharedOnly op = true) (n : Nat) :
    Plain.run WeakEnabled.Prog.init (ops.take n)
      = WeakEnabled.run WeakEnabled.Prog.init (ops.take n) ∧
    (∀ p, Plain.run WeakEnabled.Prog.init (ops.take n) = some p →
      ∃ q, WeakEnabled.run WeakEnabled.Prog.init (ops.take n) = some q ∧
        q.heap.log = p.heap.log ∧
        ∀ i s, p.sharedAt i = some s →
          q.sharedAt i = some s ∧ SharedPtr.UseCount q.heap s = SharedPtr.UseCount p.heap s) := by
  have key := Plain.run_eq_weakEnabled (ops.take n) WeakEnabled.Prog.init
    (fun op hop => hops op (List.mem_of_mem_take hop)) (fun _ => rfl)
  refine ⟨key, ?_⟩
  intro p hp
  exact ⟨p, key ▸ hp, rfl, fun i s hs => ⟨hs, rfl⟩⟩

/-- Witness of C28: wrap, copy, MakeShared with one argument, copy assignment,
destruction, Reset and destruction, observed after five steps; the program
has a state there, in which the wrapped object has been destroyed and its
block freed. -/
theorem C28_plain_agrees_with_weak_enabled_witness :
    (Plain.run WeakEnabled.Prog.init
        (List.take 5 [WeakEnabled.Op.wrap, WeakEnabled.Op.copy 0, WeakEnabled.Op.makeShared [1],
          WeakEnabled.Op.assign 0 2, WeakEnabled.Op.destroy 1, WeakEnabled.Op.reset 2,
          WeakEnabled.Op.destroy 0])
      = WeakEnabled.run WeakEnabled.Prog.init
        (List.take 5 [WeakEnabled.Op.wrap, WeakEnabled.Op.copy 0, WeakEnabled.Op.makeShared [1],
          WeakEnabled.Op.assign 0 2, WeakEnabled.Op.destroy 1, WeakEnabled.Op.reset 2,
          WeakEnabled.Op.destroy 0])) ∧
    ((WeakEnabled.run WeakEnabled.Prog.init
        (List.take 5 [WeakEnabled.Op.wrap, WeakEnabled.Op.copy 0, WeakEnabled.Op.makeShared [1],
          WeakEnabled.Op.assign 0 2, WeakEnabled.Op.destroy 1, WeakEnabled.Op.reset 2,
          WeakEnabled.Op.destroy 0])).map fun p => p.heap.log)
      = some [Event.construct (Addr.inBlock 1) [1], Event.deleteObject (Addr.raw 0),
              Event.deleteBlock 0] :=
  ⟨(C28_plain_agrees_with_weak_enabled
      [WeakEnabled.Op.wrap, WeakEnabled.Op.copy 0, WeakEnabled.Op.makeShared [1],
        WeakEnabled.Op.assign 0 2, WeakEnabled.Op.destroy 1, WeakEnabled.Op.reset 2,
        WeakEnabled.Op.destroy 0] (by decide) 5).1, rfl⟩

/-! ## Counting live handles -/

theorem count_map_append {α : Type} (f : α → Option Nat) (l : List α) (v : α) (b : Nat) :
    (((l ++ [v]).map f).count (some b) : Int)
      = ((l.map f).count (some b) : Int) + (if f v = some b then 1 else 0) := by
  simp only [List.map_append, List.map_cons, List.map_nil, List.count_append, List.count_cons,
    List.count_nil, Nat.cast_add, beq_iff_eq]
  split_ifs <;> simp

theorem count_map_set {α : Type} (f : α → Option Nat) (b : Nat) (v : α) :
    ∀ (l : List α) (i : Nat) (old : α), l[i]? = some old →
    (((l.set i v).map f).count (some b) : Int)
      = ((l.map f).count (some b) : Int) - (if f old = some b then 1 else 0)
          + (if f v = some b then 1 else 0) := by
  intro l
  induction l with
  | nil => intro i old h; simp at h
  | cons a l ih =>
    intro i old h
    cases i with
    | zero =>
      simp only [List.getElem?_cons_zero, Option.some.injEq] at h
      subst h
      simp only [List.set_cons_zero, List.map_cons, List.count_cons, beq_iff_eq, Nat.cast_add]
      split_ifs <;> simp
    | succ i =>
      simp only [List.getElem?_cons_succ] at h
      have := ih i old h
      simp only [List.set_cons_succ, List.map_cons, List.count_cons, beq_iff_eq, Nat.cast_add]
      omega

theorem getElem?_set_self_of_some {α : Type} (l : List α) (i : Nat) (old v : α)
    (h : l[i]? = some old) : (l.set i v)[i]? = some v := by
  have hlt : i < l.length := by
    by_contra hge
    rw [List.getElem?_eq_none (by omega)] at h
    exact Option.noConfusion h
  simp [List.getElem?_set, hlt]

theorem getElem?_set_of_ne {α : Type} (l : List α) (i k : Nat) (v : α) (hne : i ≠ k) :
    (l.set i v)[k]? = l[k]? := by
  simp [List.getElem?_set, hne]

theorem next_alloc (h : Heap) (c : ControlBlock) : (h.alloc c).1.next = h.next + 1 := rfl

theorem alloc_snd (h : Heap) (c : ControlBlock) : (h.alloc c).2 = h.next := rfl

namespace WeakEnabled

theorem Prog.sharedAt_some (p : Prog) (i : Nat) (s : SharedPtr) (h : p.sharedAt i = some s) :
    p.shared[i]? = some (some s) := by
  unfold Prog.sharedAt at h
  rw [List.get?_eq_getElem?] at h
  cases hx : p.shared[i]? with
  | none => simp [hx] at h
  | some o =>
    cases o with
    | none => simp [hx] at h
    | some t =>
      simp [hx] at h
      rw [h]

theorem Prog.weakAt_some (p : Prog) (j : Nat) (w : WeakPtr) (h : p.weakAt j = some w) :
    p.weak[j]? = some (some w) := by
  unfold Prog.weakAt at h
  rw [List.get?_eq_getElem?] at h
  cases hx : p.weak[j]? with
  | none => simp [hx] at h
  | some o =>
    cases o with
    | none => simp [hx] at h
    | some t =>
      simp [hx] at h
      rw [h]

@[simp] theorem blockOfShared_some (s : SharedPtr) : blockOfShared (some s) = s.block_ := rfl

@[simp] theorem blockOfShared_none : blockOfShared none = none := rfl

@[simp] theorem blockOfWeak_some (w : WeakPtr) : blockOfWeak (some w) = w.block_weak_ := rfl

@[simp] theorem blockOfWeak_none : blockOfWeak none = none := rfl

theorem SharedPtr.ctorPromote_cases (h : Heap) (w : WeakPtr) :
    SharedPtr.ctorPromote h w = (h, Except.error BadWeakPtr.mk) ∨
    ∃ b, w.block_weak_ = some b ∧
      SharedPtr.ctorPromote h w
        = (setStrong h b (GetStrongCounter h b + 1),
           Except.ok { pointer_ := w.object_, block_ := some b }) := by
  unfold SharedPtr.ctorPromote
  split_ifs
  · exact Or.inl rfl
  · cases hb : w.block_weak_ with
    | none => exact Or.inl rfl
    | some b => exact Or.inr ⟨b, rfl, rfl⟩

theorem WeakPtr.Lock_cases (h : Heap) (w : WeakPtr) :
    WeakPtr.Lock h w = (h, Except.ok SharedPtr.null) ∨
    WeakPtr.Lock h w = (h, Except.error BadWeakPtr.mk) ∨
    ∃ b, w.block_weak_ = some b ∧
      WeakPtr.Lock h w
        = (setStrong h b (GetStrongCounter h b + 1),
           Except.ok { pointer_ := w.object_, block_ := some b }) := by
  unfold WeakPtr.Lock
  split_ifs
  · exact Or.inl rfl
  · exact Or.inr (SharedPtr.ctorPromote_cases h w)

end WeakEnabled

theorem count_map_ge {α : Type} (f : α → Option Nat) (b : Nat) :
    ∀ (l : List α) (i : Nat) (old : α), l[i]? = some old →
    (if f old = some b then (1 : Int) else 0) ≤ ((l.map f).count (some b) : Int) := by
  intro l
  induction l with
  | nil => intro i old h; simp at h
  | cons a l ih =>
    intro i old h
    cases i with
    | zero =>
      simp only [List.getElem?_cons_zero, Option.some.injEq] at h
      subst h
      simp only [List.map_cons, List.count_cons, beq_iff_eq, Nat.cast_add]
      split_ifs <;> simp
    | succ i =>
      simp only [List.getElem?_cons_succ] at h
      have := ih i old h
      simp only [List.map_cons, List.count_cons, beq_iff_eq, Nat.cast_add]
      split_ifs at * <;> omega

namespace WeakEnabled

theorem SharedPtr.ctorCopy_strong (h : Heap) (s : SharedPtr) (c : Nat) :
    GetStrongCounter (SharedPtr.ctorCopy h s).1 c
      = GetStrongCounter h c + (if s.block_ = some c then 1 else 0) := by
  unfold SharedPtr.ctorCopy
  cases hb : s.block_ with
  | none => simp
  | some b =>
    simp only [GetStrongCounter_setStrong_ite, Option.some.injEq]
    by_cases hcb : c = b
    · subst hcb
      simp
    · have hbc : ¬ b = c := fun e => hcb e.symm
      simp [hcb, hbc]

theorem SharedPtr.ctorCopy_weak (h : Heap) (s : SharedPtr) (c : Nat) :
    GetWeakCounter (SharedPtr.ctorCopy h s).1 c = GetWeakCounter h c := by
  unfold SharedPtr.ctorCopy
  cases hb : s.block_ <;> simp

theorem SharedPtr.ctorCopy_next (h : Heap) (s : SharedPtr) :
    (SharedPtr.ctorCopy h s).1.next = h.next := by
  unfold SharedPtr.ctorCopy
  cases hb : s.block_ <;> simp

theorem SharedPtr.ctorCopy_block (h : Heap) (s : SharedPtr) :
    (SharedPtr.ctorCopy h s).2.block_ = s.block_ := by
  unfold SharedPtr.ctorCopy
  cases hb : s.block_ <;> simp

theorem SharedPtr.assignCopy_strong (h : Heap) (this other : SharedPtr) (c : Nat) :
    GetStrongCounter (SharedPtr.assignCopy h this other false).1 c
      = GetStrongCounter h c - (if this.block_ = some c then 1 else 0)
          + (if other.block_ = some c then 1 else 0) := by
  unfold SharedPtr.assignCopy
  cases hb : other.block_ with
  | none => simp [SharedPtr.release_strong]
  | some b =>
    simp only [GetStrongCounter_setStrong_ite, Option.some.injEq, SharedPtr.release_strong,
      Bool.false_eq_true, if_false]
    by_cases hcb : c = b
    · subst hcb
      simp
    · have hbc : ¬ b = c := fun e => hcb e.symm
      simp [hcb, hbc]

theorem SharedPtr.assignCopy_weak (h : Heap) (this other : SharedPtr) (c : Nat) :
    GetWeakCounter (SharedPtr.assignCopy h this other false).1 c = GetWeakCounter h c := by
  unfold SharedPtr.assignCopy
  cases hb : other.block_ <;> simp [SharedPtr.release_weak]

theorem SharedPtr.assignCopy_next (h : Heap) (this other : SharedPtr) :
    (SharedPtr.assignCopy h this other false).1.next = h.next := by
  unfold SharedPtr.assignCopy
  cases hb : other.block_ <;> simp [SharedPtr.release_next]

theorem SharedPtr.assignCopy_block (h : Heap) (this other : SharedPtr) :
    (SharedPtr.assignCopy h this other false).2.block_ = other.block_ := by
  unfold SharedPtr.assignCopy
  cases hb : other.block_ <;> simp

theorem WeakPtr.weakCopy_weak (h : Heap) (w : WeakPtr) (c : Nat) :
    GetWeakCounter (WeakPtr.ctorCopy h w).1 c
      = GetWeakCounter h c + (if w.block_weak_ = some c then 1 else 0) := by
  unfold WeakPtr.ctorCopy
  cases hb : w.block_weak_ with
  | none => simp
  | some b =>
    simp only [GetWeakCounter_setWeak_ite, Option.some.injEq]
    by_cases hcb : c = b
    · subst hcb
      simp
    · have hbc : ¬ b = c := fun e => hcb e.symm
      simp [hcb, hbc]

theorem WeakPtr.weakCopy_strong (h : Heap) (w : WeakPtr) (c : Nat) :
    GetStrongCounter (WeakPtr.ctorCopy h w).1 c = GetStrongCounter h c := by
  unfold WeakPtr.ctorCopy
  cases hb : w.block_weak_ <;> simp

theorem WeakPtr.weakCopy_next (h : Heap) (w : WeakPtr) :
    (WeakPtr.ctorCopy h w).1.next = h.next := by
  unfold WeakPtr.ctorCopy
  cases hb : w.block_weak_ <;> simp

theorem WeakPtr.weakCopy_block (h : Heap) (w : WeakPtr) :
    (WeakPtr.ctorCopy h w).2.block_weak_ = w.block_weak_ := by
  unfold WeakPtr.ctorCopy
  cases hb : w.block_weak_ <;> simp

theorem WeakPtr.weakAssign_weak (h : Heap) (this other : WeakPtr) (c : Nat) :
    GetWeakCounter (WeakPtr.assignCopy h this other).1 c
      = GetWeakCounter h c - (if this.block_weak_ = some c then 1 else 0)
          + (if other.block_weak_ = some c then 1 else 0) := by
  unfold WeakPtr.assignCopy
  cases hb : other.block_weak_ with
  | none => simp [WeakPtr.Deleter_weak]
  | some b =>
    simp only [GetWeakCounter_setWeak_ite, Option.some.injEq, WeakPtr.Deleter_weak]
    by_cases hcb : c = b
    · subst hcb
      simp
    · have hbc : ¬ b = c := fun e => hcb e.symm
      simp [hcb, hbc]

theorem WeakPtr.weakAssign_strong (h : Heap) (this other : WeakPtr) (c : Nat) :
    GetStrongCounter (WeakPtr.assignCopy h this other).1 c = GetStrongCounter h c := by
  unfold WeakPtr.assignCopy
  cases hb : other.block_weak_ <;> simp [WeakPtr.Deleter_strong_all]

theorem WeakPtr.weakAssign_next (h : Heap) (this other : WeakPtr) :
    (WeakPtr.assignCopy h this other).1.next = h.next := by
  unfold WeakPtr.assignCopy
  cases hb : other.block_weak_ <;> simp [WeakPtr.Deleter_next]

theorem WeakPtr.weakAssign_block (h : Heap) (this other : WeakPtr) :
    (WeakPtr.assignCopy h this other).2.block_weak_ = other.block_weak_ := by
  unfold WeakPtr.assignCopy
  cases hb : other.block_weak_ <;> simp

end WeakEnabled

namespace WeakEnabled

theorem step_counts (p q : Prog) (op : Op) (hstep : step p op = some q)
    (hI : ∀ b,
      GetStrongCounter p.heap b = ((p.shared.map blockOfShared).count (some b) : Int) ∧
      GetWeakCounter p.heap b = ((p.weak.map blockOfWeak).count (some b) : Int) ∧
      (p.heap.next ≤ b →
        ((p.shared.map blockOfShared).count (some b) : Int) = 0 ∧
        ((p.weak.map blockOfWeak).count (some b) : Int) = 0)) :
    ∀ b,
      GetStrongCounter q.heap b = ((q.shared.map blockOfShared).count (some b) : Int) ∧
      GetWeakCounter q.heap b = ((q.weak.map blockOfWeak).count (some b) : Int) ∧
      (q.heap.next ≤ b →
        ((q.shared.map blockOfShared).count (some b) : Int) = 0 ∧
        ((q.weak.map blockOfWeak).count (some b) : Int) = 0) := by
  intro b
  obtain ⟨hS, hW, hN⟩ := hI b
  cases op
  · -- sharedNull
    simp only [step, Option.some.injEq] at hstep
    subst hstep
    simp only [count_map_append, blockOfShared_some, SharedPtr.null, reduceCtorEq, if_false,
      add_zero]
    exact ⟨hS, hW, hN⟩
  · -- wrap
    simp only [step, Option.some.injEq] at hstep
    subst hstep
    simp only [SharedPtr.ctorPtr, count_map_append, blockOfShared_some, GetStrongCounter_alloc,
      GetWeakCounter_alloc, next_alloc, alloc_snd, Option.some.injEq]
    split_ifs <;> omega
  · -- makeShared
    rename_i args
    simp only [step, Option.some.injEq] at hstep
    subst hstep
    simp only [MakeShared, newControlBlockForNewObject, SharedPtr.ctorBlock, count_map_append,
      blockOfShared_some, GetStrongCounter_emit, GetWeakCounter_emit, next_emit,
      GetStrongCounter_alloc, GetWeakCounter_alloc, next_alloc, alloc_snd, Option.some.injEq]
    split_ifs <;> omega
  · -- copy
    rename_i i
    simp only [step, Option.map_eq_some'] at hstep
    obtain ⟨s, hs, rfl⟩ := hstep
    have hpos := count_map_ge blockOfShared b p.shared i (some s) (Prog.sharedAt_some p i s hs)
    simp only [blockOfShared_some] at hpos
    simp only [count_map_append, blockOfShared_some, SharedPtr.ctorCopy_strong,
      SharedPtr.ctorCopy_weak, SharedPtr.ctorCopy_next, SharedPtr.ctorCopy_block]
    split_ifs at * <;> omega
  · -- move
    rename_i i
    simp only [step, Option.map_eq_some'] at hstep
    obtain ⟨s, hs, rfl⟩ := hstep
    have hget := Prog.sharedAt_some p i s hs
    have hpos := count_map_ge blockOfShared b p.shared i (some s) hget
    simp only [blockOfShared_some] at hpos
    simp only [SharedPtr.ctorMove, count_map_append,
      count_map_set blockOfShared b _ p.shared i (some s) hget, blockOfShared_some,
      SharedPtr.null, reduceCtorEq, if_false]
    split_ifs at * <;> omega
  · -- alias
    rename_i i ptr
    simp only [step, Option.bind_eq_some, Option.map_eq_some'] at hstep
    obtain ⟨s, hs, r, hr, rfl⟩ := hstep
    have hget := Prog.sharedAt_some p i s hs
    have hpos := count_map_ge blockOfShared b p.shared i (some s) hget
    simp only [blockOfShared_some] at hpos
    simp only [SharedPtr.ctorAlias, SharedPtr.release] at hr
    cases hb : s.block_ with
    | none => simp [hb] at hr
    | some c =>
      simp only [hb, Option.some.injEq] at hr hpos
      subst hr
      by_cases hcb : c = b
      · subst hcb
        simp only [count_map_append, blockOfShared_some, GetStrongCounter_setStrong_ite,
          GetWeakCounter_setStrong, next_setStrong, Option.some.injEq]
        split_ifs at * <;> omega
      · simp only [count_map_append, blockOfShared_some, GetStrongCounter_setStrong_ite,
          GetWeakCounter_setStrong, next_setStrong, Option.some.injEq]
        split_ifs at * <;> omega
  · -- promote
    rename_i j
    simp only [step, Option.map_eq_some'] at hstep
    obtain ⟨w, hw, rfl⟩ := hstep
    have hget := Prog.weakAt_some p j w hw
    have hpos := count_map_ge blockOfWeak b p.weak j (some w) hget
    simp only [blockOfWeak_some] at hpos
    rcases SharedPtr.ctorPromote_cases p.heap w with h1 | ⟨c, hc, h1⟩
    · rw [h1]
      exact ⟨hS, hW, hN⟩
    · rw [h1]
      simp only [hc, Option.some.injEq] at hpos
      by_cases hcb : c = b
      · subst hcb
        simp only [count_map_append, blockOfShared_some, GetStrongCounter_setStrong_ite,
          GetWeakCounter_setStrong, next_setStrong, Option.some.injEq]
        split_ifs at * <;> omega
      · simp only [count_map_append, blockOfShared_some, GetStrongCounter_setStrong_ite,
          GetWeakCounter_setStrong, next_setStrong, Option.some.injEq]
        split_ifs at * <;> omega
  · -- lock
    rename_i j
    simp only [step, Option.map_eq_some'] at hstep
    obtain ⟨w, hw, rfl⟩ := hstep
    have hget := Prog.weakAt_some p j w hw
    have hpos := count_map_ge blockOfWeak b p.weak j (some w) hget
    simp only [blockOfWeak_some] at hpos
    rcases WeakPtr.Lock_cases p.heap w with h1 | h1 | ⟨c, hc, h1⟩
    · rw [h1]
      simp only [count_map_append, blockOfShared_some, SharedPtr.null, reduceCtorEq, if_false,
        add_zero]
      exact ⟨hS, hW, hN⟩
    · rw [h1]
      exact ⟨hS, hW, hN⟩
    · rw [h1]
      simp only [hc, Option.some.injEq] at hpos
      by_cases hcb : c = b
      · subst hcb
        simp only [count_map_append, blockOfShared_some, GetStrongCounter_setStrong_ite,
          GetWeakCounter_setStrong, next_setStrong, Option.some.injEq]
        split_ifs at * <;> omega
      · simp only [count_map_append, blockOfShared_some, GetStrongCounter_setStrong_ite,
          GetWeakCounter_setStrong, next_setStrong, Option.some.injEq]
        split_ifs at * <;> omega
  · -- assign
    rename_i i k
    simp only [step, Option.bind_eq_some, Option.map_eq_some'] at hstep
    obtain ⟨this, hthis, other, hother, rfl⟩ := hstep
    have hget := Prog.sharedAt_some p i this hthis
    have hgetk := Prog.sharedAt_some p k other hother
    have hpos := count_map_ge blockOfShared b p.shared i (some this) hget
    have hposk := count_map_ge blockOfShared b p.shared k (some other) hgetk
    simp only [blockOfShared_some] at hpos hposk
    by_cases hik : i = k
    · subst hik
      simp only [SharedPtr.assignCopy, beq_self_eq_true, if_true,
        count_map_set blockOfShared b _ p.shared i (some this) hget, blockOfShared_some]
      split_ifs at * <;> omega
    · have hbeq : (i == k) = false := by simp [hik]
      simp only [hbeq, SharedPtr.assignCopy_strong, SharedPtr.assignCopy_weak,
        SharedPtr.assignCopy_next, SharedPtr.assignCopy_block,
        count_map_set blockOfShared b _ p.shared i (some this) hget, blockOfShared_some]
      split_ifs at * <;> omega
  · -- assignMove
    rename_i i k
    simp only [step, Option.bind_eq_some, Option.map_eq_some'] at hstep
    obtain ⟨this, hthis, other, hother, rfl⟩ := hstep
    have hget := Prog.sharedAt_some p i this hthis
    have hgetk := Prog.sharedAt_some p k other hother
    have hpos := count_map_ge blockOfShared b p.shared i (some this) hget
    have hposk := count_map_ge blockOfShared b p.shared k (some other) hgetk
    simp only [blockOfShared_some] at hpos hposk
    by_cases hik : i = k
    · subst hik
      have hsame : other = this := Option.some.inj (hother.symm.trans hthis)
      subst hsame
      have hget2 := getElem?_set_self_of_some p.shared i (some other) (some other) hget
      simp only [SharedPtr.assignMove, beq_self_eq_true, if_true,
        count_map_set blockOfShared b _ _ i (some other) hget2,
        count_map_set blockOfShared b _ p.shared i (some other) hget, blockOfShared_some]
      split_ifs at * <;> omega
    · have hbeq : (i == k) = false := by simp [hik]
      have hget2 : (p.shared.set i (some { pointer_ := other.pointer_, block_ := other.block_ }))[k]?
          = some (some other) := by
        rw [getElem?_set_of_ne _ _ _ _ hik]
        exact hgetk
      simp only [hbeq, SharedPtr.assignMove, Bool.false_eq_true, if_false,
        SharedPtr.release_strong, SharedPtr.release_weak, SharedPtr.release_next,
        count_map_set blockOfShared b _ _ k (some other) hget2,
        count_map_set blockOfShared b _ p.shared i (some this) hget, blockOfShared_some,
        SharedPtr.null, reduceCtorEq]
      split_ifs at * <;> omega
  · -- reset
    rename_i i
    simp only [step, Option.map_eq_some'] at hstep
    obtain ⟨s, hs, rfl⟩ := hstep
    have hget := Prog.sharedAt_some p i s hs
    have hpos := count_map_ge blockOfShared b p.shared i (some s) hget
    simp only [blockOfShared_some] at hpos
    simp only [SharedPtr.Reset, SharedPtr.release_strong, SharedPtr.release_weak,
      SharedPtr.release_next, count_map_set blockOfShared b _ p.shared i (some s) hget,
      blockOfShared_some, SharedPtr.null, reduceCtorEq, if_false]
    split_ifs at * <;> omega
  · -- resetPtr
    rename_i i
    simp only [step, Option.map_eq_some'] at hstep
    obtain ⟨s, hs, rfl⟩ := hstep
    have hget := Prog.sharedAt_some p i s hs
    have hpos := count_map_ge blockOfShared b p.shared i (some s) hget
    simp only [blockOfShared_some] at hpos
    simp only [SharedPtr.ResetPtr, GetStrongCounter_alloc, GetWeakCounter_alloc, next_alloc,
      alloc_snd, SharedPtr.release_strong, SharedPtr.release_weak,
      SharedPtr.release_next, count_map_set blockOfShared b _ p.shared i (some s) hget,
      blockOfShared_some, Option.some.injEq]
    split_ifs at * <;> omega
  · -- swap
    rename_i i k
    simp only [step, Option.bind_eq_some, Option.map_eq_some'] at hstep
    obtain ⟨this, hthis, other, hother, rfl⟩ := hstep
    have hget := Prog.sharedAt_some p i this hthis
    have hgetk := Prog.sharedAt_some p k other hother
    by_cases hik : i = k
    · subst hik
      have hsame : other = this := Option.some.inj (hother.symm.trans hthis)
      subst hsame
      have hget2 := getElem?_set_self_of_some p.shared i (some other) (some other) hget
      simp only [SharedPtr.Swap,
        count_map_set blockOfShared b _ _ i (some other) hget2,
        count_map_set blockOfShared b _ p.shared i (some other) hget, blockOfShared_some]
      split_ifs at * <;> omega
    · have hget2 : (p.shared.set i (some other))[k]? = some (some other) := by
        rw [getElem?_set_of_ne _ _ _ _ hik]
        exact hgetk
      simp only [SharedPtr.Swap,
        count_map_set blockOfShared b _ _ k (some other) hget2,
        count_map_set blockOfShared b _ p.shared i (some this) hget, blockOfShared_some]
      split_ifs at * <;> omega
  · -- destroy
    rename_i i
    simp only [step, Option.map_eq_some'] at hstep
    obtain ⟨s, hs, rfl⟩ := hstep
    have hget := Prog.sharedAt_some p i s hs
    have hpos := count_map_ge blockOfShared b p.shared i (some s) hget
    simp only [blockOfShared_some] at hpos
    simp only [SharedPtr.dtor, SharedPtr.release_strong, SharedPtr.release_weak,
      SharedPtr.release_next, count_map_set blockOfShared b _ p.shared i (some s) hget,
      blockOfShared_some, blockOfShared_none, reduceCtorEq, if_false]
    split_ifs at * <;> omega
  · -- weakNull
    simp only [step, Option.some.injEq] at hstep
    subst hstep
    simp only [count_map_append, blockOfWeak_some, WeakPtr.null, reduceCtorEq, if_false,
      add_zero]
    exact ⟨hS, hW, hN⟩
  · -- weakOfShared
    rename_i i
    simp only [step, Option.bind_eq_some, Option.map_eq_some'] at hstep
    obtain ⟨s, hs, r, hr, rfl⟩ := hstep
    have hget := Prog.sharedAt_some p i s hs
    have hpos := count_map_ge blockOfShared b p.shared i (some s) hget
    simp only [blockOfShared_some] at hpos
    simp only [WeakPtr.ctorShared] at hr
    cases hb : s.block_ with
    | none => simp [hb] at hr
    | some c =>
      simp only [hb, Option.some.injEq] at hr hpos
      subst hr
      by_cases hcb : c = b
      · subst hcb
        simp only [count_map_append, blockOfWeak_some, GetWeakCounter_setWeak_ite,
          GetStrongCounter_setWeak, next_setWeak, Option.some.injEq]
        split_ifs at * <;> omega
      · simp only [count_map_append, blockOfWeak_some, GetWeakCounter_setWeak_ite,
          GetStrongCounter_setWeak, next_setWeak, Option.some.injEq]
        split_ifs at * <;> omega
  · -- weakCopy
    rename_i j
    simp only [step, Option.map_eq_some'] at hstep
    obtain ⟨w, hw, rfl⟩ := hstep
    have hget := Prog.weakAt_some p j w hw
    have hpos := count_map_ge blockOfWeak b p.weak j (some w) hget
    simp only [blockOfWeak_some] at hpos
    simp only [count_map_append, blockOfWeak_some, WeakPtr.weakCopy_strong,
      WeakPtr.weakCopy_weak, WeakPtr.weakCopy_next, WeakPtr.weakCopy_block]
    split_ifs at * <;> omega
  · -- weakMove
    rename_i j
    simp only [step, Option.map_eq_some'] at hstep
    obtain ⟨w, hw, rfl⟩ := hstep
    have hget := Prog.weakAt_some p j w hw
    have hpos := count_map_ge blockOfWeak b p.weak j (some w) hget
    simp only [blockOfWeak_some] at hpos
    simp only [WeakPtr.ctorMove, count_map_append,
      count_map_set blockOfWeak b _ p.weak j (some w) hget, blockOfWeak_some,
      WeakPtr.null, reduceCtorEq, if_false]
    split_ifs at * <;> omega
  · -- weakAssign
    rename_i j l
    simp only [step, Option.bind_eq_some, Option.map_eq_some'] at hstep
    obtain ⟨this, hthis, other, hother, rfl⟩ := hstep
    have hget := Prog.weakAt_some p j this hthis
    have hgetl := Prog.weakAt_some p l other hother
    have hpos := count_map_ge blockOfWeak b p.weak j (some this) hget
    have hposl := count_map_ge blockOfWeak b p.weak l (some other) hgetl
    simp only [blockOfWeak_some] at hpos hposl
    simp only [WeakPtr.weakAssign_strong, WeakPtr.weakAssign_weak,
      WeakPtr.weakAssign_next, WeakPtr.weakAssign_block,
      count_map_set blockOfWeak b _ p.weak j (some this) hget, blockOfWeak_some]
    split_ifs at * <;> omega
  · -- weakAssignMove
    rename_i j l
    simp only [step, Option.bind_eq_some, Option.map_eq_some'] at hstep
    obtain ⟨this, hthis, other, hother, rfl⟩ := hstep
    have hget := Prog.weakAt_some p j this hthis
    have hgetl := Prog.weakAt_some p l other hother
    have hpos := count_map_ge blockOfWeak b p.weak j (some this) hget
    have hposl := count_map_ge blockOfWeak b p.weak l (some other) hgetl
    simp only [blockOfWeak_some] at hpos hposl
    by_cases hjl : j = l
    · subst hjl
      have hsame : other = this := Option.some.inj (hother.symm.trans hthis)
      subst hsame
      have hget2 := getElem?_set_self_of_some p.weak j (some other)
        (some { block_weak_ := other.block_weak_, object_ := other.object_ }) hget
      simp only [WeakPtr.assignMove, WeakPtr.Deleter_weak, WeakPtr.Deleter_strong_all,
        WeakPtr.Deleter_next,
        count_map_set blockOfWeak b _ _ j _ hget2,
        count_map_set blockOfWeak b _ p.weak j (some other) hget, blockOfWeak_some,
        WeakPtr.null, reduceCtorEq]
      split_ifs at * <;> omega
    · have hget2 :
          (p.weak.set j (some { block_weak_ := other.block_weak_, object_ := other.object_ }))[l]?
            = some (some other) := by
        rw [getElem?_set_of_ne _ _ _ _ hjl]
        exact hgetl
      simp only [WeakPtr.assignMove, WeakPtr.Deleter_weak, WeakPtr.Deleter_strong_all,
        WeakPtr.Deleter_next,
        count_map_set blockOfWeak b _ _ l (some other) hget2,
        count_map_set blockOfWeak b _ p.weak j (some this) hget, blockOfWeak_some,
        WeakPtr.null, reduceCtorEq]
      split_ifs at * <;> omega
  · -- weakReset
    rename_i j
    simp only [step, Option.map_eq_some'] at hstep
    obtain ⟨w, hw, rfl⟩ := hstep
    have hget := Prog.weakAt_some p j w hw
    have hpos := count_map_ge blockOfWeak b p.weak j (some w) hget
    simp only [blockOfWeak_some] at hpos
    simp only [WeakPtr.Reset, WeakPtr.Deleter_weak, WeakPtr.Deleter_strong_all,
      WeakPtr.Deleter_next, count_map_set blockOfWeak b _ p.weak j (some w) hget,
      blockOfWeak_some, WeakPtr.null, reduceCtorEq, if_false]
    split_ifs at * <;> omega
  · -- weakSwap
    rename_i j l
    simp only [step, Option.bind_eq_some, Option.map_eq_some'] at hstep
    obtain ⟨this, hthis, other, hother, rfl⟩ := hstep
    have hget := Prog.weakAt_some p j this hthis
    have hgetl := Prog.weakAt_some p l other hother
    by_cases hjl : j = l
    · subst hjl
      have hsame : other = this := Option.some.inj (hother.symm.trans hthis)
      subst hsame
      have hget2 := getElem?_set_self_of_some p.weak j (some other) (some other) hget
      simp only [WeakPtr.Swap,
        count_map_set blockOfWeak b _ _ j (some other) hget2,
        count_map_set blockOfWeak b _ p.weak j (some other) hget, blockOfWeak_some]
      split_ifs at * <;> omega
    · have hget2 : (p.weak.set j (some other))[l]? = some (some other) := by
        rw [getElem?_set_of_ne _ _ _ _ hjl]
        exact hgetl
      simp only [WeakPtr.Swap,
        count_map_set blockOfWeak b _ _ l (some other) hget2,
        count_map_set blockOfWeak b _ p.weak j (some this) hget, blockOfWeak_some]
      split_ifs at * <;> omega
  · -- weakDestroy
    rename_i j
    simp only [step, Option.map_eq_some'] at hstep
    obtain ⟨w, hw, rfl⟩ := hstep
    have hget := Prog.weakAt_some p j w hw
    have hpos := count_map_ge blockOfWeak b p.weak j (some w) hget
    simp only [blockOfWeak_some] at hpos
    simp only [WeakPtr.dtor, WeakPtr.Deleter_weak, WeakPtr.Deleter_strong_all,
      WeakPtr.Deleter_next, count_map_set blockOfWeak b _ p.weak j (some w) hget,
      blockOfWeak_some, blockOfWeak_none, reduceCtorEq, if_false]
    split_ifs at * <;> omega

end WeakEnabled

namespace WeakEnabled

theorem run_counts (ops : List Op) : ∀ (p q : Prog), run p ops = some q →
    (∀ b,
      GetStrongCounter p.heap b = ((p.shared.map blockOfShared).count (some b) : Int) ∧
      GetWeakCounter p.heap b = ((p.weak.map blockOfWeak).count (some b) : Int) ∧
      (p.heap.next ≤ b →
        ((p.shared.map blockOfShared).count (some b) : Int) = 0 ∧
        ((p.weak.map blockOfWeak).count (some b) : Int) = 0)) →
    ∀ b,
      GetStrongCounter q.heap b = ((q.shared.map blockOfShared).count (some b) : Int) ∧
      GetWeakCounter q.heap b = ((q.weak.map blockOfWeak).count (some b) : Int) ∧
      (q.heap.next ≤ b →
        ((q.shared.map blockOfShared).count (some b) : Int) = 0 ∧
        ((q.weak.map blockOfWeak).count (some b) : Int) = 0) := by
  induction ops with
  | nil =>
    intro p q hrun hI
    simp only [run, Option.some.injEq] at hrun
    subst hrun
    exact hI
  | cons op ops ih =>
    intro p q hrun hI
    simp only [run, Option.bind_eq_some] at hrun
    obtain ⟨r, hr, hrest⟩ := hrun
    exact ih r q hrest (step_counts p r op hr hI)

theorem step_lengths (p q : Prog) (op : Op) (hstep : step p op = some q) :
    q.shared.length + q.weak.length ≤ p.shared.length + p.weak.length + 1 := by
  cases op
  all_goals
    simp only [step, Option.some.injEq, Option.map_eq_some', Option.bind_eq_some] at hstep
  · -- sharedNull
    subst hstep
    simp only [List.length_append, List.length_set, List.length_singleton, List.length_cons,
      List.length_nil]
    omega
  · -- wrap
    subst hstep
    simp only [List.length_append, List.length_set, List.length_singleton, List.length_cons,
      List.length_nil]
    omega
  · -- makeShared
    subst hstep
    simp only [List.length_append, List.length_set, List.length_singleton, List.length_cons,
      List.length_nil]
    omega
  · -- copy
    obtain ⟨s, -, rfl⟩ := hstep
    simp only [List.length_append, List.length_set, List.length_singleton, List.length_cons,
      List.length_nil]
    omega
  · -- move
    obtain ⟨s, -, rfl⟩ := hstep
    simp only [List.length_append, List.length_set, List.length_singleton, List.length_cons,
      List.length_nil]
    omega
  · -- alias
    obtain ⟨s, -, r, -, rfl⟩ := hstep
    simp only [List.length_append, List.length_set, List.length_singleton, List.length_cons,
      List.length_nil]
    omega
  · -- promote
    obtain ⟨w, -, rfl⟩ := hstep
    rcases SharedPtr.ctorPromote_cases p.heap w with h1 | ⟨c, -, h1⟩ <;> rw [h1] <;>
      simp only [List.length_append, List.length_set, List.length_singleton, List.length_cons,
        List.length_nil] <;> omega
  · -- lock
    obtain ⟨w, -, rfl⟩ := hstep
    rcases WeakPtr.Lock_cases p.heap w with h1 | h1 | ⟨c, -, h1⟩ <;> rw [h1] <;>
      simp only [List.length_append, List.length_set, List.length_singleton, List.length_cons,
        List.length_nil] <;> omega
  · -- assign
    obtain ⟨this, -, other, -, rfl⟩ := hstep
    simp only [List.length_append, List.length_set, List.length_singleton, List.length_cons,
      List.length_nil]
    omega
  · -- assignMove
    obtain ⟨this, -, other, -, rfl⟩ := hstep
    simp only [List.length_append, List.length_set, List.length_singleton, List.length_cons,
      List.length_nil]
    omega
  · -- reset
    obtain ⟨s, -, rfl⟩ := hstep
    simp only [List.length_append, List.length_set, List.length_singleton, List.length_cons,
      List.length_nil]
    omega
  · -- resetPtr
    obtain ⟨s, -, rfl⟩ := hstep
    simp only [List.length_append, List.length_set, List.length_singleton, List.length_cons,
      List.length_nil]
    omega
  · -- swap
    obtain ⟨this, -, other, -, rfl⟩ := hstep
    simp only [List.length_append, List.length_set, List.length_singleton, List.length_cons,
      List.length_nil]
    omega
  · -- destroy
    obtain ⟨s, -, rfl⟩ := hstep
    simp only [List.length_append, List.length_set, List.length_singleton, List.length_cons,
      List.length_nil]
    omega
  · -- weakNull
    subst hstep
    simp only [List.length_append, List.length_set, List.length_singleton, List.length_cons,
      List.length_nil]
    omega
  · -- weakOfShared
    obtain ⟨s, -, r, -, rfl⟩ := hstep
    simp only [List.length_append, List.length_set, List.length_singleton, List.length_cons,
      List.length_nil]
    omega
  · -- weakCopy
    obtain ⟨w, -, rfl⟩ := hstep
    simp only [List.length_append, List.length_set, List.length_singleton, List.length_cons,
      List.length_nil]
    omega
  · -- weakMove
    obtain ⟨w, -, rfl⟩ := hstep
    simp only [List.length_append, List.length_set, List.length_singleton, List.length_cons,
      List.length_nil]
    omega
  · -- weakAssign
    obtain ⟨this, -, other, -, rfl⟩ := hstep
    simp only [List.length_append, List.length_set, List.length_singleton, List.length_cons,
      List.length_nil]
    omega
  · -- weakAssignMove
    obtain ⟨this, -, other, -, rfl⟩ := hstep
    simp only [List.length_append, List.length_set, List.length_singleton, List.length_cons,
      List.length_nil]
    omega
  · -- weakReset
    obtain ⟨w, -, rfl⟩ := hstep
    simp only [List.length_append, List.length_set, List.length_singleton, List.length_cons,
      List.length_nil]
    omega
  · -- weakSwap
    obtain ⟨this, -, other, -, rfl⟩ := hstep
    simp only [List.length_append, List.length_set, List.length_singleton, List.length_cons,
      List.length_nil]
    omega
  · -- weakDestroy
    obtain ⟨w, -, rfl⟩ := hstep
    simp only [List.length_append, List.length_set, List.length_singleton, List.length_cons,
      List.length_nil]
    omega

theorem run_lengths (ops : List Op) : ∀ (p q : Prog), run p ops = some q →
    q.shared.length + q.weak.length ≤ p.shared.length + p.weak.length + ops.length := by
  induction ops with
  | nil =>
    intro p q hrun
    simp only [run, Option.some.injEq] at hrun
    subst hrun
    simp
  | cons op ops ih =>
    intro p q hrun
    simp only [run, Option.bind_eq_some] at hrun
    obtain ⟨r, hr, hrest⟩ := hrun
    have h1 := step_lengths p r op hr
    have h2 := ih r q hrest
    simp only [List.length_cons]
    omega

theorem definedAlong_run (ops : List Op) : ∀ (p q : Prog), definedAlong p ops = true →
    run p ops = some q → q.wellDefined = true := by
  induction ops with
  | nil =>
    intro p q hdef hrun
    simp only [run, Option.some.injEq] at hrun
    subst hrun
    exact hdef
  | cons op ops ih =>
    intro p q hdef hrun
    simp only [run, Option.bind_eq_some] at hrun
    obtain ⟨r, hr, hrest⟩ := hrun
    simp only [definedAlong, hr, Bool.and_eq_true] at hdef
    exact ih r q hdef.2 hrest

theorem Prog.wellDefined_shared (p : Prog) (hp : p.wellDefined = true) (i : Nat)
    (s : SharedPtr) (b : Nat) (hs : p.sharedAt i = some s) (hb : s.block_ = some b) :
    freedCount p.heap.log b = 0 := by
  simp only [Prog.wellDefined, Bool.and_eq_true, List.all_eq_true] at hp
  have hmem : (some s) ∈ p.shared := List.getElem?_mem (Prog.sharedAt_some p i s hs)
  have := hp.1.2 (some s) hmem
  simpa [blockOfShared, hb] using this

theorem Prog.wellDefined_weak (p : Prog) (hp : p.wellDefined = true) (j : Nat)
    (w : WeakPtr) (b : Nat) (hw : p.weakAt j = some w) (hb : w.block_weak_ = some b) :
    freedCount p.heap.log b = 0 := by
  simp only [Prog.wellDefined, Bool.and_eq_true, List.all_eq_true] at hp
  have hmem : (some w) ∈ p.weak := List.getElem?_mem (Prog.weakAt_some p j w hw)
  have := hp.2 (some w) hmem
  simpa [blockOfWeak, hb] using this

/-- C27.  Take a program of the weak-enabled implementation that starts from no
handles and runs public handle operations (declaration of an empty handle,
wrap, MakeShared, copy, move, aliasing, promotion, Lock, copy and move
assignment, Reset, Reset(ptr), Swap and destruction of shared handles; default
construction, construction from a shared handle, copy, move, copy and move
assignment, Reset, Swap and destruction of weak handles), at most `INT_MAX` of
them (so that no counter, which counts handles, can overflow), every state it
passes through being well defined (no object destroyed twice, no block freed
twice, no live handle on a freed block).  In the state it reaches, for every
control block that has not been freed: the strong counter equals the number
of live shared handles that reference it, the weak counter equals the number
of live weak handles that reference it, and both lie between 0 and `INT_MAX`.
The block of every live handle is such a block, so `UseCount()` of a live
shared handle with a block is the number of live shared handles on its
block. -/
theorem C27_strong_counter_counts_live_handles (ops : List Op) (p : Prog)
    (hrun : run Prog.init ops = some p)
    (hlen : (ops.length : Int) ≤ INT_MAX)
    (hdef : definedAlong Prog.init ops = true) :
    (∀ b, freedCount p.heap.log b = 0 →
        GetStrongCounter p.heap b = (countShared p b : Int) ∧
        GetWeakCounter p.heap b = (countWeak p b : Int) ∧
        0 ≤ GetStrongCounter p.heap b ∧ GetStrongCounter p.heap b ≤ INT_MAX ∧
        0 ≤ GetWeakCounter p.heap b ∧ GetWeakCounter p.heap b ≤ INT_MAX) ∧
    (∀ i s b, p.sharedAt i = some s → s.block_ = some b →
        freedCount p.heap.log b = 0 ∧
        SharedPtr.UseCount p.heap s = countShared p b ∧ 1 ≤ countShared p b) ∧
    (∀ j w b, p.weakAt j = some w → w.block_weak_ = some b →
        freedCount p.heap.log b = 0 ∧ 1 ≤ countWeak p b) := by
  have key := run_counts ops Prog.init p hrun (fun b => ⟨rfl, rfl, fun _ => ⟨rfl, rfl⟩⟩)
  have hwd := definedAlong_run ops Prog.init p hdef hrun
  have hl := run_lengths ops Prog.init p hrun
  simp only [Prog.init, List.length_nil, Nat.zero_add] at hl
  have hcs : ∀ b, countShared p b ≤ p.shared.length := by
    intro b
    unfold countShared
    exact (List.count_le_length _ _).trans (by simp)
  have hcw : ∀ b, countWeak p b ≤ p.weak.length := by
    intro b
    unfold countWeak
    exact (List.count_le_length _ _).trans (by simp)
  refine ⟨?_, ?_, ?_⟩
  · intro b _
    have h1 := hcs b
    have h2 := hcw b
    refine ⟨(key b).1, (key b).2.1, ?_, ?_, ?_, ?_⟩
    · rw [(key b).1]
      exact Int.natCast_nonneg _
    · rw [(key b).1]
      unfold countShared at h1
      omega
    · rw [(key b).2.1]
      exact Int.natCast_nonneg _
    · rw [(key b).2.1]
      unfold countWeak at h2
      omega
  · intro i s b hs hb
    have hpos := count_map_ge blockOfShared b p.shared i (some s) (Prog.sharedAt_some p i s hs)
    simp only [blockOfShared_some, hb, if_true] at hpos
    refine ⟨Prog.wellDefined_shared p hwd i s b hs hb, ?_, ?_⟩
    · unfold SharedPtr.UseCount
      rw [hb]
      simp only [(key b).1, toSizeT_natCast, countShared]
    · unfold countShared
      omega
  · intro j w b hw hb
    have hpos := count_map_ge blockOfWeak b p.weak j (some w) (Prog.weakAt_some p j w hw)
    simp only [blockOfWeak_some, hb, if_true] at hpos
    refine ⟨Prog.wellDefined_weak p hwd j w b hw hb, ?_⟩
    unfold countWeak
    omega

/-- Witness of C27: wrap, copy, a weak handle made from the first shared handle,
Lock on it, destruction of the copy.  Block 0 is then referenced by two live
shared handles and one live weak handle. -/
theorem C27_strong_counter_counts_live_handles_witness :
    GetStrongCounter
        ((run Prog.init [Op.wrap, Op.copy 0, Op.weakOfShared 0, Op.lock 0, Op.destroy 1]).getD
          Prog.init).heap 0 = 2 ∧
    countShared
        ((run Prog.init [Op.wrap, Op.copy 0, Op.weakOfShared 0, Op.lock 0, Op.destroy 1]).getD
          Prog.init) 0 = 2 ∧
    GetWeakCounter
        ((run Prog.init [Op.wrap, Op.copy 0, Op.weakOfShared 0, Op.lock 0, Op.destroy 1]).getD
          Prog.init).heap 0 = 1 := by
  have key := (C27_strong_counter_counts_live_handles
    [Op.wrap, Op.copy 0, Op.weakOfShared 0, Op.lock 0, Op.destroy 1]
    ((run Prog.init [Op.wrap, Op.copy 0, Op.weakOfShared 0, Op.lock 0, Op.destroy 1]).getD
      Prog.init) rfl (by decide) rfl).1 0 (by decide)
  exact ⟨key.1.trans (by decide), by decide, key.2.1.trans (by decide)⟩

end WeakEnabled

end SmartPointers
